import Mathlib

/-! The websocket hub of `internal/websocket/hub.go`

A shallow embedding of the hub: the registry map `clients`, the hub's own buffered
`broadcast` channel, the outbound queues of the clients, and the two external collaborators the
hub calls (the presence store and the broker), followed by the properties proved about them.

Conventions of the embedding.

* A Go `map[string][]*Client` is an association list with pairwise distinct keys
  (`AList`); a write `m[k] = v` is `AList.insert`, `delete(m, k)` is `AList.erase`. The order of
  the entries has no meaning, as in Go; no result below depends on it.
* A `*Client` is a record of its immutable fields. Its channel `send` is shared mutable state, so
  the record holds the identity of the channel (a number) and the contents of all channels live
  in the `queues` component of the state. Submitting the same client twice therefore refers to
  the same queue twice, as with a pointer.
* The channels carry `*Message`. A queued message is the record of the fields of the struct it
  points to, together with the identity of the allocation when code outside the hub holds the
  pointer too; the one write to a message in `hub.go`, `msg.TargetUserID = userID` in
  `SendToUser`, shows in every queued message of the same identity.
* A step of the dispatch loop either completes, or parks forever on a send to the hub's own
  `broadcast` channel (nothing but the dispatch loop receives from it), or raises a run-time panic
  (send on, or close of, a closed channel); in each case the state the hub's memory is left in is
  kept.
* Logging has no effect on the state and is left out. The mutex delimits the steps: each step of
  the dispatch loop below is one critical section, and a step that parks keeps the mutex.
-/

/-- Modelled from the spec: `message.go` is absent from the sources. The type tag of a message
envelope; `TypeUserOnline` and `TypeUserOffline` are the two tags `broadcastPresence` uses, every
other tag is `other`. -/
inductive MessageType where
  | userOnline
  | userOffline
  | other (tag : String)
  deriving DecidableEq, Repr

/-- Modelled from the spec: the payload of a message is a structured value the hub never inspects
(Go `map[string]interface{}`); here a list of key/value pairs. -/
abbrev Payload := List (String × String)

/-- Modelled from the spec: `message.go` is absent from the sources. The message envelope
`{type, targetUserID, data}`; an empty `targetUserID` means that no target is set.

`hub.go` handles messages through pointers (`*Message`), and so do the channels. A value of this
type stands for such a pointer: the fields of the struct it points to, and in `ref` the identity
of the allocation when the caller of `SendToUser` or `BroadcastToAll` holds the pointer and may
hand it in again. Two values with the same identity point to one struct. The messages the hub
allocates itself (`NewMessage` in `broadcastPresence`, the variable `broadcastMsg` of the relay
loop) are referred to by nobody else and carry no identity. -/
structure Message where
  type : MessageType
  targetUserID : String
  data : Payload
  ref : Option Nat := none
  deriving DecidableEq, Repr

namespace Message

/-- What a reader of the message sees: the fields of the struct. -/
def fields (m : Message) : MessageType × String × Payload :=
  (m.type, m.targetUserID, m.data)

/-- The assignment `msg.TargetUserID = userID` as it shows through the pointer `m`: the field of
`m` changes when `m` points to the struct `msg` points to. -/
def retarget (msg : Message) (userID : String) (m : Message) : Message :=
  if msg.ref ≠ none ∧ m.ref = msg.ref then { m with targetUserID := userID } else m

end Message

/-- Modelled from the spec: `NewMessage` of the absent `message.go` builds an envelope with the
given tag and payload and no target. -/
def NewMessage (msgType : MessageType) (data : Payload) : Message :=
  { type := msgType, targetUserID := "", data := data }

/-- Modelled from the spec: `client.go` is absent from the sources. A connection handle with the
fields `hub.go` reads: `ID`, `UserID`, `UserAgent`, and the identity of its outbound channel
`send`. -/
structure Client where
  id : String
  userID : String
  userAgent : String
  send : Nat
  deriving DecidableEq, Repr

/-- A Go buffered channel of messages: the pending elements, the capacity, and whether it has been
closed. -/
structure Chan where
  buf : List Message
  cap : Nat
  closed : Bool
  deriving DecidableEq, Repr

/-- A call the hub makes to the presence store (`cache.SetPresence`, `cache.RemovePresence`). -/
inductive PresenceOp where
  | set (userID clientID : String) (metadata : Payload)
  | remove (userID clientID : String)
  deriving DecidableEq, Repr

/-- The registry map: userID ↦ the sequence of that user's connections. -/
abbrev ClientMap := AList (fun _ : String => List Client)

/-- The hub and the part of the world its steps act on.

* `clients`: the field `clients` of the Go struct;
* `broadcast`: the pending elements of the field `broadcast`, a channel of capacity
  `broadcastCap` that is never closed;
* `queues`: the state of every client's `send` channel, by channel identity;
* `presence`: the calls made so far to the presence store, oldest first;
* `published`: the messages passed so far to `cache.PublishMessage`, with their topic. -/
structure Hub where
  clients : ClientMap
  broadcast : List Message
  queues : Nat → Chan
  presence : List PresenceOp
  published : List (String × Message)

/-- Capacity of the `broadcast` channel: `make(chan *Message, 256)` in `NewHub`. -/
def broadcastCap : Nat := 256

/-- The broker topic of `Run` and `broadcastPresence`. -/
def broadcastTopic : String := "websocket:broadcast"

/-- The function `NewHub`: an empty registry and an empty broadcast channel. The outbound queues
of the clients that will connect are created outside the hub and are a parameter; nothing has
been sent to the presence store or the broker yet. -/
def NewHub (queues : Nat → Chan) : Hub :=
  { clients := ∅, broadcast := [], queues := queues, presence := [], published := [] }

/-- How a step of the dispatch loop, or a call of `SendToUser` or `BroadcastToAll` by another
goroutine, ends. -/
inductive Outcome where
  /-- The step returned, leaving the hub in this state. -/
  | done (h : Hub)
  /-- The step is parked on a send to the full `broadcast` channel; the state is the one reached
  when it parked. A step of the dispatch loop is parked forever, since the dispatch loop is the
  only receiver; a caller of `SendToUser` or `BroadcastToAll` is parked until the dispatch loop
  has taken a message. -/
  | blocked (h : Hub)
  /-- The step raised a run-time panic; the state is the one the statements executed before the
  panic have left (the deferred `h.mu.Unlock()` has run). -/
  | panicked (h : Hub)

namespace Outcome

/-- The state in which the step left the hub when it returned or parked; `none` when it
panicked. -/
def state? : Outcome → Option Hub
  | done h => some h
  | blocked h => some h
  | panicked _ => none

/-- Whether the step returned. -/
def completed : Outcome → Bool
  | done _ => true
  | _ => false

/-- The state of the hub's memory when the step stopped, however it ended. -/
def hub : Outcome → Hub
  | done h => h
  | blocked h => h
  | panicked h => h

/-- A query method (`GetConnectedUsers`, `GetTotalConnections`, `IsUserConnected`,
`GetUserConnectionCount`) called after a step of the dispatch loop. Each of them starts with
`h.mu.RLock()`, and `registerClient` and `unregisterClient` hold `h.mu` from their first statement
until they return: the query is answered on the state the step leaves when it returns or panics
(the deferred unlock runs), and is never answered (`none`) when the step is parked. -/
def query {α : Type} (o : Outcome) (q : Hub → α) : Option α :=
  match o with
  | done h => some (q h)
  | blocked _ => none
  | panicked h => some (q h)

end Outcome

namespace Hub

/-- The Go expression `h.clients[userID]`: the sequence stored under the key, `nil` when the key
is absent. -/
def clientsOf (h : Hub) (userID : String) : List Client :=
  (h.clients.lookup userID).getD []

/-- The method `getTotalConnectionsUnsafe`: the sum of the lengths of all sequences. -/
def getTotalConnectionsUnsafe (h : Hub) : Nat :=
  h.clients.entries.foldl (fun total e => total + e.2.length) 0

/-- The method `GetConnectedUsers`: `len(h.clients)`. -/
def GetConnectedUsers (h : Hub) : Nat :=
  h.clients.entries.length

/-- The method `GetTotalConnections`. -/
def GetTotalConnections (h : Hub) : Nat :=
  h.getTotalConnectionsUnsafe

/-- The method `IsUserConnected`: `ok && len(clients) > 0`. -/
def IsUserConnected (h : Hub) (userID : String) : Bool :=
  match h.clients.lookup userID with
  | some clients => decide (clients.length > 0)
  | none => false

/-- The method `GetUserConnectionCount`. -/
def GetUserConnectionCount (h : Hub) (userID : String) : Nat :=
  match h.clients.lookup userID with
  | some clients => clients.length
  | none => 0

/-- The message built by `broadcastPresence`. -/
def presenceMessage (userID : String) (isOnline : Bool) : Message :=
  if isOnline then
    NewMessage MessageType.userOnline [("userId", userID), ("status", "online")]
  else
    NewMessage MessageType.userOffline [("userId", userID), ("status", "offline")]

/-- The method `broadcastPresence`: a blocking send of the presence message on the hub's own
`broadcast` channel, then a publish to the broker. The send parks when the channel holds
`broadcastCap` elements. -/
def broadcastPresence (h : Hub) (userID : String) (isOnline : Bool) : Outcome :=
  let msg := presenceMessage userID isOnline
  if h.broadcast.length < broadcastCap then
    Outcome.done { h with
      broadcast := h.broadcast ++ [msg]
      published := h.published ++ [(broadcastTopic, msg)] }
  else
    Outcome.blocked h

/-- The method `registerClient`. -/
def registerClient (h : Hub) (client : Client) : Outcome :=
  let h1 : Hub :=
    { h with clients := h.clients.insert client.userID (h.clientsOf client.userID ++ [client]) }
  let deviceCount := (h1.clientsOf client.userID).length
  let metadata : Payload := [("userAgent", client.userAgent), ("clientID", client.id)]
  let h2 : Hub :=
    { h1 with presence := h1.presence ++ [PresenceOp.set client.userID client.id metadata] }
  if deviceCount = 1 then
    broadcastPresence h2 client.userID true
  else
    Outcome.done h2

/-- The loop of `unregisterClient` over the user's sequence: the first element whose id is
`clientID`, together with the sequence without it (`append(clients[:i], clients[i+1:]...)`);
`none` when no element has that id. -/
def removeFirst (clientID : String) : List Client → Option (Client × List Client)
  | [] => none
  | c :: cs =>
    if c.id = clientID then some (c, cs)
    else
      match removeFirst clientID cs with
      | some (d, rest) => some (d, c :: rest)
      | none => none

/-- The tail of `unregisterClient`, after the loop: delete the user and announce it offline when
no device is left, and remove the presence entry in both cases. -/
def finishUnregister (h : Hub) (client : Client) : Outcome :=
  if (h.clientsOf client.userID).length = 0 then
    let h1 : Hub := { h with clients := h.clients.erase client.userID }
    let h2 : Hub :=
      { h1 with presence := h1.presence ++ [PresenceOp.remove client.userID client.id] }
    broadcastPresence h2 client.userID false
  else
    Outcome.done
      { h with presence := h.presence ++ [PresenceOp.remove client.userID client.id] }

/-- The method `unregisterClient`. The shortened sequence is stored in the map before
`close(c.send)` is executed, so a panic of `close` leaves it there. -/
def unregisterClient (h : Hub) (client : Client) : Outcome :=
  match h.clients.lookup client.userID with
  | some clients =>
    match removeFirst client.id clients with
    | some (c, rest) =>
      let h1 : Hub := { h with clients := h.clients.insert client.userID rest }
      if (h1.queues c.send).closed then
        Outcome.panicked h1
      else
        finishUnregister
          { h1 with queues := Function.update h1.queues c.send
                      { h1.queues c.send with closed := true } }
          client
    | none => finishUnregister h client
  | none => Outcome.done h

/-- The statement `select { case client.send <- message: ... default: ... }`: a panic (`none`)
on a closed channel, an append when the channel is below capacity, and no effect when it is
full. -/
def trySend (queues : Nat → Chan) (client : Client) (message : Message) : Option (Nat → Chan) :=
  if (queues client.send).closed then none
  else if (queues client.send).buf.length < (queues client.send).cap then
    some (Function.update queues client.send
      { queues client.send with buf := (queues client.send).buf ++ [message] })
  else some queues

/-- The loop `for _, client := range clients { select ... }` of `broadcastMessage`. -/
def sendEach (message : Message) : List Client → (Nat → Chan) → Option (Nat → Chan)
  | [], queues => some queues
  | client :: rest, queues =>
    match trySend queues client message with
    | some queues' => sendEach message rest queues'
    | none => none

/-- The loop `for userID, clients := range h.clients { for _, client := range clients ... }` of
`broadcastMessage`, over the entries of the map. -/
def sendAll (message : Message) :
    List (Sigma fun _ : String => List Client) → (Nat → Chan) → Option (Nat → Chan)
  | [], queues => some queues
  | e :: es, queues =>
    match sendEach message e.2 queues with
    | some queues' => sendAll message es queues'
    | none => none

/-- The queues at the moment the loop of `sendEach` stops: after its last send when it runs to
the end, and as the sends before the first closed channel have left them when it panics. -/
def sendEachUpTo (message : Message) : List Client → (Nat → Chan) → (Nat → Chan)
  | [], queues => queues
  | client :: rest, queues =>
    match trySend queues client message with
    | some queues' => sendEachUpTo message rest queues'
    | none => queues

/-- The queues at the moment the loops of `sendAll` stop. -/
def sendAllUpTo (message : Message) :
    List (Sigma fun _ : String => List Client) → (Nat → Chan) → (Nat → Chan)
  | [], queues => queues
  | e :: es, queues =>
    match sendEach message e.2 queues with
    | some queues' => sendAllUpTo message es queues'
    | none => sendEachUpTo message e.2 queues

/-- The method `broadcastMessage`. -/
def broadcastMessage (h : Hub) (message : Message) : Outcome :=
  if message.targetUserID ≠ "" then
    match h.clients.lookup message.targetUserID with
    | some clients =>
      match sendEach message clients h.queues with
      | some queues' => Outcome.done { h with queues := queues' }
      | none => Outcome.panicked { h with queues := sendEachUpTo message clients h.queues }
    | none => Outcome.done h
  else
    match sendAll message h.clients.entries h.queues with
    | some queues' => Outcome.done { h with queues := queues' }
    | none => Outcome.panicked { h with queues := sendAllUpTo message h.clients.entries h.queues }

/-- The statement `close(client.send)`: a panic (`none`) when the channel is already closed. -/
def closeQueue (queues : Nat → Chan) (client : Client) : Option (Nat → Chan) :=
  if (queues client.send).closed then none
  else some (Function.update queues client.send { queues client.send with closed := true })

/-- The inner loop of `closeAllConnections`. -/
def closeEach : List Client → (Nat → Chan) → Option (Nat → Chan)
  | [], queues => some queues
  | client :: rest, queues =>
    match closeQueue queues client with
    | some queues' => closeEach rest queues'
    | none => none

/-- The outer loop of `closeAllConnections`, over the entries of the map. -/
def closeAll : List (Sigma fun _ : String => List Client) → (Nat → Chan) → Option (Nat → Chan)
  | [], queues => some queues
  | e :: es, queues =>
    match closeEach e.2 queues with
    | some queues' => closeAll es queues'
    | none => none

/-- The queues at the moment the loop of `closeEach` stops: the channels before the first one
that is closed already have been closed. -/
def closeEachUpTo : List Client → (Nat → Chan) → (Nat → Chan)
  | [], queues => queues
  | client :: rest, queues =>
    match closeQueue queues client with
    | some queues' => closeEachUpTo rest queues'
    | none => queues

/-- The queues at the moment the loops of `closeAll` stop. -/
def closeAllUpTo : List (Sigma fun _ : String => List Client) → (Nat → Chan) → (Nat → Chan)
  | [], queues => queues
  | e :: es, queues =>
    match closeEach e.2 queues with
    | some queues' => closeAllUpTo es queues'
    | none => closeEachUpTo e.2 queues

/-- The method `closeAllConnections`. The map is replaced after the loops, so a panic of `close`
leaves it as it was. -/
def closeAllConnections (h : Hub) : Outcome :=
  match closeAll h.clients.entries h.queues with
  | some queues' => Outcome.done { h with clients := ∅, queues := queues' }
  | none => Outcome.panicked { h with queues := closeAllUpTo h.clients.entries h.queues }

end Hub

/-- A request handed to the dispatch loop on the `register` or the `unregister` channel. -/
inductive RegistryOp where
  | register (client : Client)
  | unregister (client : Client)
  deriving DecidableEq, Repr

namespace Hub

/-- One iteration of the dispatch loop of `Run` for a registry request. -/
def applyOp (h : Hub) : RegistryOp → Outcome
  | RegistryOp.register client => h.registerClient client
  | RegistryOp.unregister client => h.unregisterClient client

/-- A stretch of the dispatch loop of `Run` in which it takes registry requests only, one after
the other, the next one when the step before it has returned; the arm
`case message := <-h.broadcast` is not taken in between (`runEvents` below has it). -/
def runOps : Hub → List RegistryOp → Outcome
  | h, [] => Outcome.done h
  | h, op :: ops =>
    match h.applyOp op with
    | Outcome.done h' => runOps h' ops
    | Outcome.blocked h' => Outcome.blocked h'
    | Outcome.panicked h' => Outcome.panicked h'

end Hub

/-- What `pubsub.ReceiveMessage` hands to the relay loop of `Run`: an error, or a message of the
broker topic with its payload. -/
inductive Received where
  | error
  | payload (p : String)
  deriving DecidableEq, Repr

namespace Hub

/-- The statement `h.broadcast <- msg` executed by a goroutine other than the dispatch loop (in
`SendToUser`, `BroadcastToAll` and the relay loop of `Run`): the send goes through when the
channel is below capacity; otherwise the sender waits until the dispatch loop has taken a
message, and there is no step yet (`none`). -/
def enqueue (h : Hub) (msg : Message) : Option Hub :=
  if h.broadcast.length < broadcastCap then
    some { h with broadcast := h.broadcast ++ [msg] }
  else none

/-- The statement `msg.TargetUserID = userID` of `SendToUser`. It writes to the struct `msg`
points to, so it shows in every message of that identity that is pending on `h.broadcast` or on
the outbound queue of a client. What has been passed to the broker is serialised and does not
change. -/
def assignTarget (h : Hub) (msg : Message) (userID : String) : Hub :=
  { h with
    broadcast := h.broadcast.map (msg.retarget userID)
    queues := fun i => { h.queues i with buf := (h.queues i).buf.map (msg.retarget userID) } }

/-- The method `SendToUser`: `msg.TargetUserID = userID`, then the send on `h.broadcast` of the
pointer it was given. When the channel is full the field has been written and the caller is
parked at the send. -/
def SendToUser (h : Hub) (userID : String) (msg : Message) : Outcome :=
  let h1 := h.assignTarget msg userID
  match h1.enqueue { msg with targetUserID := userID } with
  | some h2 => Outcome.done h2
  | none => Outcome.blocked h1

/-- The method `BroadcastToAll`: the send on `h.broadcast` of the pointer it was given, the
struct as it is. -/
def BroadcastToAll (h : Hub) (msg : Message) : Outcome :=
  match h.enqueue msg with
  | some h1 => Outcome.done h1
  | none => Outcome.blocked h

/-- One iteration of the relay loop of `Run` (the `default` arm): a receive error and a payload
that does not decode are logged and the loop continues with the hub untouched; a decoded message
is sent on `h.broadcast`. The decoder stands for `json.Unmarshal` into a `Message`, whose
declaration is absent from the sources; what it fills is the variable `broadcastMsg`, allocated
anew in every iteration. -/
def relayIteration (decode : String → Option Message) (h : Hub) : Received → Option Hub
  | Received.error => some h
  | Received.payload p =>
    match decode p with
    | none => some h
    | some broadcastMsg => h.enqueue broadcastMsg

/-- The relay loop of `Run` over the items received until cancellation; an iteration starts when
the one before it is over. -/
def relayLoop (decode : String → Option Message) : Hub → List Received → Option Hub
  | h, [] => some h
  | h, r :: rs =>
    match relayIteration decode h r with
    | some h' => relayLoop decode h' rs
    | none => none

/-- The arm `case message := <-h.broadcast` of the dispatch loop: the oldest pending message is
taken from the channel and handed to `broadcastMessage`; `none` when nothing is pending. -/
def dispatchBroadcast (h : Hub) : Option Outcome :=
  match h.broadcast with
  | [] => none
  | message :: rest => some (broadcastMessage { h with broadcast := rest } message)

end Hub

/-- The messages a list of received items makes the relay loop inject, oldest first. -/
def relayed (decode : String → Option Message) (rs : List Received) : List Message :=
  rs.filterMap fun r =>
    match r with
    | Received.error => none
    | Received.payload p => decode p

/-- The queues after the channels listed in `sends` have been closed. -/
def closeChannels (queues : Nat → Chan) (sends : List Nat) : Nat → Chan :=
  fun i => if i ∈ sends then { queues i with closed := true } else queues i

namespace Hub

/-- The sequence `unregisterClient` leaves for the user: the old one without the first element
whose id is `clientID`, or the old one when no element has that id. -/
def withoutFirst (clientID : String) (cs : List Client) : List Client :=
  match removeFirst clientID cs with
  | some (_, rest) => rest
  | none => cs

/-- All connections held in the registry, in the order the loops over the map visit them. -/
def allClients (h : Hub) : List Client :=
  h.clients.entries.flatMap (fun e => e.2)

/-- The connections `broadcastMessage` sends `message` to: the sequence of the target user when a
target is set, every connection of every user otherwise. -/
def recipients (h : Hub) (message : Message) : List Client :=
  if message.targetUserID ≠ "" then h.clientsOf message.targetUserID else h.allClients

end Hub

/-- The queues after `message` has been offered once to each channel of `sends`, in order, all of
them being open: a channel receives one copy per occurrence in `sends`, as long as it is below
capacity. -/
def deliver (queues : Nat → Chan) (sends : List Nat) (message : Message) : Nat → Chan :=
  fun i =>
    { queues i with
      buf := (queues i).buf ++
        List.replicate (min (sends.count i) ((queues i).cap - (queues i).buf.length)) message }

/-- Two channels hold messages of the same fields in the same positions, and agree on capacity
and on being closed: they differ at most in the identity of the messages. -/
def Chan.sameFields (a b : Chan) : Prop :=
  a.buf.map Message.fields = b.buf.map Message.fields ∧ a.cap = b.cap ∧ a.closed = b.closed

/-- Two families of queues that agree channel by channel up to the identity of the messages. -/
def queuesSame (q q' : Nat → Chan) : Prop :=
  ∀ i, (q i).sameFields (q' i)

namespace Hub

/-- Two hub states that are equal up to the identity of the messages they hold: the same registry
map, the same calls made to the presence store and the broker, and on the broadcast channel and
on every outbound queue messages of the same type, target and payload in the same positions. -/
def sameFields (a b : Hub) : Prop :=
  a.clients = b.clients ∧
  a.broadcast.map Message.fields = b.broadcast.map Message.fields ∧
  queuesSame a.queues b.queues ∧
  a.presence = b.presence ∧ a.published = b.published

/-- Some message pending on the broadcast channel or on an outbound queue is the struct `msg`
points to. -/
def refersTo (h : Hub) (msg : Message) : Prop :=
  msg.ref ≠ none ∧
    ((∃ e ∈ h.broadcast, e.ref = msg.ref) ∨ ∃ i, ∃ e ∈ (h.queues i).buf, e.ref = msg.ref)

end Hub

/-- Two steps that end in the same way, in states that are equal up to the identity of the
messages they hold. -/
def Outcome.sameFields : Outcome → Outcome → Prop
  | Outcome.done a, Outcome.done b => a.sameFields b
  | Outcome.blocked a, Outcome.blocked b => a.sameFields b
  | Outcome.panicked a, Outcome.panicked b => a.sameFields b
  | _, _ => False

/-- Two runs that end in the same way, in states that are equal up to the identity of the
messages they hold, or that are both impossible. -/
def sameRun : Option Outcome → Option Outcome → Prop
  | none, none => True
  | some a, some b => a.sameFields b
  | _, _ => False

/-- The presence events about `userID` among `msgs`, oldest first: `true` for a user-online
message of `broadcastPresence`, `false` for a user-offline message. -/
def presenceEvents (userID : String) (msgs : List Message) : List Bool :=
  msgs.filterMap fun m =>
    if m = Hub.presenceMessage userID true then some true
    else if m = Hub.presenceMessage userID false then some false
    else none

/-- The sequence online, offline, online, ... of length `n`. -/
def alternating (n : Nat) : List Bool :=
  (List.range n).map fun i => decide (i % 2 = 0)

/-- An event in the life of the hub: a request taken by the dispatch loop on the `register` or
the `unregister` channel, a send on `h.broadcast` by a producer (`SendToUser`, `BroadcastToAll`,
the relay) that goes through, the dispatch loop taking the oldest pending message, or the write
`msg.TargetUserID = userID` with which `SendToUser` begins. -/
inductive HubEvent where
  | register (client : Client)
  | unregister (client : Client)
  | send (message : Message)
  | dispatch
  | write (msg : Message) (userID : String)
  deriving DecidableEq, Repr

/-- A registry request as an event of the dispatch loop. -/
def RegistryOp.toEvent : RegistryOp → HubEvent
  | RegistryOp.register client => HubEvent.register client
  | RegistryOp.unregister client => HubEvent.unregister client

namespace Hub

/-- What an event does to the hub; `none` when the event cannot occur in this state (a send on
the full channel, a dispatch with nothing pending). -/
def step (h : Hub) : HubEvent → Option Outcome
  | HubEvent.register client => some (h.registerClient client)
  | HubEvent.unregister client => some (h.unregisterClient client)
  | HubEvent.send message => (h.enqueue message).map Outcome.done
  | HubEvent.dispatch => h.dispatchBroadcast
  | HubEvent.write msg userID => some (Outcome.done (h.assignTarget msg userID))

/-- A sequence of events, one after the other; it ends early when a step of the dispatch loop
parks or panics, and it is `none` when one of its events cannot occur. -/
def runEvents : Hub → List HubEvent → Option Outcome
  | h, [] => some (Outcome.done h)
  | h, e :: es =>
    match h.step e with
    | none => none
    | some (Outcome.done h') => runEvents h' es
    | some (Outcome.blocked h') => some (Outcome.blocked h')
    | some (Outcome.panicked h') => some (Outcome.panicked h')

/-- The client is new to the hub: its outbound queue is open and is the queue of no client held
in the registry. -/
def freshFor (h : Hub) (client : Client) : Prop :=
  (h.queues client.send).closed = false ∧ client.send ∉ h.allClients.map Client.send

instance (h : Hub) (client : Client) : Decidable (h.freshFor client) :=
  inferInstanceAs (Decidable (_ ∧ _))

/-- Whether every register event of the sequence submits a client that is new to the hub at
that moment. -/
def registersFresh : Hub → List HubEvent → Bool
  | _, [] => true
  | h, e :: es =>
    (match e with
      | HubEvent.register client => decide (h.freshFor client)
      | _ => true) &&
    (match h.step e with
      | some (Outcome.done h') => registersFresh h' es
      | _ => true)

/-- The registered clients own their queues: within a sequence the queues are pairwise distinct
and open, and no queue belongs to clients of two users. -/
def OwnQueues (h : Hub) : Prop :=
  (∀ u cs, h.clients.lookup u = some cs →
    (cs.map Client.send).Nodup ∧ ∀ c ∈ cs, (h.queues c.send).closed = false) ∧
  (∀ u v cs ds, u ≠ v → h.clients.lookup u = some cs → h.clients.lookup v = some ds →
    ∀ c ∈ cs, ∀ d ∈ ds, c.send ≠ d.send)

/-- The outbound queue of every client held in the registry is open. -/
def RegisteredOpen (h : Hub) : Prop :=
  ∀ c ∈ h.allClients, (h.queues c.send).closed = false

instance (h : Hub) : Decidable (RegisteredOpen h) :=
  inferInstanceAs (Decidable (∀ c ∈ h.allClients, (h.queues c.send).closed = false))

end Hub

/-! ## The role checks of `internal/middleware/rbac.go` and `maskAuth` -/

/-- A value stored under a key of the request context (`interface{}`): a string, or a value of
another dynamic type (`nil` included). -/
inductive CtxValue where
  | str (s : String)
  | other
  deriving DecidableEq, Repr

/-- The part of a `*gin.Context` the role checks read: `c.Get(key)` (absent keys give `none`) and
`c.Param(name)` (absent parameters give the empty string). -/
structure Context where
  get : String → Option CtxValue
  param : String → String

/-- The error handed to `c.Error` before `c.Abort()`: `response.UnauthorizedError` or
`response.ForbiddenError`, with its message. -/
inductive AppError where
  | unauthorized (message : String)
  | forbidden (message : String)
  deriving DecidableEq, Repr

/-- How a handler ends: `c.Next()`, `c.Error(e)` followed by `c.Abort()`, or a run-time panic (a
failed type assertion). -/
inductive HandlerResult where
  | next
  | aborted (e : AppError)
  | panicked
  deriving DecidableEq, Repr

/-- The role names of `internal/models`, which is absent from the sources: `RoleAdmin`,
`RoleServiceProvider`, `RoleHandyman`, `RoleDeliveryPerson`. -/
structure Roles where
  admin : String
  serviceProvider : String
  handyman : String
  deliveryPerson : String

/-- The function `hasRole`. -/
def hasRole (userRole : String) : List String → Bool
  | [] => false
  | role :: rest => if userRole = role then true else hasRole userRole rest

/-- The handler returned by `RequireAdminOrSelf`. -/
def RequireAdminOrSelf (roles : Roles) (c : Context) : HandlerResult :=
  match c.get "userRole" with
  | none => HandlerResult.aborted (AppError.unauthorized "Authentication required")
  | some CtxValue.other => HandlerResult.aborted (AppError.unauthorized "Invalid role format")
  | some (CtxValue.str roleStr) =>
    if roleStr = roles.admin then HandlerResult.next
    else
      let resourceUserID := if c.param "id" = "" then c.param "userId" else c.param "id"
      match c.get "userID" with
      | some (CtxValue.str userID) =>
        if userID = resourceUserID then HandlerResult.next
        else HandlerResult.aborted
          (AppError.forbidden "You don't have permission to access this resource")
      | _ => HandlerResult.panicked

/-- The handler returned by `RequireServiceProviderOrAdmin`. -/
def RequireServiceProviderOrAdmin (roles : Roles) (c : Context) : HandlerResult :=
  match c.get "userRole" with
  | none => HandlerResult.aborted (AppError.unauthorized "Authentication required")
  | some CtxValue.other => HandlerResult.aborted (AppError.unauthorized "Invalid role format")
  | some (CtxValue.str roleStr) =>
    if roleStr = roles.admin then HandlerResult.next
    else if hasRole roleStr [roles.serviceProvider, roles.handyman, roles.deliveryPerson] then
      HandlerResult.next
    else HandlerResult.aborted
      (AppError.forbidden "You don't have permission to access this resource")

/-- The resource id of the route as `RequireAdminOrSelf` reads it: the parameter `id`, or
`userId` when `id` is empty. -/
def resourceId (c : Context) : String :=
  if c.param "id" = "" then c.param "userId" else c.param "id"

/-- The bytes of an ASCII string literal. A Go string is a sequence of bytes. -/
def ascii (s : String) : List Nat := s.data.map Char.toNat

/-- The function `maskAuth`, on the bytes of the header value. -/
def maskAuth (auth : List Nat) : List Nat :=
  if auth = [] then ascii "NoAuth"
  else if (ascii "Bearer ").isPrefixOf auth then
    let token := auth.drop 7
    if token.length > 8 then ascii "Auth:***" ++ token.drop (token.length - 4)
    else ascii "Auth:***"
  else ascii "Auth:***"

/-! ## Predicates on hub states -/

/-- No user key of the registry maps to an empty sequence. -/
def NoEmptyEntry (h : Hub) : Prop :=
  ∀ e ∈ h.clients.entries, e.2 ≠ []

instance (h : Hub) : Decidable (NoEmptyEntry h) :=
  inferInstanceAs (Decidable (∀ e ∈ h.clients.entries, e.2 ≠ []))

/-- Within each user's sequence the client ids are pairwise distinct. -/
def UniqueIds (h : Hub) : Prop :=
  ∀ e ∈ h.clients.entries, (e.2.map Client.id).Nodup

instance (h : Hub) : Decidable (UniqueIds h) :=
  inferInstanceAs (Decidable (∀ e ∈ h.clients.entries, (e.2.map Client.id).Nodup))

/-! ## Concrete states used as test inputs -/

/-- Queues of capacity 2, all open and empty. -/
def emptyQueues : Nat → Chan := fun _ => { buf := [], cap := 2, closed := false }

/-- A connection of user `A` on channel 1. -/
def clientA1 : Client := { id := "c1", userID := "A", userAgent := "ua", send := 1 }

/-- A second connection of user `A`, on channel 2. -/
def clientA2 : Client := { id := "c2", userID := "A", userAgent := "ua", send := 2 }

/-- A connection of user `B` on channel 3. -/
def clientB1 : Client := { id := "c3", userID := "B", userAgent := "ua", send := 3 }

/-- A connection of user `A` on channel 9, with an id of its own. -/
def clientA9 : Client := { id := "c9", userID := "A", userAgent := "ua", send := 9 }

/-- A run in which user `A` connects with two devices, a message for everybody is sent and the
oldest pending message is dispatched, `A` disconnects with both devices and connects again, while
`B` connects once. -/
def churnEvents : List HubEvent :=
  [HubEvent.register clientA1, HubEvent.register clientB1, HubEvent.register clientA2,
    HubEvent.send { type := MessageType.other "chat", targetUserID := "", data := [] },
    HubEvent.dispatch, HubEvent.unregister clientA1, HubEvent.unregister clientA2,
    HubEvent.register clientA9]

/-- The `i`-th visit of user `A`: a connection with a queue of its own. -/
def visitor (i : Nat) : Client := { id := "v", userID := "A", userAgent := "ua", send := i }

/-- A run of the dispatch loop in which user `A` connects and disconnects 128 times and then
connects once more, no broadcast being dispatched in between. -/
def floodOps : List RegistryOp :=
  (List.range 128).flatMap (fun i =>
    [RegistryOp.register (visitor i), RegistryOp.unregister (visitor i)]) ++
  [RegistryOp.register (visitor 128)]

/-- The requests of `floodOps` as events of the dispatch loop: between them the loop takes no
message from the `broadcast` channel. -/
def floodEvents : List HubEvent := floodOps.map RegistryOp.toEvent

/-- The same client is registered twice and unregistered twice. -/
def doubleUnregister : List HubEvent :=
  [HubEvent.register clientA1, HubEvent.register clientA1, HubEvent.unregister clientA1,
    HubEvent.unregister clientA1]

/-- An application message with no target. -/
def chatAll : Message := { type := MessageType.other "chat", targetUserID := "", data := [] }

/-- A burst of 256 messages is sent on the broadcast channel (by `BroadcastToAll`, say) before the
dispatch loop takes any of them, and then the loop takes the register request of a first
connection of `A`. -/
def burstEvents : List HubEvent :=
  List.replicate broadcastCap (HubEvent.send chatAll) ++ [HubEvent.register clientA1]

/-- An application message for user `A`. -/
def chatA : Message := { type := MessageType.other "chat", targetUserID := "A", data := [] }

/-- A hub with nobody connected whose `broadcast` channel holds its full capacity of pending
messages (256 application messages queued by `BroadcastToAll` and not yet dispatched). -/
def fullBroadcastHub : Hub :=
  { NewHub emptyQueues with broadcast := List.replicate broadcastCap chatAll }

/-- A hub in which user `A` has the single connection `clientA1` and whose `broadcast` channel
holds its full capacity of pending messages. -/
def fullBroadcastHubA : Hub :=
  { fullBroadcastHub with clients := AList.singleton "A" [clientA1] }

/-- A hub in which user `A` has the two connections `clientA1` and `clientA2`. -/
def hubA12 : Hub :=
  { NewHub emptyQueues with clients := AList.singleton "A" [clientA1, clientA2] }

/-- A hub in which user `A` has the connections `clientA1` and `clientA2` and user `B` has
`clientB1`. -/
def hubAB : Hub :=
  { NewHub emptyQueues with
    clients := (AList.singleton "A" [clientA1, clientA2]).insert "B" [clientB1] }

/-- Queues of capacity 2 of which channel 2 is at capacity and the others are empty; all open. -/
def busyQueues : Nat → Chan := fun i =>
  if i = 2 then { buf := [chatAll, chatAll], cap := 2, closed := false } else emptyQueues i

/-- The hub `hubAB` at a moment when the queue of `clientA2` is at capacity. -/
def hubABbusy : Hub := { hubAB with queues := busyQueues }

/-- Queues of capacity 2 of which channel 1 is closed and channel 2 is at capacity. -/
def staleQueues : Nat → Chan := fun i =>
  if i = 1 then { buf := [], cap := 2, closed := true } else busyQueues i

/-- A hub in which user `A` has the connections `clientA2`, whose queue is at capacity, and
`clientA1`, whose queue is closed (the state left by registering `clientA1` twice and
unregistering it once), and user `B` has `clientB1`. -/
def hubABstale : Hub :=
  { NewHub staleQueues with
    clients := (AList.singleton "A" [clientA2, clientA1]).insert "B" [clientB1] }

/-- A connection of user `A` on channel 4, under the id `x`. -/
def twinOpen : Client := { id := "x", userID := "A", userAgent := "ua", send := 4 }

/-- Another connection of user `A` under the same id `x`, on channel 5. -/
def twinClosed : Client := { id := "x", userID := "A", userAgent := "ua", send := 5 }

/-- Queues of capacity 2, all empty, of which channel 5 is closed. -/
def twinQueues : Nat → Chan := fun i =>
  if i = 5 then { buf := [], cap := 2, closed := true } else emptyQueues i

/-- A hub in which user `A` has two connections under one id, the first with an open queue and
the second with a closed one: the state left by registering `twinClosed` and `twinOpen`,
unregistering the id `x` once (which removes `twinClosed` and closes its queue) and registering
`twinClosed` again. -/
def hubTwins : Hub :=
  { NewHub twinQueues with clients := AList.singleton "A" [twinOpen, twinClosed] }

/-- An application message with no target that its sender keeps a pointer to. -/
def memo : Message :=
  { type := MessageType.other "chat", targetUserID := "", data := [], ref := some 7 }

/-- The connection of `B` is registered and its online announcement dispatched, the message
`memo` is broadcast to everybody and dispatched, and a connection of `A` is registered: the
queue of `B` holds `memo`, and the online announcement of `A` is pending. -/
def memoEvents : List HubEvent :=
  [HubEvent.register clientB1, HubEvent.dispatch, HubEvent.send memo, HubEvent.dispatch,
    HubEvent.register clientA1]

/-- A decoder that accepts the one payload `ok`, as a message for user `A`. -/
def sampleDecode : String → Option Message := fun p => if p = "ok" then some chatA else none

/-- An application message for user `Z`. -/
def chatZ : Message := { type := MessageType.other "chat", targetUserID := "Z", data := [] }

/-- Role names for the examples. -/
def sampleRoles : Roles :=
  { admin := "admin", serviceProvider := "service_provider", handyman := "handyman",
    deliveryPerson := "delivery_person" }

/-- A request by the handyman `u1` for the resource `u2`. -/
def handymanRequest : Context :=
  { get := fun k =>
      if k = "userRole" then some (CtxValue.str "handyman")
      else if k = "userID" then some (CtxValue.str "u1") else none
    param := fun k => if k = "id" then "u2" else "" }

/-- A request with the role `rider` and no `userID` in its context, for the resource `u2`. -/
def riderRequestNoId : Context :=
  { get := fun k => if k = "userRole" then some (CtxValue.str "rider") else none
    param := fun k => if k = "id" then "u2" else "" }

/-- A request by the rider `u2` for the resource `u2`, named by the parameter `userId`. -/
def riderOwnRequest : Context :=
  { get := fun k =>
      if k = "userRole" then some (CtxValue.str "rider")
      else if k = "userID" then some (CtxValue.str "u2") else none
    param := fun k => if k = "userId" then "u2" else "" }

/-- The events of registering `clientA1` twice and unregistering it once. -/
def doubleRegister : List HubEvent :=
  [HubEvent.register clientA1, HubEvent.register clientA1, HubEvent.unregister clientA1]

/-- Two devices of `A` and one of `B` connect, a message for `A` is sent, the dispatch loop takes
the oldest pending message, and the first device of `A` disconnects. -/
def sessionEvents : List HubEvent :=
  [HubEvent.register clientA1, HubEvent.register clientB1, HubEvent.register clientA2,
    HubEvent.send chatA, HubEvent.dispatch, HubEvent.unregister clientA1]

/-! ## Runs of events -/

/-- A run in two parts: when the first part returns, the second part goes on from the state it
leaves. -/
theorem runEvents_append :
    ∀ (es es' : List HubEvent) (h h1 : Hub), h.runEvents es = some (Outcome.done h1) →
      h.runEvents (es ++ es') = h1.runEvents es' := by
  intro es
  induction es with
  | nil =>
    intro es' h h1 hs
    simp only [Hub.runEvents, Option.some.injEq, Outcome.done.injEq] at hs
    rw [hs]
    rfl
  | cons e es ih =>
    intro es' h h1 hs
    simp only [List.cons_append, Hub.runEvents] at hs ⊢
    cases he : h.step e with
    | none => simp [he] at hs
    | some o =>
      cases o with
      | done h2 =>
        simp only [he] at hs ⊢
        exact ih es' h2 h1 hs
      | blocked h2 => simp [he] at hs
      | panicked h2 => simp [he] at hs

/-- A burst of sends that the broadcast channel has room for goes through: the messages are
pending, in order, and nothing else has changed. -/
theorem runEvents_sends (m : Message) :
    ∀ (n : Nat) (h : Hub), h.broadcast.length + n ≤ broadcastCap →
      h.runEvents (List.replicate n (HubEvent.send m)) =
        some (Outcome.done { h with broadcast := h.broadcast ++ List.replicate n m }) := by
  intro n
  induction n with
  | zero =>
    intro h _
    simp [Hub.runEvents]
  | succ n ih =>
    intro h hroom
    have hr : h.broadcast.length < broadcastCap := by omega
    have hstep : h.step (HubEvent.send m) =
        some (Outcome.done { h with broadcast := h.broadcast ++ [m] }) := by
      simp [Hub.step, Hub.enqueue, hr]
    simp only [List.replicate_succ, Hub.runEvents, hstep]
    rw [ih _ (by simp only [List.length_append, List.length_singleton]; omega)]
    simp [List.replicate_succ]

/-- The hub `fullBroadcastHub` is reached from the empty hub by a burst of 256 sends. -/
theorem fullBroadcastHub_reached :
    (NewHub emptyQueues).runEvents (List.replicate broadcastCap (HubEvent.send chatAll)) =
      some (Outcome.done fullBroadcastHub) :=
  runEvents_sends chatAll broadcastCap (NewHub emptyQueues) (by simp [NewHub])

/-! ## Registering -/

/-- In terms of lookups: a key that is present maps to a non-empty sequence. -/
theorem noEmptyEntry_lookup (h : Hub) (hinv : NoEmptyEntry h) (u : String) (cs : List Client)
    (hcs : h.clients.lookup u = some cs) : cs ≠ [] :=
  hinv ⟨u, cs⟩ (AList.mem_lookup_iff.mp hcs)

theorem noEmptyEntry_of_lookup (h : Hub)
    (hall : ∀ u cs, h.clients.lookup u = some cs → cs ≠ []) : NoEmptyEntry h := by
  intro e he
  exact hall e.1 e.2 (AList.mem_lookup_iff.mpr he)

theorem uniqueIds_lookup (h : Hub) (hinv : UniqueIds h) (u : String) (cs : List Client)
    (hcs : h.clients.lookup u = some cs) : (cs.map Client.id).Nodup :=
  hinv ⟨u, cs⟩ (AList.mem_lookup_iff.mp hcs)

theorem uniqueIds_of_lookup (h : Hub)
    (hall : ∀ u cs, h.clients.lookup u = some cs → (cs.map Client.id).Nodup) : UniqueIds h := by
  intro e he
  exact hall e.1 e.2 (AList.mem_lookup_iff.mpr he)

theorem noEmptyEntry_NewHub (queues : Nat → Chan) : NoEmptyEntry (NewHub queues) := by
  intro e he
  simp [NewHub] at he

/-- The register step for a user with no entry, when the broadcast channel has room. -/
theorem registerClient_first (h : Hub) (c : Client)
    (habs : h.clients.lookup c.userID = none) (hroom : h.broadcast.length < broadcastCap) :
    h.registerClient c = Outcome.done
      { clients := h.clients.insert c.userID [c]
        broadcast := h.broadcast ++ [Hub.presenceMessage c.userID true]
        queues := h.queues
        presence := h.presence ++
          [PresenceOp.set c.userID c.id [("userAgent", c.userAgent), ("clientID", c.id)]]
        published := h.published ++ [(broadcastTopic, Hub.presenceMessage c.userID true)] } := by
  simp [Hub.registerClient, Hub.clientsOf, habs, AList.lookup_insert, Hub.broadcastPresence, hroom]

/-- The register step for a user with no entry, when the broadcast channel is full. -/
theorem registerClient_first_full (h : Hub) (c : Client)
    (habs : h.clients.lookup c.userID = none) (hfull : ¬ h.broadcast.length < broadcastCap) :
    h.registerClient c = Outcome.blocked
      { clients := h.clients.insert c.userID [c]
        broadcast := h.broadcast
        queues := h.queues
        presence := h.presence ++
          [PresenceOp.set c.userID c.id [("userAgent", c.userAgent), ("clientID", c.id)]]
        published := h.published } := by
  simp [Hub.registerClient, Hub.clientsOf, habs, AList.lookup_insert, Hub.broadcastPresence, hfull]

/-- The register step for a user who already has at least one connection. -/
theorem registerClient_additional (h : Hub) (c : Client) (cs : List Client)
    (hcs : h.clients.lookup c.userID = some cs) (hne : cs ≠ []) :
    h.registerClient c = Outcome.done
      { clients := h.clients.insert c.userID (cs ++ [c])
        broadcast := h.broadcast
        queues := h.queues
        presence := h.presence ++
          [PresenceOp.set c.userID c.id [("userAgent", c.userAgent), ("clientID", c.id)]]
        published := h.published } := by
  have hlen : cs.length ≠ 0 := by
    intro h0
    exact hne (List.length_eq_zero.mp h0)
  simp [Hub.registerClient, Hub.clientsOf, hcs, AList.lookup_insert, hlen]

/-! ## Unregistering -/

theorem removeFirst_spec (cid : String) :
    ∀ (cs : List Client) (d : Client) (rest : List Client),
      Hub.removeFirst cid cs = some (d, rest) →
      d ∈ cs ∧ d.id = cid ∧ rest.length + 1 = cs.length ∧ (∀ x ∈ rest, x ∈ cs) ∧
        List.Sublist rest cs := by
  intro cs
  induction cs with
  | nil => intro d rest hrf; simp [Hub.removeFirst] at hrf
  | cons c cs ih =>
    intro d rest hrf
    unfold Hub.removeFirst at hrf
    by_cases hc : c.id = cid
    · simp only [hc, if_true, Option.some.injEq, Prod.mk.injEq] at hrf
      obtain ⟨rfl, rfl⟩ := hrf
      refine ⟨List.mem_cons_self _ _, hc, rfl, ?_, List.sublist_cons_self _ _⟩
      intro x hx
      exact List.mem_cons_of_mem _ hx
    · simp only [hc, if_false] at hrf
      cases hrec : Hub.removeFirst cid cs with
      | none => simp [hrec] at hrf
      | some p =>
        obtain ⟨d', rest'⟩ := p
        simp only [hrec, Option.some.injEq, Prod.mk.injEq] at hrf
        obtain ⟨rfl, rfl⟩ := hrf
        obtain ⟨hmem, hid, hlen, hsub, hsl⟩ := ih d' rest' hrec
        refine ⟨List.mem_cons_of_mem _ hmem, hid, by simp [hlen], ?_, hsl.cons₂ _⟩
        intro x hx
        rcases List.mem_cons.mp hx with rfl | hx
        · exact List.mem_cons_self _ _
        · exact List.mem_cons_of_mem _ (hsub x hx)

theorem removeFirst_eq_none (cid : String) :
    ∀ cs : List Client, Hub.removeFirst cid cs = none ↔ ∀ d ∈ cs, d.id ≠ cid := by
  intro cs
  induction cs with
  | nil => simp [Hub.removeFirst]
  | cons c cs ih =>
    unfold Hub.removeFirst
    by_cases hc : c.id = cid
    · simp [hc]
    · simp only [hc, if_false, List.mem_cons, forall_eq_or_imp, ne_eq, not_false_eq_true,
        true_and]
      rw [← ih]
      cases Hub.removeFirst cid cs with
      | none => simp
      | some p => simp

theorem removeFirst_of_mem (c : Client) (cs : List Client) (hmem : c ∈ cs) :
    ∃ d rest, Hub.removeFirst c.id cs = some (d, rest) := by
  cases hrf : Hub.removeFirst c.id cs with
  | none => exact absurd rfl ((removeFirst_eq_none c.id cs).mp hrf c hmem)
  | some p => exact ⟨p.1, p.2, rfl⟩

/-- Unregistering a client whose user has no entry changes nothing. -/
theorem unregisterClient_absent (h : Hub) (c : Client)
    (habs : h.clients.lookup c.userID = none) : h.unregisterClient c = Outcome.done h := by
  simp [Hub.unregisterClient, habs]

/-- Unregistering a client whose id is not in the (non-empty) sequence of its user. -/
theorem unregisterClient_unknown (h : Hub) (c : Client) (cs : List Client)
    (hcs : h.clients.lookup c.userID = some cs) (hnf : Hub.removeFirst c.id cs = none)
    (hne : cs ≠ []) :
    h.unregisterClient c = Outcome.done
      { h with presence := h.presence ++ [PresenceOp.remove c.userID c.id] } := by
  have hlen : cs.length ≠ 0 := fun h0 => hne (List.length_eq_zero.mp h0)
  simp [Hub.unregisterClient, hcs, hnf, Hub.finishUnregister, Hub.clientsOf, hlen]

/-- Unregistering when the matched client's queue is already closed panics, the shortened
sequence being stored in the map already. -/
theorem unregisterClient_closed (h : Hub) (c d : Client) (cs rest : List Client)
    (hcs : h.clients.lookup c.userID = some cs) (hrf : Hub.removeFirst c.id cs = some (d, rest))
    (hclosed : (h.queues d.send).closed = true) :
    h.unregisterClient c =
      Outcome.panicked { h with clients := h.clients.insert c.userID rest } := by
  simp [Hub.unregisterClient, hcs, hrf, hclosed]

/-- Unregistering a client while other devices of the user remain. -/
theorem unregisterClient_remaining (h : Hub) (c d : Client) (cs rest : List Client)
    (hcs : h.clients.lookup c.userID = some cs) (hrf : Hub.removeFirst c.id cs = some (d, rest))
    (hopen : (h.queues d.send).closed = false) (hne : rest ≠ []) :
    h.unregisterClient c = Outcome.done
      { clients := h.clients.insert c.userID rest
        broadcast := h.broadcast
        queues := Function.update h.queues d.send { h.queues d.send with closed := true }
        presence := h.presence ++ [PresenceOp.remove c.userID c.id]
        published := h.published } := by
  have hlen : rest.length ≠ 0 := fun h0 => hne (List.length_eq_zero.mp h0)
  simp [Hub.unregisterClient, hcs, hrf, hopen, Hub.finishUnregister, Hub.clientsOf,
    AList.lookup_insert, hlen]

/-- Unregistering the last device of a user, when the broadcast channel has room. -/
theorem unregisterClient_last (h : Hub) (c d : Client) (cs : List Client)
    (hcs : h.clients.lookup c.userID = some cs) (hrf : Hub.removeFirst c.id cs = some (d, []))
    (hopen : (h.queues d.send).closed = false) (hroom : h.broadcast.length < broadcastCap) :
    h.unregisterClient c = Outcome.done
      { clients := (h.clients.insert c.userID []).erase c.userID
        broadcast := h.broadcast ++ [Hub.presenceMessage c.userID false]
        queues := Function.update h.queues d.send { h.queues d.send with closed := true }
        presence := h.presence ++ [PresenceOp.remove c.userID c.id]
        published := h.published ++ [(broadcastTopic, Hub.presenceMessage c.userID false)] } := by
  simp [Hub.unregisterClient, hcs, hrf, hopen, Hub.finishUnregister, Hub.clientsOf,
    AList.lookup_insert, Hub.broadcastPresence, hroom]

/-- Unregistering the last device of a user, when the broadcast channel is full. -/
theorem unregisterClient_last_full (h : Hub) (c d : Client) (cs : List Client)
    (hcs : h.clients.lookup c.userID = some cs) (hrf : Hub.removeFirst c.id cs = some (d, []))
    (hopen : (h.queues d.send).closed = false) (hfull : ¬ h.broadcast.length < broadcastCap) :
    h.unregisterClient c = Outcome.blocked
      { clients := (h.clients.insert c.userID []).erase c.userID
        broadcast := h.broadcast
        queues := Function.update h.queues d.send { h.queues d.send with closed := true }
        presence := h.presence ++ [PresenceOp.remove c.userID c.id]
        published := h.published } := by
  simp [Hub.unregisterClient, hcs, hrf, hopen, Hub.finishUnregister, Hub.clientsOf,
    AList.lookup_insert, Hub.broadcastPresence, hfull]

/-! ## Presence events of a single step (C1, C2) -/

/-- With room on the broadcast channel the register step emits what it should: for a user with no
entry exactly one user-online message, at the tail of the local broadcast channel and to the
broker; for a user who has an entry nothing, whatever the broadcast channel holds. -/
theorem registerClient_online_event (h : Hub) (c : Client) (hinv : NoEmptyEntry h) :
    (h.clients.lookup c.userID = none → h.broadcast.length < broadcastCap →
      ∃ h', h.registerClient c = Outcome.done h' ∧
        h'.broadcast = h.broadcast ++ [Hub.presenceMessage c.userID true] ∧
        h'.published = h.published ++ [(broadcastTopic, Hub.presenceMessage c.userID true)]) ∧
    (c.userID ∈ h.clients →
      ∃ h', h.registerClient c = Outcome.done h' ∧
        h'.broadcast = h.broadcast ∧ h'.published = h.published) := by
  constructor
  · intro habs hroom
    exact ⟨_, registerClient_first h c habs hroom, rfl, rfl⟩
  · intro hmem
    cases hcs : h.clients.lookup c.userID with
    | none => exact absurd hmem (AList.lookup_eq_none.mp hcs)
    | some cs =>
      exact ⟨_, registerClient_additional h c cs hcs (noEmptyEntry_lookup h hinv _ _ hcs), rfl,
        rfl⟩

/-- A first connection on the empty hub, and a third connection of a user who has two. -/
theorem registerClient_online_event_witness :
    (NoEmptyEntry (NewHub emptyQueues) ∧
      ∃ h', (NewHub emptyQueues).registerClient clientA1 = Outcome.done h' ∧
        h'.broadcast = [Hub.presenceMessage "A" true] ∧
        h'.published = [(broadcastTopic, Hub.presenceMessage "A" true)]) ∧
    (NoEmptyEntry hubA12 ∧
      ∃ h', hubA12.registerClient clientA1 = Outcome.done h' ∧
        h'.broadcast = [] ∧ h'.published = []) :=
  ⟨⟨noEmptyEntry_NewHub _,
      (registerClient_online_event (NewHub emptyQueues) clientA1 (noEmptyEntry_NewHub _)).1
        (by decide) (by decide)⟩,
    ⟨by decide, (registerClient_online_event hubA12 clientA1 (by decide)).2 (by decide)⟩⟩

/-- C1 (the code at the failing input): on a hub with nobody connected, no user key mapping to an
empty sequence, whose broadcast channel holds its 256 pending messages (the state a burst of 256
sends leaves), the register step for a first connection puts no user-online message on the local
broadcast path and publishes none to the broker: it parks on the send in `broadcastPresence` and
never returns. -/
theorem registerClient_first_parks :
    (NewHub emptyQueues).runEvents (List.replicate broadcastCap (HubEvent.send chatAll)) =
      some (Outcome.done fullBroadcastHub) ∧
    NoEmptyEntry fullBroadcastHub ∧
    fullBroadcastHub.clients.lookup clientA1.userID = none ∧
    fullBroadcastHub.broadcast.length = broadcastCap ∧
    (fullBroadcastHub.registerClient clientA1).completed = false ∧
    ∃ h', fullBroadcastHub.registerClient clientA1 = Outcome.blocked h' ∧
      h'.broadcast = fullBroadcastHub.broadcast ∧
      Hub.presenceMessage "A" true ∉ h'.broadcast ∧ h'.published = [] := by
  have habs : fullBroadcastHub.clients.lookup clientA1.userID = none := by decide
  have hlen : fullBroadcastHub.broadcast.length = broadcastCap := by
    simp [fullBroadcastHub, NewHub]
  have hfull : ¬ fullBroadcastHub.broadcast.length < broadcastCap := by omega
  have hrun := registerClient_first_full fullBroadcastHub clientA1 habs hfull
  refine ⟨fullBroadcastHub_reached, by decide, habs, hlen, ?_, _, hrun, rfl, ?_, rfl⟩
  · rw [hrun]
    rfl
  · simp [fullBroadcastHub, NewHub, chatAll, Hub.presenceMessage, NewMessage]

/-- C2 (amended): in a hub state where no user key maps to an empty sequence, let `c` be a
registered client such that the connection of its user found under `c`'s id, the first one with
that id, has an open outbound queue. If `c` is the only connection of its user and the broadcast
channel holds fewer than 256 pending messages, the unregister step completes and emits exactly
one user-offline message (appended to the local broadcast channel and published to the broker).
If the user has other connections left, the step completes, emits nothing, and the user stays
connected with its connection count reduced by one. -/
theorem unregisterClient_offline_event (h : Hub) (c : Client) (_hinv : NoEmptyEntry h)
    (hreg : c ∈ h.clientsOf c.userID)
    (hopen : ∀ d rest, Hub.removeFirst c.id (h.clientsOf c.userID) = some (d, rest) →
      (h.queues d.send).closed = false) :
    (h.clients.lookup c.userID = some [c] → h.broadcast.length < broadcastCap →
      ∃ h', h.unregisterClient c = Outcome.done h' ∧
        h'.broadcast = h.broadcast ++ [Hub.presenceMessage c.userID false] ∧
        h'.published = h.published ++ [(broadcastTopic, Hub.presenceMessage c.userID false)]) ∧
    (2 ≤ (h.clientsOf c.userID).length →
      ∃ h', h.unregisterClient c = Outcome.done h' ∧
        h'.broadcast = h.broadcast ∧ h'.published = h.published ∧
        h'.IsUserConnected c.userID = true ∧
        h'.GetUserConnectionCount c.userID + 1 = h.GetUserConnectionCount c.userID) := by
  constructor
  · intro honly hroom
    have hrf : Hub.removeFirst c.id [c] = some (c, []) := by simp [Hub.removeFirst]
    have hof : h.clientsOf c.userID = [c] := by simp [Hub.clientsOf, honly]
    have ho : (h.queues c.send).closed = false := hopen c [] (by rw [hof]; exact hrf)
    exact ⟨_, unregisterClient_last h c c [c] honly hrf ho hroom, rfl, rfl⟩
  · intro hlen
    cases hcs : h.clients.lookup c.userID with
    | none => simp [Hub.clientsOf, hcs] at hlen
    | some cs =>
      have hof : h.clientsOf c.userID = cs := by simp [Hub.clientsOf, hcs]
      rw [hof] at hlen
      have hmem : c ∈ cs := hof ▸ hreg
      obtain ⟨d, rest, hrf⟩ := removeFirst_of_mem c cs hmem
      obtain ⟨-, -, hl, -, -⟩ := removeFirst_spec c.id cs d rest hrf
      have ho : (h.queues d.send).closed = false := hopen d rest (by rw [hof]; exact hrf)
      have hne : rest ≠ [] := by
        intro h0
        rw [h0] at hl
        simp at hl
        omega
      refine ⟨_, unregisterClient_remaining h c d cs rest hcs hrf ho hne, rfl, rfl, ?_, ?_⟩
      · have hpos : 0 < rest.length := List.length_pos.mpr hne
        simp [Hub.IsUserConnected, AList.lookup_insert, hpos]
      · simp [Hub.GetUserConnectionCount, AList.lookup_insert, hcs, hl]

/-- Witness of `unregisterClient_offline_event`: the only connection of `B` is unregistered and
one offline message is emitted; one of the two connections of `A` is unregistered and none is;
and in a state where `A` has two connections under one id, the first with an open queue and the
second with a closed one, the step for the second finds the first, completes and emits nothing. -/
theorem unregisterClient_offline_event_witness :
    (NoEmptyEntry hubAB ∧ hubAB.clients.lookup clientB1.userID = some [clientB1] ∧
      ∃ h', hubAB.unregisterClient clientB1 = Outcome.done h' ∧
        h'.broadcast = [Hub.presenceMessage "B" false] ∧
        h'.published = [(broadcastTopic, Hub.presenceMessage "B" false)]) ∧
    (NoEmptyEntry hubA12 ∧ clientA1 ∈ hubA12.clientsOf clientA1.userID ∧
      ∃ h', hubA12.unregisterClient clientA1 = Outcome.done h' ∧
        h'.broadcast = hubA12.broadcast ∧ h'.published = hubA12.published ∧
        h'.IsUserConnected clientA1.userID = true ∧
        h'.GetUserConnectionCount clientA1.userID + 1 =
          hubA12.GetUserConnectionCount clientA1.userID) ∧
    (hubTwins.clients.lookup "A" = some [twinOpen, twinClosed] ∧
      (hubTwins.queues twinOpen.send).closed = false ∧
      (hubTwins.queues twinClosed.send).closed = true ∧
      ∃ h', hubTwins.unregisterClient twinClosed = Outcome.done h' ∧
        h'.broadcast = hubTwins.broadcast ∧ h'.published = hubTwins.published ∧
        h'.IsUserConnected "A" = true ∧
        h'.GetUserConnectionCount "A" + 1 = hubTwins.GetUserConnectionCount "A") :=
  have hB : ∀ d rest, Hub.removeFirst clientB1.id (hubAB.clientsOf clientB1.userID) =
      some (d, rest) → (hubAB.queues d.send).closed = false := by
    intro d rest hrf
    have hfound : Hub.removeFirst clientB1.id (hubAB.clientsOf clientB1.userID) =
        some (clientB1, []) := by decide
    rw [hfound] at hrf
    cases hrf
    rfl
  have hA : ∀ d rest, Hub.removeFirst clientA1.id (hubA12.clientsOf clientA1.userID) =
      some (d, rest) → (hubA12.queues d.send).closed = false := by
    intro d rest hrf
    have hfound : Hub.removeFirst clientA1.id (hubA12.clientsOf clientA1.userID) =
        some (clientA1, [clientA2]) := by decide
    rw [hfound] at hrf
    cases hrf
    rfl
  have hT : ∀ d rest, Hub.removeFirst twinClosed.id (hubTwins.clientsOf twinClosed.userID) =
      some (d, rest) → (hubTwins.queues d.send).closed = false := by
    intro d rest hrf
    have hfound : Hub.removeFirst twinClosed.id (hubTwins.clientsOf twinClosed.userID) =
        some (twinOpen, [twinClosed]) := by decide
    rw [hfound] at hrf
    cases hrf
    rfl
  ⟨⟨by decide, by decide,
      (unregisterClient_offline_event hubAB clientB1 (by decide) (by decide) hB).1
        (by decide) (by decide)⟩,
    ⟨by decide, by decide,
      (unregisterClient_offline_event hubA12 clientA1 (by decide) (by decide) hA).2
        (by decide)⟩,
    ⟨by decide, by decide, by decide,
      (unregisterClient_offline_event hubTwins twinClosed (by decide) (by decide) hT).2
        (by decide)⟩⟩

/-- C2 (counterexample): two registered clients, each the only connection of its user, for which
the unregister step emits no offline message. On a hub whose broadcast channel is full the step
parks on the send. On the hub reached from the empty hub by registering the same client twice
and unregistering it once, the remaining entry refers to a closed queue and the step panics on
`close`, with nothing emitted. -/
theorem unregisterClient_offline_event_counterexample :
    (NoEmptyEntry fullBroadcastHubA ∧
      fullBroadcastHubA.clients.lookup clientA1.userID = some [clientA1] ∧
      ∃ h', fullBroadcastHubA.unregisterClient clientA1 = Outcome.blocked h' ∧
        h'.broadcast = fullBroadcastHubA.broadcast ∧ h'.published = []) ∧
    (∃ h, (NewHub emptyQueues).runOps
          [RegistryOp.register clientA1, RegistryOp.register clientA1,
            RegistryOp.unregister clientA1] = Outcome.done h ∧
        NoEmptyEntry h ∧ h.clients.lookup clientA1.userID = some [clientA1] ∧
        (h.queues clientA1.send).closed = true ∧
        ∃ h', h.unregisterClient clientA1 = Outcome.panicked h' ∧
          h'.broadcast = h.broadcast ∧ h'.published = h.published) := by
  constructor
  · have hcs : fullBroadcastHubA.clients.lookup clientA1.userID = some [clientA1] := by decide
    have hfull : ¬ fullBroadcastHubA.broadcast.length < broadcastCap := by
      simp [fullBroadcastHubA, fullBroadcastHub, NewHub]
    have hrf : Hub.removeFirst clientA1.id [clientA1] = some (clientA1, []) := by decide
    exact ⟨by decide, hcs, _,
      unregisterClient_last_full fullBroadcastHubA clientA1 clientA1 [clientA1] hcs hrf rfl hfull,
      rfl, rfl⟩
  · exact ⟨_, rfl, by decide, by decide, by decide, _, rfl, rfl, rfl⟩

/-! ## Broadcasting (C4, C5, C6, C7) -/

theorem deliver_closed (queues : Nat → Chan) (sends : List Nat) (m : Message) (i : Nat) :
    (deliver queues sends m i).closed = (queues i).closed := rfl

theorem deliver_cap (queues : Nat → Chan) (sends : List Nat) (m : Message) (i : Nat) :
    (deliver queues sends m i).cap = (queues i).cap := rfl

theorem deliver_cons (queues : Nat → Chan) (a : Nat) (sends : List Nat) (m : Message) :
    deliver (deliver queues [a] m) sends m = deliver queues (a :: sends) m := by
  funext i
  simp only [deliver, List.append_assoc, ← List.replicate_add, List.length_append,
    List.length_replicate]
  congr 2
  by_cases hi : a = i
  · subst hi
    simp only [List.count_cons_self, List.count_nil]
    congr 1
    omega
  · have h1 : List.count i [a] = 0 := by simp [List.count_cons, hi]
    have h2 : List.count i (a :: sends) = List.count i sends := by
      simp [List.count_cons, hi]
    rw [h1, h2]
    congr 1
    simp

theorem deliver_nil (queues : Nat → Chan) (m : Message) : deliver queues [] m = queues := by
  funext i
  simp [deliver]

theorem deliver_of_not_mem (queues : Nat → Chan) (sends : List Nat) (m : Message) (i : Nat)
    (hi : i ∉ sends) : deliver queues sends m i = queues i := by
  simp [deliver, List.count_eq_zero.mpr hi]

theorem deliver_of_full (queues : Nat → Chan) (sends : List Nat) (m : Message) (i : Nat)
    (hfull : ¬ (queues i).buf.length < (queues i).cap) : deliver queues sends m i = queues i := by
  have h0 : (queues i).cap - (queues i).buf.length = 0 := by omega
  simp [deliver, h0]

theorem trySend_open (queues : Nat → Chan) (c : Client) (m : Message)
    (hopen : (queues c.send).closed = false) :
    Hub.trySend queues c m = some (deliver queues [c.send] m) := by
  unfold Hub.trySend
  simp only [hopen, Bool.false_eq_true, if_false]
  by_cases hroom : (queues c.send).buf.length < (queues c.send).cap
  · simp only [hroom, if_true, Option.some.injEq]
    funext i
    by_cases hi : i = c.send
    · subst hi
      have h1 : min 1 ((queues c.send).cap - (queues c.send).buf.length) = 1 := by omega
      simp [deliver, h1, hopen]
    · rw [Function.update_noteq hi, deliver_of_not_mem _ _ _ _ (by simpa using hi)]
  · simp only [hroom, if_false, Option.some.injEq]
    funext i
    by_cases hi : i = c.send
    · subst hi
      rw [deliver_of_full _ _ _ _ hroom]
    · rw [deliver_of_not_mem _ _ _ _ (by simpa using hi)]

theorem trySend_closed (queues : Nat → Chan) (c : Client) (m : Message)
    (hclosed : (queues c.send).closed = true) : Hub.trySend queues c m = none := by
  simp [Hub.trySend, hclosed]

/-- The targeted loop over connections whose queues are all open delivers to each of them. -/
theorem sendEach_open (m : Message) :
    ∀ (cs : List Client) (queues : Nat → Chan),
      (∀ c ∈ cs, (queues c.send).closed = false) →
      Hub.sendEach m cs queues = some (deliver queues (cs.map Client.send) m) := by
  intro cs
  induction cs with
  | nil => intro queues _; simp [Hub.sendEach, deliver_nil]
  | cons c cs ih =>
    intro queues hopen
    have hc : (queues c.send).closed = false := hopen c (List.mem_cons_self _ _)
    have hrest : ∀ d ∈ cs, (deliver queues [c.send] m d.send).closed = false := by
      intro d hd
      rw [deliver_closed]
      exact hopen d (List.mem_cons_of_mem _ hd)
    simp only [Hub.sendEach, trySend_open queues c m hc, ih _ hrest, List.map_cons,
      deliver_cons]

theorem sendEach_append (m : Message) :
    ∀ (as bs : List Client) (queues : Nat → Chan),
      Hub.sendEach m (as ++ bs) queues =
        (Hub.sendEach m as queues).bind (Hub.sendEach m bs) := by
  intro as
  induction as with
  | nil => intro bs queues; simp [Hub.sendEach]
  | cons a as ih =>
    intro bs queues
    simp only [List.cons_append, Hub.sendEach]
    cases Hub.trySend queues a m with
    | none => simp
    | some q => simp [ih]

/-- The nested loops over the map are one loop over all connections. -/
theorem sendAll_eq_sendEach (m : Message) :
    ∀ (es : List (Sigma fun _ : String => List Client)) (queues : Nat → Chan),
      Hub.sendAll m es queues = Hub.sendEach m (es.flatMap (fun e => e.2)) queues := by
  intro es
  induction es with
  | nil => intro queues; simp [Hub.sendAll, Hub.sendEach]
  | cons e es ih =>
    intro queues
    simp only [Hub.sendAll, List.flatMap_cons, sendEach_append]
    cases Hub.sendEach m e.2 queues with
    | none => simp
    | some q => simp [ih]

/-- The broadcast step, when the queue of every recipient is open: it returns, and only the
queues change, each recipient being offered the message once per occurrence. -/
theorem broadcastMessage_open (h : Hub) (m : Message)
    (hopen : ∀ c ∈ h.recipients m, (h.queues c.send).closed = false) :
    h.broadcastMessage m = Outcome.done
      { h with queues := deliver h.queues ((h.recipients m).map Client.send) m } := by
  unfold Hub.broadcastMessage
  by_cases htgt : m.targetUserID = ""
  · simp only [htgt, ne_eq, not_true_eq_false, if_false]
    have hrec : h.recipients m = h.allClients := by simp [Hub.recipients, htgt]
    rw [hrec] at hopen
    rw [sendAll_eq_sendEach, hrec]
    have := sendEach_open m h.allClients h.queues hopen
    unfold Hub.allClients at this
    simp only [this, Hub.allClients]
  · simp only [ne_eq, htgt, not_false_eq_true, if_true]
    have hrec : h.recipients m = h.clientsOf m.targetUserID := by simp [Hub.recipients, htgt]
    rw [hrec] at hopen
    rw [hrec]
    cases hcs : h.clients.lookup m.targetUserID with
    | none =>
      have : h.clientsOf m.targetUserID = [] := by simp [Hub.clientsOf, hcs]
      simp [this, deliver_nil]
    | some cs =>
      have hof : h.clientsOf m.targetUserID = cs := by simp [Hub.clientsOf, hcs]
      rw [hof] at hopen
      simp only [sendEach_open m cs h.queues hopen, hof]

theorem mem_allClients (h : Hub) (c : Client) :
    c ∈ h.allClients ↔ ∃ u cs, h.clients.lookup u = some cs ∧ c ∈ cs := by
  unfold Hub.allClients
  rw [List.mem_flatMap]
  constructor
  · rintro ⟨e, he, hc⟩
    exact ⟨e.1, e.2, AList.mem_lookup_iff.mpr he, hc⟩
  · rintro ⟨u, cs, hcs, hc⟩
    exact ⟨⟨u, cs⟩, AList.mem_lookup_iff.mp hcs, hc⟩

/-- C4 (amended): for every hub state and every message whose targetUserID is a non-empty string
U that has an entry in the map, provided the outbound queue of every connection of U is open,
the broadcast step completes; the queue of every connection of U that has room is the old queue
followed by the message (one copy per occurrence of that queue in U's sequence, as far as the
room allows); every queue that is not the queue of a connection of U, so the queue of every
connection of every other user, is unchanged, and so is the registry map. -/
theorem broadcastMessage_targeted (h : Hub) (m : Message) (cs : List Client)
    (htgt : m.targetUserID ≠ "") (hcs : h.clients.lookup m.targetUserID = some cs)
    (hopen : ∀ c ∈ cs, (h.queues c.send).closed = false) :
    ∃ h', h.broadcastMessage m = Outcome.done h' ∧ h'.clients = h.clients ∧
      (∀ c ∈ cs, (h.queues c.send).buf.length < (h.queues c.send).cap →
        (h'.queues c.send).buf = (h.queues c.send).buf ++ m :: List.replicate
          (min ((cs.map Client.send).count c.send)
            ((h.queues c.send).cap - (h.queues c.send).buf.length) - 1) m) ∧
      (∀ i, (∀ c ∈ cs, c.send ≠ i) → h'.queues i = h.queues i) := by
  have hrec : h.recipients m = cs := by simp [Hub.recipients, htgt, Hub.clientsOf, hcs]
  have hrun := broadcastMessage_open h m (by rw [hrec]; exact hopen)
  rw [hrec] at hrun
  refine ⟨_, hrun, rfl, ?_, ?_⟩
  · intro c hc hroom
    have hpos : 0 < (cs.map Client.send).count c.send :=
      List.count_pos_iff.mpr (List.mem_map_of_mem _ hc)
    have hk : min ((cs.map Client.send).count c.send)
        ((h.queues c.send).cap - (h.queues c.send).buf.length) =
        (min ((cs.map Client.send).count c.send)
          ((h.queues c.send).cap - (h.queues c.send).buf.length) - 1) + 1 := by omega
    show (deliver h.queues (cs.map Client.send) m c.send).buf = _
    simp only [deliver]
    rw [hk, List.replicate_succ]
    simp
  · intro i hi
    apply deliver_of_not_mem
    intro hmem
    obtain ⟨c, hc, rfl⟩ := List.mem_map.mp hmem
    exact hi c hc rfl

/-- Witness of `broadcastMessage_targeted`: a message for `A` on a hub where `A` has two
connections and `B` one. -/
theorem broadcastMessage_targeted_witness :
    chatA.targetUserID ≠ "" ∧ hubAB.clients.lookup chatA.targetUserID = some [clientA1, clientA2] ∧
    ∃ h', hubAB.broadcastMessage chatA = Outcome.done h' ∧ h'.clients = hubAB.clients ∧
      (h'.queues clientA1.send).buf = [chatA] ∧ (h'.queues clientA2.send).buf = [chatA] ∧
      h'.queues clientB1.send = hubAB.queues clientB1.send := by
  obtain ⟨h', hrun, hmap, hroom, hframe⟩ :=
    broadcastMessage_targeted hubAB chatA [clientA1, clientA2] (by decide) (by decide)
      (fun _ _ => rfl)
  refine ⟨by decide, by decide, h', hrun, hmap, ?_, ?_, ?_⟩
  · exact hroom clientA1 (by decide) (by decide)
  · exact hroom clientA2 (by decide) (by decide)
  · exact hframe clientB1.send (by decide)

/-- C4 (counterexample): on the hub reached from the empty hub by registering the same client
twice and unregistering it once, user `A` has an entry whose connection has room in its queue,
yet a message for `A` is not appended to it: the queue is closed and the broadcast step panics. -/
theorem broadcastMessage_targeted_counterexample :
    ∃ h, (NewHub emptyQueues).runOps
        [RegistryOp.register clientA1, RegistryOp.register clientA1,
          RegistryOp.unregister clientA1] = Outcome.done h ∧
      chatA.targetUserID ≠ "" ∧ h.clients.lookup chatA.targetUserID = some [clientA1] ∧
      (h.queues clientA1.send).buf.length < (h.queues clientA1.send).cap ∧
      (h.queues clientA1.send).closed = true ∧
      ∃ h', h.broadcastMessage chatA = Outcome.panicked h' :=
  ⟨_, rfl, by decide, by decide, by decide, by decide, _, rfl⟩

/-- C5 (amended): for every hub state in which the outbound queues of the registered connections
are open and pairwise distinct, and every message with no target, the broadcast step completes
and delivers the message to every connection of every user registered at that moment: each
registered connection whose queue is below capacity has exactly one copy appended at the tail
of its queue, and the registry map is unchanged. -/
theorem broadcastMessage_all (h : Hub) (m : Message) (htgt : m.targetUserID = "")
    (hopen : ∀ c ∈ h.allClients, (h.queues c.send).closed = false)
    (hdistinct : (h.allClients.map Client.send).Nodup) :
    ∃ h', h.broadcastMessage m = Outcome.done h' ∧ h'.clients = h.clients ∧
      ∀ u cs, h.clients.lookup u = some cs → ∀ c ∈ cs,
        (h.queues c.send).buf.length < (h.queues c.send).cap →
        (h'.queues c.send).buf = (h.queues c.send).buf ++ [m] := by
  have hrec : h.recipients m = h.allClients := by simp [Hub.recipients, htgt]
  have hrun := broadcastMessage_open h m (by rw [hrec]; exact hopen)
  rw [hrec] at hrun
  refine ⟨_, hrun, rfl, ?_⟩
  intro u cs hu c hc hroom
  have hmem : c ∈ h.allClients := (mem_allClients h c).mpr ⟨u, cs, hu, hc⟩
  have hone : (h.allClients.map Client.send).count c.send = 1 :=
    List.count_eq_one_of_mem hdistinct (List.mem_map_of_mem _ hmem)
  have hk : min 1 ((h.queues c.send).cap - (h.queues c.send).buf.length) = 1 := by omega
  show (deliver h.queues (h.allClients.map Client.send) m c.send).buf = _
  simp [deliver, hone, hk]

/-- Witness of `broadcastMessage_all`: an untargeted message on a hub with three connections,
one of which has a full queue. -/
theorem broadcastMessage_all_witness :
    chatAll.targetUserID = "" ∧
    (∀ c ∈ hubABbusy.allClients, (hubABbusy.queues c.send).closed = false) ∧
    (hubABbusy.allClients.map Client.send).Nodup ∧
    ∃ h', hubABbusy.broadcastMessage chatAll = Outcome.done h' ∧
      h'.clients = hubABbusy.clients ∧
      (h'.queues clientA1.send).buf = [chatAll] ∧ (h'.queues clientB1.send).buf = [chatAll] := by
  have hopen : ∀ c ∈ hubABbusy.allClients, (hubABbusy.queues c.send).closed = false := by decide
  have hdistinct : (hubABbusy.allClients.map Client.send).Nodup := by decide
  obtain ⟨h', hrun, hmap, hall⟩ := broadcastMessage_all hubABbusy chatAll rfl hopen hdistinct
  refine ⟨rfl, hopen, hdistinct, h', hrun, hmap, ?_, ?_⟩
  · exact hall "A" [clientA1, clientA2] (by decide) clientA1 (by decide) (by decide)
  · exact hall "B" [clientB1] (by decide) clientB1 (by decide) (by decide)

/-- C5 (counterexample): two hub states reached from the empty hub on which an untargeted
broadcast does not append exactly one copy to a registered connection with room. After the same
client is registered twice, its queue receives two copies. After it is registered twice and
unregistered once, its queue is closed and the step panics, delivering nothing. -/
theorem broadcastMessage_all_counterexample :
    (∃ h, (NewHub emptyQueues).runOps
        [RegistryOp.register clientA1, RegistryOp.register clientA1] = Outcome.done h ∧
      h.clients.lookup "A" = some [clientA1, clientA1] ∧
      (h.queues clientA1.send).buf.length < (h.queues clientA1.send).cap ∧
      ∃ h', h.broadcastMessage chatAll = Outcome.done h' ∧
        (h'.queues clientA1.send).buf = (h.queues clientA1.send).buf ++ [chatAll, chatAll]) ∧
    (∃ h, (NewHub emptyQueues).runOps
        [RegistryOp.register clientA1, RegistryOp.register clientA1,
          RegistryOp.unregister clientA1] = Outcome.done h ∧
      h.clients.lookup "A" = some [clientA1] ∧
      (h.queues clientA1.send).buf.length < (h.queues clientA1.send).cap ∧
      (h.queues clientA1.send).closed = true ∧
      ∃ h', h.broadcastMessage chatAll = Outcome.panicked h') :=
  ⟨⟨_, rfl, by decide, by decide, _, rfl, by decide⟩,
    ⟨_, rfl, by decide, by decide, by decide, _, rfl⟩⟩

/-- A broadcast step whose recipients all have open queues returns; a recipient at capacity
keeps its queue, a recipient with room has the message appended. -/
theorem broadcastMessage_best_effort (h : Hub) (m : Message)
    (hopen : ∀ c ∈ h.recipients m, (h.queues c.send).closed = false) :
    ∃ h', h.broadcastMessage m = Outcome.done h' ∧
      (∀ c ∈ h.recipients m, ¬ (h.queues c.send).buf.length < (h.queues c.send).cap →
        h'.queues c.send = h.queues c.send) ∧
      (∀ c ∈ h.recipients m, (h.queues c.send).buf.length < (h.queues c.send).cap →
        ∃ k, (h'.queues c.send).buf = (h.queues c.send).buf ++ m :: List.replicate k m) := by
  refine ⟨_, broadcastMessage_open h m hopen, ?_, ?_⟩
  · intro c _ hfull
    exact deliver_of_full _ _ _ _ hfull
  · intro c hc hroom
    have hpos : 0 < ((h.recipients m).map Client.send).count c.send :=
      List.count_pos_iff.mpr (List.mem_map_of_mem _ hc)
    refine ⟨min (((h.recipients m).map Client.send).count c.send)
      ((h.queues c.send).cap - (h.queues c.send).buf.length) - 1, ?_⟩
    have hk : min (((h.recipients m).map Client.send).count c.send)
        ((h.queues c.send).cap - (h.queues c.send).buf.length) =
        (min (((h.recipients m).map Client.send).count c.send)
          ((h.queues c.send).cap - (h.queues c.send).buf.length) - 1) + 1 := by omega
    show (deliver h.queues ((h.recipients m).map Client.send) m c.send).buf = _
    simp only [deliver]
    rw [hk, List.replicate_succ]
    simp

/-- C6 (amended): for every hub state and every message such that the outbound queue of every
recipient is open, the broadcast step completes; a recipient connection whose queue is at
capacity keeps its queue exactly as it was, and the queue of every recipient connection with
room is the old queue followed by the message. -/
theorem broadcastMessage_drops_on_full (h : Hub) (m : Message)
    (hopen : ∀ c ∈ h.recipients m, (h.queues c.send).closed = false) :
    ∃ h', h.broadcastMessage m = Outcome.done h' ∧
      (∀ c ∈ h.recipients m, ¬ (h.queues c.send).buf.length < (h.queues c.send).cap →
        h'.queues c.send = h.queues c.send) ∧
      (∀ c ∈ h.recipients m, (h.queues c.send).buf.length < (h.queues c.send).cap →
        ∃ k, (h'.queues c.send).buf = (h.queues c.send).buf ++ m :: List.replicate k m) := by
  refine ⟨_, broadcastMessage_open h m hopen, ?_, ?_⟩
  · intro c _ hfull
    exact deliver_of_full _ _ _ _ hfull
  · intro c hc hroom
    have hpos : 0 < ((h.recipients m).map Client.send).count c.send :=
      List.count_pos_iff.mpr (List.mem_map_of_mem _ hc)
    refine ⟨min (((h.recipients m).map Client.send).count c.send)
      ((h.queues c.send).cap - (h.queues c.send).buf.length) - 1, ?_⟩
    have hk : min (((h.recipients m).map Client.send).count c.send)
        ((h.queues c.send).cap - (h.queues c.send).buf.length) =
        (min (((h.recipients m).map Client.send).count c.send)
          ((h.queues c.send).cap - (h.queues c.send).buf.length) - 1) + 1 := by omega
    show (deliver h.queues ((h.recipients m).map Client.send) m c.send).buf = _
    simp only [deliver]
    rw [hk, List.replicate_succ]
    simp

/-- Witness of `broadcastMessage_drops_on_full`: a message for `A`, one of whose two connections
has a full queue. -/
theorem broadcastMessage_drops_on_full_witness :
    (∀ c ∈ hubABbusy.recipients chatA, (hubABbusy.queues c.send).closed = false) ∧
    ∃ h', hubABbusy.broadcastMessage chatA = Outcome.done h' ∧
      h'.queues clientA2.send = hubABbusy.queues clientA2.send ∧
      ∃ k, (h'.queues clientA1.send).buf =
        (hubABbusy.queues clientA1.send).buf ++ chatA :: List.replicate k chatA := by
  have hopen : ∀ c ∈ hubABbusy.recipients chatA, (hubABbusy.queues c.send).closed = false := by
    decide
  obtain ⟨h', hrun, hfull, hroom⟩ := broadcastMessage_drops_on_full hubABbusy chatA hopen
  exact ⟨hopen, h', hrun, hfull clientA2 (by decide) (by decide),
    hroom clientA1 (by decide) (by decide)⟩

/-- C6 (counterexample): user `A` has a connection whose queue is at capacity and a connection
whose queue is closed; the broadcast step for a message to `A` does not complete, it panics. The
same happens on the hub reached from the empty hub by registering `clientA1` twice,
unregistering it once and registering `clientA2`: the step panics on the closed queue of
`clientA1` and `clientA2`, which has room, does not receive the message. -/
theorem broadcastMessage_drops_on_full_counterexample :
    (hubABstale.recipients chatA = [clientA2, clientA1] ∧
      ¬ (hubABstale.queues clientA2.send).buf.length < (hubABstale.queues clientA2.send).cap ∧
      (hubABstale.queues clientA1.send).closed = true ∧
      ∃ h', hubABstale.broadcastMessage chatA = Outcome.panicked h') ∧
    (∃ h, (NewHub emptyQueues).runOps
        [RegistryOp.register clientA1, RegistryOp.register clientA1,
          RegistryOp.unregister clientA1, RegistryOp.register clientA2] = Outcome.done h ∧
      h.recipients chatA = [clientA1, clientA2] ∧
      (h.queues clientA1.send).closed = true ∧
      (h.queues clientA2.send).buf.length < (h.queues clientA2.send).cap ∧
      ∃ h', h.broadcastMessage chatA = Outcome.panicked h' ∧
        (h'.queues clientA2.send).buf = []) :=
  ⟨⟨by decide, by decide, by decide, _, rfl⟩,
    ⟨_, rfl, by decide, by decide, by decide, _, rfl, by decide⟩⟩

/-- C7: for every hub state and every message whose targetUserID names a user with no entry in
the map, the broadcast step completes (no panic, no error) and leaves the whole state, so every
outbound queue and the registry map, unchanged: it delivers to zero connections. -/
theorem broadcastMessage_offline_target (h : Hub) (m : Message) (htgt : m.targetUserID ≠ "")
    (habs : h.clients.lookup m.targetUserID = none) :
    h.broadcastMessage m = Outcome.done h ∧ h.recipients m = [] := by
  constructor
  · simp [Hub.broadcastMessage, htgt, habs]
  · simp [Hub.recipients, htgt, Hub.clientsOf, habs]

/-- Witness of `broadcastMessage_offline_target`: a message for `Z`, who is not connected. -/
theorem broadcastMessage_offline_target_witness :
    chatZ.targetUserID ≠ "" ∧ hubAB.clients.lookup chatZ.targetUserID = none ∧
    hubAB.broadcastMessage chatZ = Outcome.done hubAB ∧ hubAB.recipients chatZ = [] :=
  ⟨by decide, by decide, broadcastMessage_offline_target hubAB chatZ (by decide) (by decide)⟩

/-! ## The registry map after a step -/

theorem registerClient_clients (h : Hub) (c : Client) (h' : Hub)
    (hs : (h.registerClient c).state? = some h') :
    h'.clients = h.clients.insert c.userID (h.clientsOf c.userID ++ [c]) := by
  unfold Hub.registerClient Hub.broadcastPresence at hs
  simp only at hs
  split_ifs at hs <;>
    (simp only [Outcome.state?, Option.some.injEq] at hs; subst hs; rfl)

theorem registerClient_lookup (h : Hub) (c : Client) (h' : Hub)
    (hs : (h.registerClient c).state? = some h') (u : String) :
    h'.clients.lookup u =
      if u = c.userID then some (h.clientsOf c.userID ++ [c]) else h.clients.lookup u := by
  rw [registerClient_clients h c h' hs]
  by_cases hu : u = c.userID
  · subst hu
    simp [AList.lookup_insert]
  · simp [hu, AList.lookup_insert_ne hu]

theorem finishUnregister_clients (h : Hub) (c : Client) (h' : Hub)
    (hs : (h.finishUnregister c).state? = some h') :
    h'.clients =
      if (h.clientsOf c.userID).length = 0 then h.clients.erase c.userID else h.clients := by
  unfold Hub.finishUnregister Hub.broadcastPresence at hs
  simp only at hs
  split_ifs at hs with h1 h2 <;>
    (simp only [Outcome.state?, Option.some.injEq] at hs; subst hs; simp [h1])

theorem unregisterClient_lookup (h : Hub) (c : Client) (h' : Hub)
    (hs : (h.unregisterClient c).state? = some h') (u : String) :
    h'.clients.lookup u =
      if u = c.userID then
        (h.clients.lookup u).bind fun cs =>
          if Hub.withoutFirst c.id cs = [] then none else some (Hub.withoutFirst c.id cs)
      else h.clients.lookup u := by
  unfold Hub.unregisterClient at hs
  cases hcs : h.clients.lookup c.userID with
  | none =>
    simp only [hcs, Outcome.state?, Option.some.injEq] at hs
    subst hs
    by_cases hu : u = c.userID
    · subst hu
      simp [hcs]
    · simp [hu]
  | some cs =>
    simp only [hcs] at hs
    cases hrf : Hub.removeFirst c.id cs with
    | none =>
      simp only [hrf] at hs
      have hcl := finishUnregister_clients h c h' hs
      have hof : h.clientsOf c.userID = cs := by simp [Hub.clientsOf, hcs]
      have hwf : Hub.withoutFirst c.id cs = cs := by simp [Hub.withoutFirst, hrf]
      rw [hof] at hcl
      rw [hcl]
      by_cases hu : u = c.userID
      · subst hu
        by_cases hl : cs.length = 0
        · have hnil : cs = [] := List.length_eq_zero.mp hl
          subst hnil
          simp [hcs, hwf, AList.lookup_erase]
        · have : cs ≠ [] := fun h0 => hl (by simp [h0])
          simp [hl, hcs, hwf, this]
      · by_cases hl : cs.length = 0
        · simp [hl, hu, AList.lookup_erase_ne hu]
        · simp [hl, hu]
    | some p =>
      obtain ⟨d, rest⟩ := p
      simp only [hrf] at hs
      split_ifs at hs with hclosed
      · simp [Outcome.state?] at hs
      · have hcl := finishUnregister_clients _ c h' hs
        have hof : Hub.clientsOf
            { clients := h.clients.insert c.userID rest, broadcast := h.broadcast,
              queues := Function.update h.queues d.send { h.queues d.send with closed := true },
              presence := h.presence, published := h.published } c.userID = rest := by
          simp [Hub.clientsOf, AList.lookup_insert]
        have hwf : Hub.withoutFirst c.id cs = rest := by simp [Hub.withoutFirst, hrf]
        rw [hof] at hcl
        rw [hcl]
        by_cases hu : u = c.userID
        · subst hu
          by_cases hl : rest.length = 0
          · have hnil : rest = [] := List.length_eq_zero.mp hl
            subst hnil
            simp [hcs, hwf, AList.lookup_erase]
          · have : rest ≠ [] := fun h0 => hl (by simp [h0])
            simp [hl, hcs, hwf, this, AList.lookup_insert]
        · by_cases hl : rest.length = 0
          · simp [hl, hu, AList.lookup_erase_ne hu, AList.lookup_insert_ne hu]
          · simp [hl, hu, AList.lookup_insert_ne hu]

theorem broadcastMessage_clients (h : Hub) (m : Message) (h' : Hub)
    (hs : (h.broadcastMessage m).state? = some h') : h'.clients = h.clients := by
  unfold Hub.broadcastMessage at hs
  split_ifs at hs
  · cases hcs : h.clients.lookup m.targetUserID with
    | none =>
      simp only [hcs, Outcome.state?, Option.some.injEq] at hs
      subst hs
      rfl
    | some cs =>
      simp only [hcs] at hs
      cases hse : Hub.sendEach m cs h.queues with
      | none => simp [hse, Outcome.state?] at hs
      | some q =>
        simp only [hse, Outcome.state?, Option.some.injEq] at hs
        subst hs
        rfl
  · cases hsa : Hub.sendAll m h.clients.entries h.queues with
    | none => simp [hsa, Outcome.state?] at hs
    | some q =>
      simp only [hsa, Outcome.state?, Option.some.injEq] at hs
      subst hs
      rfl

theorem closeAllConnections_clients (h : Hub) (h' : Hub)
    (hs : (h.closeAllConnections).state? = some h') : h'.clients = ∅ := by
  unfold Hub.closeAllConnections at hs
  cases hca : Hub.closeAll h.clients.entries h.queues with
  | none => simp [hca, Outcome.state?] at hs
  | some q =>
    simp only [hca, Outcome.state?, Option.some.injEq] at hs
    subst hs
    rfl

theorem withoutFirst_sublist (cid : String) (cs : List Client) :
    List.Sublist (Hub.withoutFirst cid cs) cs := by
  unfold Hub.withoutFirst
  cases hrf : Hub.removeFirst cid cs with
  | none => exact List.Sublist.refl _
  | some p =>
    obtain ⟨d, rest⟩ := p
    exact (removeFirst_spec cid cs d rest hrf).2.2.2.2

/-! ## Invariants of the registry map (C8, C9, C10) -/

theorem noEmptyEntry_registerClient (h : Hub) (hinv : NoEmptyEntry h) (c : Client) (h' : Hub)
    (hs : (h.registerClient c).state? = some h') : NoEmptyEntry h' := by
  apply noEmptyEntry_of_lookup
  intro u cs hcs
  rw [registerClient_lookup h c h' hs u] at hcs
  by_cases hu : u = c.userID
  · simp only [hu, if_true, Option.some.injEq] at hcs
    subst hcs
    simp
  · simp only [hu, if_false] at hcs
    exact noEmptyEntry_lookup h hinv u cs hcs

theorem noEmptyEntry_unregisterClient (h : Hub) (hinv : NoEmptyEntry h) (c : Client) (h' : Hub)
    (hs : (h.unregisterClient c).state? = some h') : NoEmptyEntry h' := by
  apply noEmptyEntry_of_lookup
  intro u cs hcs
  rw [unregisterClient_lookup h c h' hs u] at hcs
  by_cases hu : u = c.userID
  · subst hu
    simp only [if_true] at hcs
    cases hold : h.clients.lookup c.userID with
    | none => simp [hold] at hcs
    | some old =>
      simp only [hold, Option.some_bind] at hcs
      split_ifs at hcs with hnil
      simp only [Option.some.injEq] at hcs
      subst hcs
      exact hnil
  · simp only [hu, if_false] at hcs
    exact noEmptyEntry_lookup h hinv u cs hcs

/-- The register step never panics: the state it stops in is the state it returns or parks in. -/
theorem registerClient_state_hub (h : Hub) (c : Client) :
    (h.registerClient c).state? = some (h.registerClient c).hub := by
  unfold Hub.registerClient Hub.broadcastPresence
  simp only
  split_ifs <;> rfl

/-- The tail of the unregister step never panics. -/
theorem finishUnregister_state_hub (h : Hub) (c : Client) :
    (h.finishUnregister c).state? = some (h.finishUnregister c).hub := by
  unfold Hub.finishUnregister Hub.broadcastPresence
  simp only
  split_ifs <;> rfl

/-- The unregister step does not panic when the connection it finds under the client's id, if
any, has an open queue. -/
theorem unregisterClient_state_hub (h : Hub) (c : Client)
    (hopen : ∀ d rest, Hub.removeFirst c.id (h.clientsOf c.userID) = some (d, rest) →
      (h.queues d.send).closed = false) :
    (h.unregisterClient c).state? = some (h.unregisterClient c).hub := by
  cases hcs : h.clients.lookup c.userID with
  | none =>
    rw [unregisterClient_absent h c hcs]
    rfl
  | some cs =>
    have hof : h.clientsOf c.userID = cs := by simp [Hub.clientsOf, hcs]
    cases hrf : Hub.removeFirst c.id cs with
    | none =>
      have hun : h.unregisterClient c = h.finishUnregister c := by
        simp only [Hub.unregisterClient, hcs, hrf]
      rw [hun]
      exact finishUnregister_state_hub h c
    | some p =>
      obtain ⟨d, rest⟩ := p
      have ho : (h.queues d.send).closed = false := hopen d rest (by rw [hof]; exact hrf)
      have hun : h.unregisterClient c =
          Hub.finishUnregister
            { h with
              clients := h.clients.insert c.userID rest
              queues := Function.update h.queues d.send { h.queues d.send with closed := true } }
            c := by
        simp only [Hub.unregisterClient, hcs, hrf, ho, Bool.false_eq_true, if_false]
      rw [hun]
      exact finishUnregister_state_hub _ c

/-- The broadcast step leaves the registry map as it is, however it ends. -/
theorem broadcastMessage_hub_clients (h : Hub) (m : Message) :
    (h.broadcastMessage m).hub.clients = h.clients := by
  unfold Hub.broadcastMessage
  split_ifs
  · cases h.clients.lookup m.targetUserID with
    | none => rfl
    | some cs =>
      simp only
      cases Hub.sendEach m cs h.queues <;> rfl
  · cases Hub.sendAll m h.clients.entries h.queues <;> rfl

/-- The shutdown step leaves an empty registry map when it returns, and the map as it was when it
panics. -/
theorem closeAllConnections_hub_clients (h : Hub) :
    h.closeAllConnections.hub.clients = ∅ ∨ h.closeAllConnections.hub.clients = h.clients := by
  unfold Hub.closeAllConnections
  cases Hub.closeAll h.clients.entries h.queues with
  | none => exact Or.inr rfl
  | some q => exact Or.inl rfl

/-- C9 (amended): the predicate "every user key present in the clients map maps to a non-empty
sequence" holds for the hub created by `NewHub` and, when it holds before, holds in the state each
dispatch operation leaves, whether the operation returns, parks or panics: `registerClient` for
any client, `broadcastMessage` for any message, `closeAllConnections`, and `unregisterClient` for
any client (registered or not) such that the connection found under its id, if there is one, has
an open outbound queue. -/
theorem noEmptyEntry_preserved (queues : Nat → Chan) (h : Hub) (hinv : NoEmptyEntry h) :
    NoEmptyEntry (NewHub queues) ∧
    (∀ c, NoEmptyEntry (h.registerClient c).hub) ∧
    (∀ c, (∀ d rest, Hub.removeFirst c.id (h.clientsOf c.userID) = some (d, rest) →
        (h.queues d.send).closed = false) →
      NoEmptyEntry (h.unregisterClient c).hub ∧
        (h.unregisterClient c).state? = some (h.unregisterClient c).hub) ∧
    (∀ m, NoEmptyEntry (h.broadcastMessage m).hub) ∧
    NoEmptyEntry h.closeAllConnections.hub := by
  refine ⟨noEmptyEntry_NewHub queues, ?_, ?_, ?_, ?_⟩
  · intro c
    exact noEmptyEntry_registerClient h hinv c _ (registerClient_state_hub h c)
  · intro c hopen
    exact ⟨noEmptyEntry_unregisterClient h hinv c _ (unregisterClient_state_hub h c hopen),
      unregisterClient_state_hub h c hopen⟩
  · intro m e he
    rw [broadcastMessage_hub_clients h m] at he
    exact hinv e he
  · intro e he
    rcases closeAllConnections_hub_clients h with hcl | hcl
    · rw [hcl] at he
      simp at he
    · rw [hcl] at he
      exact hinv e he

/-- Witness of `noEmptyEntry_preserved`: on a hub with three connections each of the four
operations completes and leaves a state without empty entries; the unregistered client is once
the last connection of its user, once a client that was never registered. On the hub `hubABstale`
the broadcast and the shutdown step panic on a closed queue, and the state they leave has no
empty entry either. -/
theorem noEmptyEntry_preserved_witness :
    NoEmptyEntry hubAB ∧
    (∃ h', hubAB.registerClient clientA1 = Outcome.done h' ∧ NoEmptyEntry h') ∧
    (∃ h', hubAB.unregisterClient clientB1 = Outcome.done h' ∧ NoEmptyEntry h' ∧
      h'.clients.lookup "B" = none) ∧
    (∃ h', hubAB.unregisterClient clientA9 = Outcome.done h' ∧ NoEmptyEntry h') ∧
    (∃ h', hubAB.broadcastMessage chatAll = Outcome.done h' ∧ NoEmptyEntry h') ∧
    (∃ h', hubAB.closeAllConnections = Outcome.done h' ∧ NoEmptyEntry h') ∧
    NoEmptyEntry hubABstale ∧
    (∃ h', hubABstale.broadcastMessage chatAll = Outcome.panicked h' ∧ NoEmptyEntry h') ∧
    (∃ h', hubABstale.closeAllConnections = Outcome.panicked h' ∧ NoEmptyEntry h') :=
  have hinv : NoEmptyEntry hubAB := by decide
  have hstale : NoEmptyEntry hubABstale := by decide
  have hB : ∀ d rest, Hub.removeFirst clientB1.id (hubAB.clientsOf clientB1.userID) =
      some (d, rest) → (hubAB.queues d.send).closed = false := by
    intro d rest hrf
    have hfound : Hub.removeFirst clientB1.id (hubAB.clientsOf clientB1.userID) =
        some (clientB1, []) := by decide
    rw [hfound] at hrf
    cases hrf
    rfl
  have h9 : ∀ d rest, Hub.removeFirst clientA9.id (hubAB.clientsOf clientA9.userID) =
      some (d, rest) → (hubAB.queues d.send).closed = false := by
    intro d rest hrf
    have hfound : Hub.removeFirst clientA9.id (hubAB.clientsOf clientA9.userID) = none := by
      decide
    rw [hfound] at hrf
    cases hrf
  ⟨hinv,
    ⟨_, rfl, (noEmptyEntry_preserved emptyQueues hubAB hinv).2.1 clientA1⟩,
    ⟨_, rfl, ((noEmptyEntry_preserved emptyQueues hubAB hinv).2.2.1 clientB1 hB).1, by decide⟩,
    ⟨_, rfl, ((noEmptyEntry_preserved emptyQueues hubAB hinv).2.2.1 clientA9 h9).1⟩,
    ⟨_, rfl, (noEmptyEntry_preserved emptyQueues hubAB hinv).2.2.2.1 chatAll⟩,
    ⟨_, rfl, (noEmptyEntry_preserved emptyQueues hubAB hinv).2.2.2.2⟩,
    hstale,
    ⟨_, rfl, (noEmptyEntry_preserved staleQueues hubABstale hstale).2.2.2.1 chatAll⟩,
    ⟨_, rfl, (noEmptyEntry_preserved staleQueues hubABstale hstale).2.2.2.2⟩⟩

/-- C9 (counterexample): on the hub reached from the empty hub by registering the same client
twice and unregistering it once, no user key maps to an empty sequence. The unregister step for
that client stores the sequence without it, which is empty, and then panics on `close` of the
queue that is closed already: the key `A` is left in the map with an empty sequence. -/
theorem noEmptyEntry_preserved_counterexample :
    ∃ h h', (NewHub emptyQueues).runOps
        [RegistryOp.register clientA1, RegistryOp.register clientA1,
          RegistryOp.unregister clientA1] = Outcome.done h ∧
      NoEmptyEntry h ∧ h.clients.lookup "A" = some [clientA1] ∧
      (h.queues clientA1.send).closed = true ∧
      h.unregisterClient clientA1 = Outcome.panicked h' ∧
      h'.clients.lookup "A" = some [] ∧ ¬ NoEmptyEntry h' :=
  ⟨_, _, rfl, by decide, by decide, by decide, rfl, by decide, by decide⟩

/-- C10 (amended): the predicate "within each user's sequence, all client ids are pairwise
distinct" holds for the empty hub, is preserved by every unregister step, for every client
submitted to it, and is preserved by the register step for every client whose id does not
already occur in the sequence of its user. -/
theorem uniqueIds_preserved (queues : Nat → Chan) (h : Hub) (hinv : UniqueIds h) (c : Client) :
    UniqueIds (NewHub queues) ∧
    (∀ h', (h.unregisterClient c).state? = some h' → UniqueIds h') ∧
    (c.id ∉ (h.clientsOf c.userID).map Client.id →
      ∀ h', (h.registerClient c).state? = some h' → UniqueIds h') := by
  refine ⟨?_, ?_, ?_⟩
  · intro e he
    simp [NewHub] at he
  · intro h' hs
    apply uniqueIds_of_lookup
    intro u cs hcs
    rw [unregisterClient_lookup h c h' hs u] at hcs
    by_cases hu : u = c.userID
    · subst hu
      simp only [if_true] at hcs
      cases hold : h.clients.lookup c.userID with
      | none => simp [hold] at hcs
      | some old =>
        simp only [hold, Option.some_bind] at hcs
        split_ifs at hcs with hnil
        simp only [Option.some.injEq] at hcs
        subst hcs
        exact List.Nodup.sublist ((withoutFirst_sublist c.id old).map Client.id)
          (uniqueIds_lookup h hinv c.userID old hold)
    · simp only [hu, if_false] at hcs
      exact uniqueIds_lookup h hinv u cs hcs
  · intro hfresh h' hs
    apply uniqueIds_of_lookup
    intro u cs hcs
    rw [registerClient_lookup h c h' hs u] at hcs
    by_cases hu : u = c.userID
    · simp only [hu, if_true, Option.some.injEq] at hcs
      subst hcs
      have hold : ((h.clientsOf c.userID).map Client.id).Nodup := by
        unfold Hub.clientsOf
        cases hl : h.clients.lookup c.userID with
        | none => simp
        | some old => simpa using uniqueIds_lookup h hinv c.userID old hl
      rw [List.map_append, List.nodup_append]
      refine ⟨hold, by simp, ?_⟩
      intro x hx hx'
      simp only [List.map_cons, List.map_nil, List.mem_singleton] at hx'
      subst hx'
      exact hfresh hx
    · simp only [hu, if_false] at hcs
      exact uniqueIds_lookup h hinv u cs hcs

/-- Witness of `uniqueIds_preserved`: unregistering `clientA1` from, and registering a fresh
connection of `A` on, a hub where `A` has two connections. -/
theorem uniqueIds_preserved_witness :
    UniqueIds hubAB ∧
    (∃ h', (hubAB.unregisterClient clientA1).state? = some h' ∧ UniqueIds h') ∧
    clientA9.id ∉ (hubAB.clientsOf clientA9.userID).map Client.id ∧
    (∃ h', (hubAB.registerClient clientA9).state? = some h' ∧ UniqueIds h') :=
  have hinv : UniqueIds hubAB := by decide
  ⟨hinv,
    ⟨_, rfl, (uniqueIds_preserved emptyQueues hubAB hinv clientA1).2.1 _ rfl⟩,
    by decide,
    ⟨_, rfl, (uniqueIds_preserved emptyQueues hubAB hinv clientA9).2.2 (by decide) _ rfl⟩⟩

/-- C10 (counterexample): submitting the same client to the register step twice, starting from
the empty hub, leaves a sequence in which its id occurs twice; the predicate holds before the
second step and fails after it. -/
theorem uniqueIds_preserved_counterexample :
    ∃ h1 h2, (NewHub emptyQueues).registerClient clientA1 = Outcome.done h1 ∧ UniqueIds h1 ∧
      h1.registerClient clientA1 = Outcome.done h2 ∧
      h2.clients.lookup "A" = some [clientA1, clientA1] ∧ ¬ UniqueIds h2 := by
  exact ⟨_, _, rfl, by decide, rfl, by decide, by decide⟩

/-- A run of registry requests is the run of the same requests as events. -/
theorem runEvents_registry :
    ∀ (ops : List RegistryOp) (h : Hub),
      h.runEvents (ops.map RegistryOp.toEvent) = some (h.runOps ops) := by
  intro ops
  induction ops with
  | nil => intro h; rfl
  | cons op ops ih =>
    intro h
    have hstep : h.step op.toEvent = some (h.applyOp op) := by cases op <;> rfl
    simp only [List.map_cons, Hub.runEvents, hstep, Hub.runOps]
    cases h.applyOp op with
    | done h1 => exact ih h1
    | blocked h1 => rfl
    | panicked h1 => rfl

/-- A property of hub states that every returning step preserves holds at the end of every run
whose steps all return. -/
theorem runEvents_done_invariant (P : Hub → Prop)
    (hstep : ∀ h e h', P h → h.step e = some (Outcome.done h') → P h') :
    ∀ (events : List HubEvent) (h h' : Hub), P h →
      h.runEvents events = some (Outcome.done h') → P h' := by
  intro events
  induction events with
  | nil =>
    intro h h' hP hs
    simp only [Hub.runEvents, Option.some.injEq, Outcome.done.injEq] at hs
    subst hs
    exact hP
  | cons e es ih =>
    intro h h' hP hs
    unfold Hub.runEvents at hs
    cases he : h.step e with
    | none => simp [he] at hs
    | some o =>
      cases o with
      | done h1 =>
        simp only [he] at hs
        exact ih h1 h' (hstep h e h1 hP he) hs
      | blocked h1 => simp [he] at hs
      | panicked h1 => simp [he] at hs

/-- A send on the broadcast channel and the dispatch of a message leave the registry map as it
is. -/
theorem step_clients (h : Hub) (e : HubEvent) (h' : Hub)
    (hs : h.step e = some (Outcome.done h'))
    (hreg : ∀ c, e ≠ HubEvent.register c) (hunreg : ∀ c, e ≠ HubEvent.unregister c) :
    h'.clients = h.clients ∧ h'.published = h.published := by
  cases e with
  | register c => exact absurd rfl (hreg c)
  | unregister c => exact absurd rfl (hunreg c)
  | send m =>
    simp only [Hub.step, Hub.enqueue] at hs
    split_ifs at hs
    · simp only [Option.map_some', Option.some.injEq, Outcome.done.injEq] at hs
      subst hs
      exact ⟨rfl, rfl⟩
    · simp at hs
  | dispatch =>
    simp only [Hub.step, Hub.dispatchBroadcast] at hs
    cases hb : h.broadcast with
    | nil => simp [hb] at hs
    | cons m rest =>
      simp only [hb, Option.some.injEq] at hs
      have hcl := broadcastMessage_hub_clients { h with broadcast := rest } m
      have hst := broadcastMessage_clients { h with broadcast := rest } m h'
        (by rw [hs]; rfl)
      refine ⟨hst, ?_⟩
      unfold Hub.broadcastMessage at hs
      split_ifs at hs
      · cases hl : h.clients.lookup m.targetUserID with
        | none =>
          simp only [hl, Outcome.done.injEq] at hs
          subst hs
          rfl
        | some cs =>
          simp only [hl] at hs
          cases hse : Hub.sendEach m cs h.queues with
          | none => simp [hse] at hs
          | some q =>
            simp only [hse, Outcome.done.injEq] at hs
            subst hs
            rfl
      · cases hsa : Hub.sendAll m h.clients.entries h.queues with
        | none => simp [hsa] at hs
        | some q =>
          simp only [hsa, Outcome.done.injEq] at hs
          subst hs
          rfl
  | write msg u =>
    simp only [Hub.step, Option.some.injEq, Outcome.done.injEq] at hs
    subst hs
    exact ⟨rfl, rfl⟩

theorem noEmptyEntry_step (h : Hub) (hinv : NoEmptyEntry h) (e : HubEvent) (h' : Hub)
    (hs : h.step e = some (Outcome.done h')) : NoEmptyEntry h' := by
  cases e with
  | register c =>
    simp only [Hub.step, Option.some.injEq] at hs
    exact noEmptyEntry_registerClient h hinv c h' (by rw [hs]; rfl)
  | unregister c =>
    simp only [Hub.step, Option.some.injEq] at hs
    exact noEmptyEntry_unregisterClient h hinv c h' (by rw [hs]; rfl)
  | send m =>
    intro x hx
    rw [(step_clients h _ h' hs (by simp) (by simp)).1] at hx
    exact hinv x hx
  | dispatch =>
    intro x hx
    rw [(step_clients h _ h' hs (by simp) (by simp)).1] at hx
    exact hinv x hx
  | write msg u =>
    intro x hx
    rw [(step_clients h _ h' hs (by simp) (by simp)).1] at hx
    exact hinv x hx

theorem noEmptyEntry_runEvents (queues : Nat → Chan) (events : List HubEvent) (h : Hub)
    (hs : (NewHub queues).runEvents events = some (Outcome.done h)) : NoEmptyEntry h :=
  runEvents_done_invariant NoEmptyEntry (fun h e h' hP he => noEmptyEntry_step h hP e h' he)
    events (NewHub queues) h (noEmptyEntry_NewHub _) hs

theorem getTotalConnectionsUnsafe_eq_sum (h : Hub) :
    h.getTotalConnectionsUnsafe = (h.clients.entries.map fun e => e.2.length).sum := by
  unfold Hub.getTotalConnectionsUnsafe
  have key : ∀ (es : List (Sigma fun _ : String => List Client)) (acc : Nat),
      es.foldl (fun total e => total + e.2.length) acc = acc + (es.map fun e => e.2.length).sum := by
    intro es
    induction es with
    | nil => intro acc; simp
    | cons e es ih =>
      intro acc
      simp only [List.foldl_cons, List.map_cons, List.sum_cons, ih]
      omega
  simpa using key h.clients.entries 0

theorem getUserConnectionCount_entry (h : Hub) (e : Sigma fun _ : String => List Client)
    (he : e ∈ h.clients.entries) : h.GetUserConnectionCount e.1 = e.2.length := by
  have hl : h.clients.lookup e.1 = some e.2 := AList.mem_lookup_iff.mpr he
  simp [Hub.GetUserConnectionCount, hl]

/-- C8 (amended): in every state the dispatch loop reaches from the empty hub through a finite
sequence of register and unregister steps each of which returns, whatever messages are sent on
the broadcast channel and dispatched in between, `GetTotalConnections()` equals the sum of
`GetUserConnectionCount(user)` over the users with an entry, the count of every other user being
0, and `GetConnectedUsers()` equals the number of users whose connection sequence is
non-empty. -/
theorem connection_counts (queues : Nat → Chan) (events : List HubEvent) (h : Hub)
    (hs : (NewHub queues).runEvents events = some (Outcome.done h)) :
    h.GetTotalConnections = (h.clients.keys.map h.GetUserConnectionCount).sum ∧
    (∀ u, u ∉ h.clients.keys → h.GetUserConnectionCount u = 0) ∧
    h.GetConnectedUsers =
      (h.clients.keys.filter fun u => decide (0 < h.GetUserConnectionCount u)).length := by
  have hinv := noEmptyEntry_runEvents queues events h hs
  refine ⟨?_, ?_, ?_⟩
  · unfold Hub.GetTotalConnections
    rw [getTotalConnectionsUnsafe_eq_sum]
    unfold AList.keys List.keys
    rw [List.map_map]
    congr 1
    apply List.map_congr_left
    intro e he
    simp [getUserConnectionCount_entry h e he]
  · intro u hu
    have hnone : h.clients.lookup u = none :=
      AList.lookup_eq_none.mpr (fun hmem => hu (AList.mem_keys.mp hmem))
    simp [Hub.GetUserConnectionCount, hnone]
  · unfold Hub.GetConnectedUsers
    have hall : (h.clients.keys.filter fun u => decide (0 < h.GetUserConnectionCount u)) =
        h.clients.keys := by
      apply List.filter_eq_self.mpr
      intro u hu
      unfold AList.keys List.keys at hu
      obtain ⟨e, he, rfl⟩ := List.mem_map.mp hu
      have hne : e.2 ≠ [] := hinv e he
      rw [getUserConnectionCount_entry h e he]
      simpa using List.length_pos.mpr hne
    rw [hall]
    unfold AList.keys List.keys
    simp

/-- Witness of `connection_counts`: two devices of `A` and one of `B` connect, a message for `A`
is sent and a pending message is dispatched, and the first device of `A` disconnects. -/
theorem connection_counts_witness :
    ∃ h, (NewHub emptyQueues).runEvents sessionEvents = some (Outcome.done h) ∧
      h.GetTotalConnections = 2 ∧ h.GetConnectedUsers = 2 ∧
      h.GetTotalConnections = (h.clients.keys.map h.GetUserConnectionCount).sum ∧
      (∀ u, u ∉ h.clients.keys → h.GetUserConnectionCount u = 0) ∧
      h.GetConnectedUsers =
        (h.clients.keys.filter fun u => decide (0 < h.GetUserConnectionCount u)).length :=
  ⟨_, rfl, by decide, by decide, connection_counts emptyQueues sessionEvents _ rfl⟩

/-- C8 (counterexample): the same client is registered twice and unregistered twice, starting
from the empty hub. The fourth step stores the empty sequence under the key `A` and panics on
`close` of the queue the third step has closed. In the state it leaves, `GetConnectedUsers()`
answers 1, while no user has a non-empty connection sequence. -/
theorem connection_counts_counterexample :
    ∃ h, (NewHub emptyQueues).runEvents doubleUnregister = some (Outcome.panicked h) ∧
      h.clients.lookup "A" = some [] ∧
      (Outcome.panicked h).query Hub.GetConnectedUsers = some 1 ∧
      h.GetConnectedUsers = 1 ∧
      (h.clients.keys.filter fun u => decide (0 < h.GetUserConnectionCount u)).length = 0 ∧
      h.IsUserConnected "A" = false :=
  ⟨_, rfl, by decide, by decide, by decide, by decide, by decide⟩

/-! ## Presence events along a run (C3) -/

theorem presenceMessage_inj (u v : String) (a b : Bool) :
    Hub.presenceMessage u a = Hub.presenceMessage v b ↔ u = v ∧ a = b := by
  cases a <;> cases b <;> simp [Hub.presenceMessage, NewMessage]

theorem presenceEvents_append (u : String) (xs ys : List Message) :
    presenceEvents u (xs ++ ys) = presenceEvents u xs ++ presenceEvents u ys := by
  simp [presenceEvents, List.filterMap_append]

theorem presenceEvents_nil (u : String) : presenceEvents u [] = [] := rfl

theorem presenceEvents_single (u v : String) (b : Bool) :
    presenceEvents u [Hub.presenceMessage v b] = if v = u then [b] else [] := by
  by_cases hvu : v = u
  · subst hvu
    cases b <;> simp [presenceEvents, presenceMessage_inj]
  · cases b <;> simp [presenceEvents, presenceMessage_inj, hvu]

theorem alternating_succ (n : Nat) :
    alternating (n + 1) = alternating n ++ [decide (n % 2 = 0)] := by
  simp [alternating, List.range_succ]

theorem alternating_count (n : Nat) :
    (alternating n).count true = (alternating n).count false + n % 2 := by
  induction n with
  | zero => simp [alternating]
  | succ n ih =>
    rw [alternating_succ, List.count_append, List.count_append, ih]
    rcases Nat.mod_two_eq_zero_or_one n with h0 | h1
    · have : (n + 1) % 2 = 1 := by omega
      simp [h0, this]
    · have : (n + 1) % 2 = 0 := by omega
      simp [h1, this]

theorem isUserConnected_iff_mem (h : Hub) (hinv : NoEmptyEntry h) (u : String) :
    h.IsUserConnected u = true ↔ u ∈ h.clients := by
  unfold Hub.IsUserConnected
  cases hcs : h.clients.lookup u with
  | none => simpa using AList.lookup_eq_none.mp hcs
  | some cs =>
    have hmem : u ∈ h.clients := by
      rw [← AList.lookup_isSome, hcs]
      rfl
    have hpos : 0 < cs.length := List.length_pos.mpr (noEmptyEntry_lookup h hinv u cs hcs)
    simp [hmem, hpos]

/-- What one completed registry step adds to the broadcast channel and to the broker, and what it
means for a given user: an online event exactly when the user gets an entry, an offline event
exactly when the user loses it, nothing about the user otherwise. -/
theorem applyOp_events (h : Hub) (hinv : NoEmptyEntry h) (op : RegistryOp) (h' : Hub)
    (hop : h.applyOp op = Outcome.done h') (u : String) :
    ∃ new, h'.broadcast = h.broadcast ++ new ∧
      h'.published = h.published ++ new.map (fun m => (broadcastTopic, m)) ∧
      presenceEvents u new =
        if u ∉ h.clients ∧ u ∈ h'.clients then [true]
        else if u ∈ h.clients ∧ u ∉ h'.clients then [false]
        else [] := by
  cases op with
  | register c =>
    simp only [Hub.applyOp] at hop
    cases hcs : h.clients.lookup c.userID with
    | none =>
      have habs : c.userID ∉ h.clients := AList.lookup_eq_none.mp hcs
      by_cases hroom : h.broadcast.length < broadcastCap
      · rw [registerClient_first h c hcs hroom, Outcome.done.injEq] at hop
        subst hop
        refine ⟨[Hub.presenceMessage c.userID true], rfl, rfl, ?_⟩
        rw [presenceEvents_single]
        by_cases hu : c.userID = u
        · subst hu
          simp [habs, AList.mem_insert]
        · have hu' : u ≠ c.userID := fun e => hu e.symm
          simp [hu, hu', AList.mem_insert]
      · rw [registerClient_first_full h c hcs hroom] at hop
        cases hop
    | some cs =>
      have hmem : c.userID ∈ h.clients := by
        rw [← AList.lookup_isSome, hcs]
        rfl
      rw [registerClient_additional h c cs hcs (noEmptyEntry_lookup h hinv _ _ hcs),
        Outcome.done.injEq] at hop
      subst hop
      refine ⟨[], by simp, by simp, ?_⟩
      rw [presenceEvents_nil]
      by_cases hu : u = c.userID
      · subst hu
        simp [hmem]
      · simp [hu, AList.mem_insert]
  | unregister c =>
    simp only [Hub.applyOp] at hop
    cases hcs : h.clients.lookup c.userID with
    | none =>
      rw [unregisterClient_absent h c hcs, Outcome.done.injEq] at hop
      subst hop
      exact ⟨[], by simp, by simp, by simp [presenceEvents_nil]⟩
    | some cs =>
      have hmem : c.userID ∈ h.clients := by
        rw [← AList.lookup_isSome, hcs]
        rfl
      cases hrf : Hub.removeFirst c.id cs with
      | none =>
        rw [unregisterClient_unknown h c cs hcs hrf (noEmptyEntry_lookup h hinv _ _ hcs),
          Outcome.done.injEq] at hop
        subst hop
        exact ⟨[], by simp, by simp, by simp [presenceEvents_nil]⟩
      | some p =>
        obtain ⟨d, rest⟩ := p
        cases hclosed : (h.queues d.send).closed with
        | true =>
          rw [unregisterClient_closed h c d cs rest hcs hrf hclosed] at hop
          cases hop
        | false =>
          by_cases hrest : rest = []
          · subst hrest
            by_cases hroom : h.broadcast.length < broadcastCap
            · rw [unregisterClient_last h c d cs hcs hrf hclosed hroom, Outcome.done.injEq] at hop
              subst hop
              refine ⟨[Hub.presenceMessage c.userID false], rfl, rfl, ?_⟩
              rw [presenceEvents_single]
              by_cases hu : c.userID = u
              · subst hu
                simp [hmem, AList.mem_erase]
              · have hu' : u ≠ c.userID := fun e => hu e.symm
                simp [hu, hu', AList.mem_erase, AList.mem_insert]
            · rw [unregisterClient_last_full h c d cs hcs hrf hclosed hroom] at hop
              cases hop
          · rw [unregisterClient_remaining h c d cs rest hcs hrf hclosed hrest,
              Outcome.done.injEq] at hop
            subst hop
            refine ⟨[], by simp, by simp, ?_⟩
            rw [presenceEvents_nil]
            by_cases hu : u = c.userID
            · subst hu
              simp [hmem]
            · simp [hu, AList.mem_insert]

theorem presenceEvents_published (u : String) (pub : List (String × Message))
    (new : List Message) :
    presenceEvents u ((pub ++ new.map (fun m => (broadcastTopic, m))).map Prod.snd) =
      presenceEvents u (pub.map Prod.snd) ++ presenceEvents u new := by
  rw [List.map_append, presenceEvents_append, List.map_map]
  congr 2
  exact List.map_id' _

/-- What one returning step of a run passes to the broker, and what it means for a given user: an
online event exactly when the user gets an entry, an offline event exactly when the user loses
it, nothing about the user otherwise. -/
theorem step_events (h : Hub) (hinv : NoEmptyEntry h) (e : HubEvent) (h' : Hub)
    (hs : h.step e = some (Outcome.done h')) (u : String) :
    ∃ new, h'.published = h.published ++ new.map (fun m => (broadcastTopic, m)) ∧
      presenceEvents u new =
        if u ∉ h.clients ∧ u ∈ h'.clients then [true]
        else if u ∈ h.clients ∧ u ∉ h'.clients then [false]
        else [] := by
  have hquiet : h'.clients = h.clients ∧ h'.published = h.published →
      ∃ new, h'.published = h.published ++ new.map (fun m => (broadcastTopic, m)) ∧
        presenceEvents u new =
          if u ∉ h.clients ∧ u ∈ h'.clients then [true]
          else if u ∈ h.clients ∧ u ∉ h'.clients then [false]
          else [] := by
    rintro ⟨hcl, hpub⟩
    refine ⟨[], by simp [hpub], ?_⟩
    have hmem : u ∈ h'.clients ↔ u ∈ h.clients := by rw [hcl]
    by_cases hu : u ∈ h.clients <;> simp [presenceEvents_nil, hmem, hu]
  cases e with
  | register c =>
    simp only [Hub.step, Option.some.injEq] at hs
    obtain ⟨new, -, hp, hnew⟩ := applyOp_events h hinv (RegistryOp.register c) h' hs u
    exact ⟨new, hp, hnew⟩
  | unregister c =>
    simp only [Hub.step, Option.some.injEq] at hs
    obtain ⟨new, -, hp, hnew⟩ := applyOp_events h hinv (RegistryOp.unregister c) h' hs u
    exact ⟨new, hp, hnew⟩
  | send m => exact hquiet (step_clients h _ h' hs (by simp) (by simp))
  | dispatch => exact hquiet (step_clients h _ h' hs (by simp) (by simp))
  | write msg v => exact hquiet (step_clients h _ h' hs (by simp) (by simp))

/-- The property carried along a run whose steps all return: no empty entry, and for each user the
presence events passed to the broker so far alternate, their number being odd exactly when the
user has an entry. -/
theorem runEvents_presence (queues : Nat → Chan) (events : List HubEvent) (h : Hub)
    (hrun : (NewHub queues).runEvents events = some (Outcome.done h)) :
    NoEmptyEntry h ∧
      ∀ u, ∃ n, presenceEvents u (h.published.map Prod.snd) = alternating n ∧
        (n % 2 = 1 ↔ u ∈ h.clients) := by
  refine runEvents_done_invariant
    (fun h => NoEmptyEntry h ∧
      ∀ u, ∃ n, presenceEvents u (h.published.map Prod.snd) = alternating n ∧
        (n % 2 = 1 ↔ u ∈ h.clients))
    ?_ events (NewHub queues) h ?_ hrun
  · rintro h e h' ⟨hinv, hev⟩ hs
    refine ⟨noEmptyEntry_step h hinv e h' hs, ?_⟩
    intro u
    obtain ⟨new, hp, hnew⟩ := step_events h hinv e h' hs u
    obtain ⟨n, hn, hpar⟩ := hev u
    rw [hp, presenceEvents_published, hn, hnew]
    by_cases h1 : u ∉ h.clients ∧ u ∈ h'.clients
    · have hn0 : n % 2 = 0 := by
        rcases Nat.mod_two_eq_zero_or_one n with h0 | h0
        · exact h0
        · exact absurd (hpar.mp h0) h1.1
      refine ⟨n + 1, ?_, ?_⟩
      · simp [h1, alternating_succ, hn0]
      · constructor
        · intro _
          exact h1.2
        · intro _
          omega
    · by_cases h2 : u ∈ h.clients ∧ u ∉ h'.clients
      · have hn1 : n % 2 = 1 := hpar.mpr h2.1
        refine ⟨n + 1, ?_, ?_⟩
        · have hne : ¬ n % 2 = 0 := by omega
          simp [h1, h2, alternating_succ, hne]
        · constructor
          · intro hodd
            omega
          · intro hmem
            exact absurd hmem h2.2
      · refine ⟨n, ?_, ?_⟩
        · simp [h1, h2]
        · rw [hpar]
          constructor
          · intro hmem
            by_contra hnot
            exact h2 ⟨hmem, hnot⟩
          · intro hmem
            by_contra hnot
            exact h1 ⟨hnot, hmem⟩
  · refine ⟨noEmptyEntry_NewHub queues, ?_⟩
    intro u
    exact ⟨0, rfl, by simp [NewHub]⟩

/-- On every run from the empty hub whose steps all return, whatever is sent and dispatched
between the register and unregister steps, and for every user U: the presence messages about U
passed to the broker (each of them put on the local broadcast channel just before) are online,
offline, online, ... starting with online; the number of online messages is the number of offline
messages plus 1 if U is connected at the end and plus 0 otherwise; and a further register or
unregister step that returns emits an online message about U exactly when it gives U an entry in
the map, an offline message exactly when it takes U's entry away, and nothing about U
otherwise. -/
theorem presence_events_on_edges (queues : Nat → Chan) (events : List HubEvent) (h : Hub)
    (u : String) (hrun : (NewHub queues).runEvents events = some (Outcome.done h)) :
    (∃ n, presenceEvents u (h.published.map Prod.snd) = alternating n) ∧
    (presenceEvents u (h.published.map Prod.snd)).count true =
      (presenceEvents u (h.published.map Prod.snd)).count false +
        (if h.IsUserConnected u then 1 else 0) ∧
    (∀ op h', h.applyOp op = Outcome.done h' →
      ∃ new, h'.broadcast = h.broadcast ++ new ∧
        h'.published = h.published ++ new.map (fun m => (broadcastTopic, m)) ∧
        presenceEvents u new =
          if u ∉ h.clients ∧ u ∈ h'.clients then [true]
          else if u ∈ h.clients ∧ u ∉ h'.clients then [false]
          else []) := by
  obtain ⟨hinv, hev⟩ := runEvents_presence queues events h hrun
  obtain ⟨n, hn, hpar⟩ := hev u
  refine ⟨⟨n, hn⟩, ?_, ?_⟩
  · rw [hn, alternating_count]
    by_cases hc : h.IsUserConnected u = true
    · have : n % 2 = 1 := hpar.mpr ((isUserConnected_iff_mem h hinv u).mp hc)
      simp [hc, this]
    · have hnot : u ∉ h.clients := fun hm => hc ((isUserConnected_iff_mem h hinv u).mpr hm)
      have : n % 2 = 0 := by
        rcases Nat.mod_two_eq_zero_or_one n with h0 | h0
        · exact h0
        · exact absurd (hpar.mp h0) hnot
      simp [hc, this]
  · intro op h' hop
    exact applyOp_events h hinv op h' hop u

/-- User `A` connects with two devices, a message is sent and dispatched, `A` disconnects with
both devices and connects again; the events about `A` are online, offline, online. -/
theorem presence_events_on_edges_witness :
    ∃ h, (NewHub emptyQueues).runEvents churnEvents = some (Outcome.done h) ∧
      presenceEvents "A" (h.published.map Prod.snd) = [true, false, true] ∧
      h.IsUserConnected "A" = true ∧
      (∃ n, presenceEvents "A" (h.published.map Prod.snd) = alternating n) ∧
      (presenceEvents "A" (h.published.map Prod.snd)).count true =
        (presenceEvents "A" (h.published.map Prod.snd)).count false +
          (if h.IsUserConnected "A" then 1 else 0) :=
  ⟨_, rfl, by decide, by decide,
    (presence_events_on_edges emptyQueues churnEvents _ "A" rfl).1,
    (presence_events_on_edges emptyQueues churnEvents _ "A" rfl).2.1⟩

/-- C3 (the code at the failing input): user `A` connects and disconnects 128 times and connects
once more, starting from the empty hub, the dispatch loop taking these 257 requests before any
of the pending presence messages. The last step parks on the full broadcast channel and never
returns: `A` has an entry in the map and a connection, yet as many offline as online messages
(128 each) have been emitted for `A`, on the local broadcast channel and to the broker; the
online message of the last step is never emitted. The same happens to the very first register
step of a run when a burst of 256 messages is pending: `A` has its entry and no presence message
about `A` has been emitted. -/
theorem presence_events_flood :
    (∃ h, (NewHub emptyQueues).runEvents floodEvents = some (Outcome.blocked h) ∧
      h.clients.lookup "A" = some [visitor 128] ∧ h.IsUserConnected "A" = true ∧
      h.broadcast.length = broadcastCap ∧
      (presenceEvents "A" h.broadcast).count true = 128 ∧
      (presenceEvents "A" h.broadcast).count false = 128 ∧
      (presenceEvents "A" (h.published.map Prod.snd)).count true = 128 ∧
      (presenceEvents "A" (h.published.map Prod.snd)).count false = 128) ∧
    (∃ h, (NewHub emptyQueues).runEvents burstEvents = some (Outcome.blocked h) ∧
      h.clients.lookup "A" = some [clientA1] ∧ h.IsUserConnected "A" = true ∧
      presenceEvents "A" h.broadcast = [] ∧
      presenceEvents "A" (h.published.map Prod.snd) = []) := by
  refine ⟨?_, ?_⟩
  case refine_2 =>
    have hburst := fullBroadcastHub_reached
    have habs : fullBroadcastHub.clients.lookup clientA1.userID = none := by decide
    have hfull : ¬ fullBroadcastHub.broadcast.length < broadcastCap := by
      simp [fullBroadcastHub, NewHub]
    have hreg := registerClient_first_full fullBroadcastHub clientA1 habs hfull
    have hrun : (NewHub emptyQueues).runEvents burstEvents =
        some (fullBroadcastHub.registerClient clientA1) := by
      unfold burstEvents
      rw [runEvents_append _ _ _ _ hburst]
      simp only [Hub.runEvents, Hub.step, hreg]
    have hquiet : presenceEvents "A" fullBroadcastHub.broadcast = [] := by
      simp [fullBroadcastHub, NewHub, presenceEvents, chatAll, Hub.presenceMessage, NewMessage]
    rw [hreg] at hrun
    exact ⟨_, hrun, by decide, by decide, hquiet, rfl⟩
  have key : (((NewHub emptyQueues).runOps floodOps).completed,
      ((NewHub emptyQueues).runOps floodOps).state?.map fun h =>
        (h.clients.lookup "A", h.IsUserConnected "A", h.broadcast.length)) =
      (false, some (some [visitor 128], true, 256)) := by
    decide!
  have key2 : (((NewHub emptyQueues).runOps floodOps).state?.map fun h =>
        ((presenceEvents "A" h.broadcast).count true,
          (presenceEvents "A" h.broadcast).count false,
          (presenceEvents "A" (h.published.map Prod.snd)).count true,
          (presenceEvents "A" (h.published.map Prod.snd)).count false)) =
      some (128, 128, 128, 128) := by
    decide!
  have hev : (NewHub emptyQueues).runEvents floodEvents =
      some ((NewHub emptyQueues).runOps floodOps) := runEvents_registry floodOps _
  rw [hev]
  cases hrun : (NewHub emptyQueues).runOps floodOps with
  | done h =>
    rw [hrun] at key
    simp [Outcome.completed] at key
  | panicked h =>
    rw [hrun] at key
    simp [Outcome.state?] at key
  | blocked h =>
    rw [hrun] at key key2
    simp only [Outcome.state?, Option.map_some', Prod.mk.injEq, Option.some.injEq] at key key2
    exact ⟨h, rfl, key.2.1, key.2.2.1, key.2.2.2, key2.1, key2.2.1, key2.2.2.1, key2.2.2.2⟩

/-! ## The order in which a broadcast visits the connections

Go ranges over a map in an unspecified order. The outcome of the send loops does not depend on
the order: they panic exactly when the queue of some recipient is closed, and otherwise the
result only counts how often each queue occurs. -/

theorem trySend_closed_iff (queues : Nat → Chan) (c : Client) (m : Message) :
    Hub.trySend queues c m = none ↔ (queues c.send).closed = true := by
  constructor
  · intro hnone
    by_contra hopen
    have ho : (queues c.send).closed = false := by simpa using hopen
    rw [trySend_open queues c m ho] at hnone
    cases hnone
  · exact trySend_closed queues c m

theorem sendEach_eq_none_iff (m : Message) :
    ∀ (cs : List Client) (queues : Nat → Chan),
      Hub.sendEach m cs queues = none ↔ ∃ c ∈ cs, (queues c.send).closed = true := by
  intro cs
  induction cs with
  | nil => intro queues; simp [Hub.sendEach]
  | cons c cs ih =>
    intro queues
    cases hc : (queues c.send).closed with
    | true =>
      simp only [Hub.sendEach, trySend_closed queues c m hc]
      exact ⟨fun _ => ⟨c, List.mem_cons_self _ _, hc⟩, fun _ => trivial⟩
    | false =>
      simp only [Hub.sendEach, trySend_open queues c m hc, ih, deliver_closed]
      constructor
      · rintro ⟨d, hd, hclosed⟩
        exact ⟨d, List.mem_cons_of_mem _ hd, hclosed⟩
      · rintro ⟨d, hd, hclosed⟩
        rcases List.mem_cons.mp hd with rfl | hd
        · rw [hc] at hclosed
          cases hclosed
        · exact ⟨d, hd, hclosed⟩

/-- Visiting the same connections in another order gives the same outcome. -/
theorem sendEach_perm (m : Message) (cs ds : List Client) (queues : Nat → Chan)
    (hperm : List.Perm cs ds) : Hub.sendEach m cs queues = Hub.sendEach m ds queues := by
  by_cases hclosed : ∃ c ∈ cs, (queues c.send).closed = true
  · have hclosed' : ∃ c ∈ ds, (queues c.send).closed = true := by
      obtain ⟨c, hc, hcl⟩ := hclosed
      exact ⟨c, hperm.mem_iff.mp hc, hcl⟩
    rw [(sendEach_eq_none_iff m cs queues).mpr hclosed,
      (sendEach_eq_none_iff m ds queues).mpr hclosed']
  · have hopen : ∀ c ∈ cs, (queues c.send).closed = false := by
      intro c hc
      by_contra hne
      exact hclosed ⟨c, hc, by simpa using hne⟩
    have hopen' : ∀ c ∈ ds, (queues c.send).closed = false := fun c hc =>
      hopen c (hperm.mem_iff.mpr hc)
    rw [sendEach_open m cs queues hopen, sendEach_open m ds queues hopen']
    congr 1
    funext i
    simp only [deliver]
    rw [(hperm.map Client.send).count_eq i]

/-! ## The effect of the unregister step (C11, C12, C13) -/

theorem removeFirst_split (cid : String) :
    ∀ (cs : List Client) (d : Client) (rest : List Client),
      Hub.removeFirst cid cs = some (d, rest) →
      ∃ pre post, cs = pre ++ d :: post ∧ rest = pre ++ post ∧ d.id = cid ∧
        ∀ x ∈ pre, x.id ≠ cid := by
  intro cs
  induction cs with
  | nil => intro d rest hrf; simp [Hub.removeFirst] at hrf
  | cons c cs ih =>
    intro d rest hrf
    unfold Hub.removeFirst at hrf
    by_cases hc : c.id = cid
    · simp only [hc, if_true, Option.some.injEq, Prod.mk.injEq] at hrf
      obtain ⟨rfl, rfl⟩ := hrf
      exact ⟨[], cs, rfl, rfl, hc, by simp⟩
    · simp only [hc, if_false] at hrf
      cases hrec : Hub.removeFirst cid cs with
      | none => simp [hrec] at hrf
      | some p =>
        obtain ⟨d', rest'⟩ := p
        simp only [hrec, Option.some.injEq, Prod.mk.injEq] at hrf
        obtain ⟨rfl, rfl⟩ := hrf
        obtain ⟨pre, post, hcs, hrest, hid, hpre⟩ := ih d' rest' hrec
        refine ⟨c :: pre, post, by simp [hcs], by simp [hrest], hid, ?_⟩
        intro x hx
        rcases List.mem_cons.mp hx with rfl | hx
        · exact hc
        · exact hpre x hx

/-- The state an unregister step leaves when it finds the client and the queue of the element it
removes is open; the step has then returned, or is parked on the offline announcement. -/
theorem unregisterClient_found (h : Hub) (c d : Client) (cs rest : List Client)
    (hcs : h.clients.lookup c.userID = some cs) (hrf : Hub.removeFirst c.id cs = some (d, rest))
    (hopen : (h.queues d.send).closed = false) :
    ∃ h', (h.unregisterClient c).state? = some h' ∧
      h'.queues = Function.update h.queues d.send { h.queues d.send with closed := true } ∧
      h'.presence = h.presence ++ [PresenceOp.remove c.userID c.id] ∧
      h'.clientsOf c.userID = rest := by
  by_cases hrest : rest = []
  · subst hrest
    by_cases hroom : h.broadcast.length < broadcastCap
    · rw [unregisterClient_last h c d cs hcs hrf hopen hroom]
      exact ⟨_, rfl, rfl, rfl, by simp [Hub.clientsOf, AList.lookup_erase]⟩
    · rw [unregisterClient_last_full h c d cs hcs hrf hopen hroom]
      exact ⟨_, rfl, rfl, rfl, by simp [Hub.clientsOf, AList.lookup_erase]⟩
  · rw [unregisterClient_remaining h c d cs rest hcs hrf hopen hrest]
    exact ⟨_, rfl, rfl, rfl, by simp [Hub.clientsOf, AList.lookup_insert]⟩

/-- C11 (amended): for every hub state and every client c whose id occurs in the sequence of
c.userID, provided the outbound queue of the connection found under c's id, the first element of
the sequence whose id equals c.id, is open, the unregister step removes exactly one element from
that sequence, that first one, keeps the remaining elements in their original order, closes the
removed element's outbound queue and no other queue, and leaves every other user's sequence
unchanged. -/
theorem unregisterClient_removes_first (h : Hub) (c : Client) (cs : List Client)
    (hcs : h.clients.lookup c.userID = some cs) (hocc : c.id ∈ cs.map Client.id)
    (hopen : ∀ pre d post, cs = pre ++ d :: post → d.id = c.id →
      (∀ x ∈ pre, x.id ≠ c.id) → (h.queues d.send).closed = false) :
    ∃ h' pre d post, (h.unregisterClient c).state? = some h' ∧
      cs = pre ++ d :: post ∧ d.id = c.id ∧ (∀ x ∈ pre, x.id ≠ c.id) ∧
      h'.clientsOf c.userID = pre ++ post ∧
      h'.queues d.send = { h.queues d.send with closed := true } ∧
      (∀ i, i ≠ d.send → h'.queues i = h.queues i) ∧
      (∀ u, u ≠ c.userID → h'.clients.lookup u = h.clients.lookup u) := by
  cases hrf : Hub.removeFirst c.id cs with
  | none =>
    obtain ⟨x, hx, hid⟩ := List.mem_map.mp hocc
    exact absurd hid ((removeFirst_eq_none c.id cs).mp hrf x hx)
  | some p =>
    obtain ⟨d, rest⟩ := p
    obtain ⟨pre, post, hsplit, hrest, hid, hpre⟩ := removeFirst_split c.id cs d rest hrf
    obtain ⟨h', hs, hq, -, hseq⟩ :=
      unregisterClient_found h c d cs rest hcs hrf (hopen pre d post hsplit hid hpre)
    refine ⟨h', pre, d, post, hs, hsplit, hid, hpre, by rw [hseq, hrest], ?_, ?_, ?_⟩
    · rw [hq, Function.update_same]
    · intro i hi
      rw [hq, Function.update_noteq hi]
    · intro u hu
      rw [unregisterClient_lookup h c h' hs u]
      simp [hu]

/-- Witness of `unregisterClient_removes_first`: the first of the two connections of `A` is
unregistered; and in a state where `A` has two connections under one id, the first with an open
queue and the second with a closed one, the step for the second removes the first, closes its
queue and leaves the second in the sequence. -/
theorem unregisterClient_removes_first_witness :
    (hubAB.clients.lookup clientA1.userID = some [clientA1, clientA2] ∧
      clientA1.id ∈ [clientA1, clientA2].map Client.id ∧
      ∃ h' pre d post, (hubAB.unregisterClient clientA1).state? = some h' ∧
        [clientA1, clientA2] = pre ++ d :: post ∧ d.id = clientA1.id ∧
        (∀ x ∈ pre, x.id ≠ clientA1.id) ∧
        h'.clientsOf clientA1.userID = pre ++ post ∧
        h'.queues d.send = { hubAB.queues d.send with closed := true } ∧
        (∀ i, i ≠ d.send → h'.queues i = hubAB.queues i) ∧
        (∀ u, u ≠ clientA1.userID → h'.clients.lookup u = hubAB.clients.lookup u)) ∧
    (hubTwins.clients.lookup twinClosed.userID = some [twinOpen, twinClosed] ∧
      (hubTwins.queues twinOpen.send).closed = false ∧
      (hubTwins.queues twinClosed.send).closed = true ∧
      ∃ h' pre d post, (hubTwins.unregisterClient twinClosed).state? = some h' ∧
        [twinOpen, twinClosed] = pre ++ d :: post ∧ d.id = twinClosed.id ∧
        (∀ x ∈ pre, x.id ≠ twinClosed.id) ∧
        h'.clientsOf twinClosed.userID = pre ++ post ∧
        h'.queues d.send = { hubTwins.queues d.send with closed := true } ∧
        (∀ i, i ≠ d.send → h'.queues i = hubTwins.queues i) ∧
        (∀ u, u ≠ twinClosed.userID → h'.clients.lookup u = hubTwins.clients.lookup u)) := by
  have hA : ∀ pre d post, [clientA1, clientA2] = pre ++ d :: post → d.id = clientA1.id →
      (∀ x ∈ pre, x.id ≠ clientA1.id) → (hubAB.queues d.send).closed = false :=
    fun _ _ _ _ _ _ => rfl
  have hT : ∀ pre d post, [twinOpen, twinClosed] = pre ++ d :: post → d.id = twinClosed.id →
      (∀ x ∈ pre, x.id ≠ twinClosed.id) → (hubTwins.queues d.send).closed = false := by
    intro pre d post hsplit _ hpre
    cases pre with
    | nil =>
      simp only [List.nil_append, List.cons.injEq] at hsplit
      rw [← hsplit.1]
      rfl
    | cons a pre' =>
      simp only [List.cons_append, List.cons.injEq] at hsplit
      exact absurd (by rw [← hsplit.1]; rfl) (hpre a (List.mem_cons_self _ _))
  exact ⟨⟨by decide, by decide,
      unregisterClient_removes_first hubAB clientA1 [clientA1, clientA2] (by decide) (by decide)
        hA⟩,
    ⟨by decide, by decide, by decide,
      unregisterClient_removes_first hubTwins twinClosed [twinOpen, twinClosed] (by decide)
        (by decide) hT⟩⟩

/-- C11 (counterexample): on the hub reached from the empty hub by registering the same client
twice and unregistering it once, the client's id occurs in the sequence of its user, but the
unregister step does not close the queue of the element it removes: the queue is closed already
and the step panics on `close`. -/
theorem unregisterClient_removes_first_counterexample :
    ∃ h, (NewHub emptyQueues).runOps
        [RegistryOp.register clientA1, RegistryOp.register clientA1,
          RegistryOp.unregister clientA1] = Outcome.done h ∧
      h.clients.lookup clientA1.userID = some [clientA1] ∧
      clientA1.id ∈ [clientA1].map Client.id ∧
      (h.queues clientA1.send).closed = true ∧
      ∃ h', h.unregisterClient clientA1 = Outcome.panicked h' :=
  ⟨_, rfl, by decide, by decide, by decide, _, rfl⟩

/-- C12: for every hub state in which no user key maps to an empty sequence, and every client c
whose id does not occur in the sequence of c.userID (whether or not c.userID has an entry), the
unregister step returns, leaves the clients map unchanged, closes no outbound queue (all queues
are as before) and emits no message, neither on the local broadcast channel nor to the
broker. -/
theorem unregisterClient_unknown_noop (h : Hub) (c : Client) (hinv : NoEmptyEntry h)
    (hunk : ∀ d ∈ h.clientsOf c.userID, d.id ≠ c.id) :
    ∃ h', h.unregisterClient c = Outcome.done h' ∧ h'.clients = h.clients ∧
      h'.queues = h.queues ∧ h'.broadcast = h.broadcast ∧ h'.published = h.published := by
  cases hcs : h.clients.lookup c.userID with
  | none => exact ⟨h, unregisterClient_absent h c hcs, rfl, rfl, rfl, rfl⟩
  | some cs =>
    have hof : h.clientsOf c.userID = cs := by simp [Hub.clientsOf, hcs]
    rw [hof] at hunk
    have hrf : Hub.removeFirst c.id cs = none := (removeFirst_eq_none c.id cs).mpr hunk
    exact ⟨_, unregisterClient_unknown h c cs hcs hrf (noEmptyEntry_lookup h hinv _ _ hcs),
      rfl, rfl, rfl, rfl⟩

/-- Witness of `unregisterClient_unknown_noop`: a client of `A` that was never registered, while
`A` is connected through two others, and a client of `Z`, who has no entry. -/
theorem unregisterClient_unknown_noop_witness :
    NoEmptyEntry hubAB ∧ (∀ d ∈ hubAB.clientsOf clientA9.userID, d.id ≠ clientA9.id) ∧
    (∃ h', hubAB.unregisterClient clientA9 = Outcome.done h' ∧ h'.clients = hubAB.clients ∧
      h'.queues = hubAB.queues ∧ h'.broadcast = hubAB.broadcast ∧
      h'.published = hubAB.published) ∧
    (∃ h', hubAB.unregisterClient { clientA9 with userID := "Z" } = Outcome.done h' ∧
      h'.clients = hubAB.clients ∧ h'.queues = hubAB.queues ∧
      h'.broadcast = hubAB.broadcast ∧ h'.published = hubAB.published) :=
  ⟨by decide, by decide,
    unregisterClient_unknown_noop hubAB clientA9 (by decide) (by decide),
    unregisterClient_unknown_noop hubAB { clientA9 with userID := "Z" } (by decide)
      (by decide)⟩

/-- C13 (the code at the failing input): user `A` is connected through `clientA1` and
`clientA2`; the unregister step for `clientA9`, whose id occurs nowhere, returns with the map
untouched but has called `RemovePresence("A", "c9")` on the presence store. -/
theorem unregisterClient_unknown_removes_presence :
    hubAB.clients.lookup clientA9.userID = some [clientA1, clientA2] ∧
    clientA9.id ∉ [clientA1, clientA2].map Client.id ∧
    ∃ h', hubAB.unregisterClient clientA9 = Outcome.done h' ∧ h'.clients = hubAB.clients ∧
      hubAB.presence = [] ∧ h'.presence = [PresenceOp.remove "A" "c9"] :=
  ⟨by decide, by decide, _,
    unregisterClient_unknown hubAB clientA9 [clientA1, clientA2] (by decide) (by decide)
      (by decide),
    rfl, rfl, rfl⟩

/-- Whenever the user of an unknown client has an entry with a connection, the unregister step
issues one `RemovePresence` for the unknown client. -/
theorem unregisterClient_unknown_presence (h : Hub) (c : Client) (cs : List Client)
    (hcs : h.clients.lookup c.userID = some cs) (hne : cs ≠ [])
    (hunk : ∀ d ∈ cs, d.id ≠ c.id) :
    ∃ h', h.unregisterClient c = Outcome.done h' ∧
      h'.presence = h.presence ++ [PresenceOp.remove c.userID c.id] :=
  ⟨_, unregisterClient_unknown h c cs hcs ((removeFirst_eq_none c.id cs).mpr hunk) hne, rfl⟩

/-! ## The effect of the register step, and the presence store (C14, C15) -/

/-- The register step always leaves a state, returned or parked on the online announcement;
there the registry and the presence log are as follows. -/
theorem registerClient_state (h : Hub) (c : Client) :
    ∃ h', (h.registerClient c).state? = some h' ∧
      h'.clients = h.clients.insert c.userID (h.clientsOf c.userID ++ [c]) ∧
      h'.queues = h.queues ∧
      h'.presence = h.presence ++
        [PresenceOp.set c.userID c.id [("userAgent", c.userAgent), ("clientID", c.id)]] := by
  unfold Hub.registerClient Hub.broadcastPresence
  simp only
  split_ifs <;> exact ⟨_, rfl, rfl, rfl, rfl⟩

/-- In the state the register step leaves in memory, the sequence of c.userID is the previous
sequence (empty if the user was absent) with c appended at the end, the count of c.userID is one
higher, and the sequence of every other user is unchanged; the step has returned whenever the
user was already connected or the broadcast channel has room. -/
theorem registerClient_appends (h : Hub) (c : Client) :
    ∃ h', (h.registerClient c).state? = some h' ∧
      h'.clients.lookup c.userID = some (h.clientsOf c.userID ++ [c]) ∧
      h'.GetUserConnectionCount c.userID = h.GetUserConnectionCount c.userID + 1 ∧
      (∀ u, u ≠ c.userID → h'.clients.lookup u = h.clients.lookup u) ∧
      (h.broadcast.length < broadcastCap ∨ h.clientsOf c.userID ≠ [] →
        h.registerClient c = Outcome.done h') := by
  obtain ⟨h', hs, hcl, -, -⟩ := registerClient_state h c
  have hlook := registerClient_lookup h c h' hs
  refine ⟨h', hs, by simpa using hlook c.userID, ?_, ?_, ?_⟩
  · have hself : h'.clients.lookup c.userID = some (h.clientsOf c.userID ++ [c]) := by
      simpa using hlook c.userID
    unfold Hub.GetUserConnectionCount
    rw [hself]
    cases hold : h.clients.lookup c.userID with
    | none => simp [Hub.clientsOf, hold]
    | some cs => simp [Hub.clientsOf, hold]
  · intro u hu
    simpa [hu] using hlook u
  · intro hcase
    cases hout : h.registerClient c with
    | done h1 =>
      rw [hout] at hs
      simp only [Outcome.state?, Option.some.injEq] at hs
      rw [hs]
    | panicked h1 =>
      rw [hout] at hs
      simp [Outcome.state?] at hs
    | blocked h1 =>
      exfalso
      unfold Hub.registerClient Hub.broadcastPresence at hout
      simp only at hout
      split_ifs at hout with hdev hroom
      rcases hcase with hr | hne
      · exact hroom hr
      · apply hne
        have hlen : (h.clientsOf c.userID ++ [c]).length = 1 := by
          simpa [Hub.clientsOf, AList.lookup_insert] using hdev
        simp only [List.length_append, List.length_singleton] at hlen
        exact List.length_eq_zero.mp (by omega)

/-- A third connection of `A`. -/
theorem registerClient_appends_witness :
    ∃ h', hubAB.registerClient clientA9 = Outcome.done h' ∧
      h'.clients.lookup "A" = some [clientA1, clientA2, clientA9] ∧
      h'.GetUserConnectionCount "A" = 3 ∧ hubAB.GetUserConnectionCount "A" = 2 ∧
      h'.clients.lookup "B" = hubAB.clients.lookup "B" := by
  obtain ⟨h', -, hseq, hcount, hother, hdone⟩ := registerClient_appends hubAB clientA9
  refine ⟨h', hdone (Or.inl (by decide)), ?_, ?_, by decide, hother "B" (by decide)⟩
  · exact hseq.trans (by decide)
  · exact hcount.trans (by decide)

/-- C14 (the code at the failing input): on a hub with nobody connected whose broadcast channel
holds its 256 pending messages (the state a burst of 256 sends leaves), there is no state after
the register step for a first connection: the step parks on the send in `broadcastPresence`,
holding the mutex, and never returns, so `GetUserConnectionCount("A")`, which was 0, is never
answered again. The client has been appended in memory. -/
theorem registerClient_unanswered :
    (NewHub emptyQueues).runEvents (List.replicate broadcastCap (HubEvent.send chatAll)) =
      some (Outcome.done fullBroadcastHub) ∧
    fullBroadcastHub.clients.lookup clientA1.userID = none ∧
    fullBroadcastHub.broadcast.length = broadcastCap ∧
    fullBroadcastHub.GetUserConnectionCount "A" = 0 ∧
    (fullBroadcastHub.registerClient clientA1).completed = false ∧
    (fullBroadcastHub.registerClient clientA1).query
      (fun h => h.GetUserConnectionCount "A") = none ∧
    ∃ h', fullBroadcastHub.registerClient clientA1 = Outcome.blocked h' ∧
      h'.clients.lookup "A" = some [clientA1] := by
  have habs : fullBroadcastHub.clients.lookup clientA1.userID = none := by decide
  have hlen : fullBroadcastHub.broadcast.length = broadcastCap := by
    simp [fullBroadcastHub, NewHub]
  have hfull : ¬ fullBroadcastHub.broadcast.length < broadcastCap := by omega
  have hrun := registerClient_first_full fullBroadcastHub clientA1 habs hfull
  refine ⟨fullBroadcastHub_reached, habs, hlen, by decide, ?_, ?_, _, hrun, by decide⟩
  · rw [hrun]
    rfl
  · rw [hrun]
    rfl

/-- C15 (amended): every register step issues exactly one
`SetPresence(c.userID, c.id, metadata)` with metadata holding c's user agent and client id,
whether c is the user's first or an additional connection; and every unregister step that finds
a client to remove whose outbound queue is open issues exactly one `RemovePresence` for the user
and the client id under which that client is registered, whether or not it was the user's last
connection. -/
theorem presence_mirrors_registry (h : Hub) (c : Client) :
    (∃ h', (h.registerClient c).state? = some h' ∧
      h'.presence = h.presence ++
        [PresenceOp.set c.userID c.id [("userAgent", c.userAgent), ("clientID", c.id)]]) ∧
    (∀ cs d rest, h.clients.lookup c.userID = some cs →
      Hub.removeFirst c.id cs = some (d, rest) → (h.queues d.send).closed = false →
      ∃ h', (h.unregisterClient c).state? = some h' ∧ h'.clientsOf c.userID = rest ∧
        h'.presence = h.presence ++ [PresenceOp.remove c.userID d.id]) := by
  constructor
  · obtain ⟨h', hs, -, -, hp⟩ := registerClient_state h c
    exact ⟨h', hs, hp⟩
  · intro cs d rest hcs hrf hopen
    obtain ⟨h', hs, -, hp, hseq⟩ := unregisterClient_found h c d cs rest hcs hrf hopen
    have hid : d.id = c.id := (removeFirst_spec c.id cs d rest hrf).2.1
    exact ⟨h', hs, hseq, by rw [hp, hid]⟩

/-- Witness of `presence_mirrors_registry`: `clientB1`, the only connection of `B`, is
unregistered and the presence store is told to remove `("B", "c3")`. -/
theorem presence_mirrors_registry_witness :
    hubAB.clients.lookup clientB1.userID = some [clientB1] ∧
    Hub.removeFirst clientB1.id [clientB1] = some (clientB1, []) ∧
    (hubAB.queues clientB1.send).closed = false ∧
    ∃ h', (hubAB.unregisterClient clientB1).state? = some h' ∧
      h'.clientsOf clientB1.userID = [] ∧
      h'.presence = hubAB.presence ++ [PresenceOp.remove "B" "c3"] :=
  ⟨by decide, by decide, rfl,
    (presence_mirrors_registry hubAB clientB1).2 [clientB1] clientB1 [] (by decide) (by decide)
      rfl⟩

/-- C15 (counterexample): on the hub reached from the empty hub by registering the same client
twice and unregistering it once, the unregister step finds the client in the sequence of its
user and takes it out, then panics on `close` of the already closed queue, before
`RemovePresence` is called. -/
theorem presence_mirrors_registry_counterexample :
    ∃ h, (NewHub emptyQueues).runOps
        [RegistryOp.register clientA1, RegistryOp.register clientA1,
          RegistryOp.unregister clientA1] = Outcome.done h ∧
      h.clients.lookup clientA1.userID = some [clientA1] ∧
      Hub.removeFirst clientA1.id [clientA1] = some (clientA1, []) ∧
      (h.queues clientA1.send).closed = true ∧
      (∃ h', h.unregisterClient clientA1 = Outcome.panicked h' ∧ h'.presence = h.presence) ∧
      (h.unregisterClient clientA1).state? = none :=
  ⟨_, rfl, by decide, by decide, by decide, ⟨_, rfl, rfl⟩, rfl⟩

/-! ## Messages sent through the public methods and the relay (C16, C17, C18, C19) -/

theorem enqueue_room (h : Hub) (m : Message) (hroom : h.broadcast.length < broadcastCap) :
    h.enqueue m = some { h with broadcast := h.broadcast ++ [m] } := by
  simp [Hub.enqueue, hroom]

theorem enqueue_some (h : Hub) (m : Message) (h' : Hub) (hs : h.enqueue m = some h') :
    h' = { h with broadcast := h.broadcast ++ [m] } ∧ h.broadcast.length < broadcastCap := by
  unfold Hub.enqueue at hs
  split_ifs at hs with hroom
  simp only [Option.some.injEq] at hs
  exact ⟨hs.symm, hroom⟩

/-- A broadcast step that meets a recipient whose queue is closed panics. -/
theorem broadcastMessage_panics (h : Hub) (m : Message) (c : Client)
    (hc : c ∈ h.recipients m) (hclosed : (h.queues c.send).closed = true) :
    ∃ h', h.broadcastMessage m = Outcome.panicked h' := by
  unfold Hub.broadcastMessage
  by_cases htgt : m.targetUserID = ""
  · simp only [htgt, ne_eq, not_true_eq_false, if_false]
    have hrec : h.recipients m = h.allClients := by simp [Hub.recipients, htgt]
    rw [hrec] at hc
    have hnone : Hub.sendAll m h.clients.entries h.queues = none := by
      rw [sendAll_eq_sendEach]
      exact (sendEach_eq_none_iff m _ h.queues).mpr ⟨c, hc, hclosed⟩
    exact ⟨_, by simp only [hnone]; rfl⟩
  · simp only [ne_eq, htgt, not_false_eq_true, if_true]
    have hrec : h.recipients m = h.clientsOf m.targetUserID := by simp [Hub.recipients, htgt]
    rw [hrec] at hc
    cases hcs : h.clients.lookup m.targetUserID with
    | none => simp [Hub.clientsOf, hcs] at hc
    | some cs =>
      have hof : h.clientsOf m.targetUserID = cs := by simp [Hub.clientsOf, hcs]
      rw [hof] at hc
      have hnone : Hub.sendEach m cs h.queues = none :=
        (sendEach_eq_none_iff m cs h.queues).mpr ⟨c, hc, hclosed⟩
      exact ⟨_, by simp only [hnone]; rfl⟩

/-- A broadcast step that leaves a state has returned, and only the queues of its recipients can
differ from before. -/
theorem broadcastMessage_state (h : Hub) (m : Message) (h' : Hub)
    (hs : (h.broadcastMessage m).state? = some h') :
    h.broadcastMessage m = Outcome.done h' ∧
      h' = { h with queues := deliver h.queues ((h.recipients m).map Client.send) m } := by
  have hopen : ∀ c ∈ h.recipients m, (h.queues c.send).closed = false := by
    intro c hc
    by_contra hne
    have hclosed : (h.queues c.send).closed = true := by simpa using hne
    obtain ⟨hp, hpan⟩ := broadcastMessage_panics h m c hc hclosed
    rw [hpan] at hs
    simp [Outcome.state?] at hs
  have hrun := broadcastMessage_open h m hopen
  rw [hrun] at hs
  simp only [Outcome.state?, Option.some.injEq] at hs
  rw [hrun, ← hs]
  exact ⟨rfl, rfl⟩

theorem trySend_frame (queues queues' : Nat → Chan) (c : Client) (m : Message)
    (hs : Hub.trySend queues c m = some queues') (i : Nat) (hi : c.send ≠ i) :
    queues' i = queues i := by
  unfold Hub.trySend at hs
  split_ifs at hs
  · simp only [Option.some.injEq] at hs
    rw [← hs, Function.update_noteq (fun e => hi e.symm)]
  · simp only [Option.some.injEq] at hs
    rw [← hs]

theorem sendEach_frame (m : Message) :
    ∀ (cs : List Client) (queues queues' : Nat → Chan),
      Hub.sendEach m cs queues = some queues' →
      ∀ i, (∀ c ∈ cs, c.send ≠ i) → queues' i = queues i := by
  intro cs
  induction cs with
  | nil =>
    intro queues queues' hs i _
    simp only [Hub.sendEach, Option.some.injEq] at hs
    rw [← hs]
  | cons c cs ih =>
    intro queues queues' hs i hi
    unfold Hub.sendEach at hs
    cases htry : Hub.trySend queues c m with
    | none => simp [htry] at hs
    | some q1 =>
      simp only [htry] at hs
      rw [ih q1 queues' hs i (fun d hd => hi d (List.mem_cons_of_mem _ hd)),
        trySend_frame queues q1 c m htry i (hi c (List.mem_cons_self _ _))]

theorem sendEachUpTo_frame (m : Message) :
    ∀ (cs : List Client) (queues : Nat → Chan) (i : Nat),
      (∀ c ∈ cs, c.send ≠ i) → Hub.sendEachUpTo m cs queues i = queues i := by
  intro cs
  induction cs with
  | nil => intro queues i _; rfl
  | cons c cs ih =>
    intro queues i hi
    unfold Hub.sendEachUpTo
    cases htry : Hub.trySend queues c m with
    | none => rfl
    | some q1 =>
      simp only
      rw [ih q1 i (fun d hd => hi d (List.mem_cons_of_mem _ hd)),
        trySend_frame queues q1 c m htry i (hi c (List.mem_cons_self _ _))]

theorem sendAllUpTo_frame (m : Message) :
    ∀ (es : List (Sigma fun _ : String => List Client)) (queues : Nat → Chan) (i : Nat),
      (∀ e ∈ es, ∀ c ∈ e.2, c.send ≠ i) → Hub.sendAllUpTo m es queues i = queues i := by
  intro es
  induction es with
  | nil => intro queues i _; rfl
  | cons e es ih =>
    intro queues i hi
    unfold Hub.sendAllUpTo
    cases hse : Hub.sendEach m e.2 queues with
    | none => exact sendEachUpTo_frame m e.2 queues i (hi e (List.mem_cons_self _ _))
    | some q1 =>
      simp only
      rw [ih q1 i (fun x hx => hi x (List.mem_cons_of_mem _ hx)),
        sendEach_frame m e.2 queues q1 hse i (hi e (List.mem_cons_self _ _))]

/-- However a broadcast step ends, the queue of a connection that is not among its recipients is
as before. -/
theorem broadcastMessage_hub_frame (h : Hub) (m : Message) (i : Nat)
    (hi : ∀ c ∈ h.recipients m, c.send ≠ i) :
    (h.broadcastMessage m).hub.queues i = h.queues i := by
  by_cases hopen : ∀ c ∈ h.recipients m, (h.queues c.send).closed = false
  · rw [broadcastMessage_open h m hopen]
    apply deliver_of_not_mem
    intro hmem
    obtain ⟨c, hc, hci⟩ := List.mem_map.mp hmem
    exact hi c hc hci
  · unfold Hub.broadcastMessage
    by_cases htgt : m.targetUserID = ""
    · have hrec : h.recipients m = h.allClients := by simp [Hub.recipients, htgt]
      rw [hrec] at hi
      simp only [htgt, ne_eq, not_true_eq_false, if_false]
      cases hsa : Hub.sendAll m h.clients.entries h.queues with
      | none =>
        apply sendAllUpTo_frame
        intro e he c hc
        exact hi c (List.mem_flatMap.mpr ⟨e, he, hc⟩)
      | some q =>
        rw [sendAll_eq_sendEach] at hsa
        exact sendEach_frame m _ h.queues q hsa i hi
    · have hrec : h.recipients m = h.clientsOf m.targetUserID := by simp [Hub.recipients, htgt]
      rw [hrec] at hi
      simp only [ne_eq, htgt, not_false_eq_true, if_true]
      cases hcs : h.clients.lookup m.targetUserID with
      | none => rfl
      | some cs =>
        have hof : h.clientsOf m.targetUserID = cs := by simp [Hub.clientsOf, hcs]
        rw [hof] at hi
        simp only
        cases hse : Hub.sendEach m cs h.queues with
        | none => exact sendEachUpTo_frame m cs h.queues i hi
        | some q => exact sendEach_frame m cs h.queues q hse i hi

/-- C16 (amended): for every non-empty user id u, every message m (whatever targetUserID it
carried before) and every hub state: `SendToUser(u, m)` writes the target u to m and places m on
the broadcast path, as soon as the channel has room; the message placed keeps the target u
through every later `msg.TargetUserID = v` for a message `msg` other than m; and when it is
dispatched with that target, in whatever state the hub is then and however the broadcast step
ends, its recipients are the connections registered under u: the queue of no other connection
changes, and neither does the registry map. -/
theorem SendToUser_targets_user (h : Hub) (u : String) (m : Message) (hu : u ≠ "") :
    (h.broadcast.length < broadcastCap →
      ∃ h1, h.SendToUser u m = Outcome.done h1 ∧
        h1.broadcast = (h.assignTarget m u).broadcast ++ [{ m with targetUserID := u }]) ∧
    (¬ h.broadcast.length < broadcastCap →
      h.SendToUser u m = Outcome.blocked (h.assignTarget m u)) ∧
    (∀ (msg : Message) (v : String), msg.ref = none ∨ msg.ref ≠ m.ref →
      msg.retarget v { m with targetUserID := u } = { m with targetUserID := u }) ∧
    ∀ h2 : Hub, h2.recipients { m with targetUserID := u } = h2.clientsOf u ∧
      (h2.broadcastMessage { m with targetUserID := u }).hub.clients = h2.clients ∧
      ∀ i, (∀ c ∈ h2.clientsOf u, c.send ≠ i) →
        (h2.broadcastMessage { m with targetUserID := u }).hub.queues i = h2.queues i := by
  have hlen : (h.assignTarget m u).broadcast.length = h.broadcast.length := by
    simp [Hub.assignTarget]
  refine ⟨?_, ?_, ?_, ?_⟩
  · intro hroom
    refine ⟨{ h.assignTarget m u with
      broadcast := (h.assignTarget m u).broadcast ++ [{ m with targetUserID := u }] }, ?_, rfl⟩
    simp only [Hub.SendToUser, Hub.enqueue, hlen, hroom, if_true]
  · intro hfull
    simp only [Hub.SendToUser, Hub.enqueue, hlen, hfull, if_false]
  · intro msg v hother
    unfold Message.retarget
    rcases hother with hnone | hne
    · simp [hnone]
    · have hne' : ¬ m.ref = msg.ref := fun e => hne e.symm
      simp [hne']
  · intro h2
    have hrec : h2.recipients { m with targetUserID := u } = h2.clientsOf u := by
      simp [Hub.recipients, hu]
    refine ⟨hrec, broadcastMessage_hub_clients h2 _, ?_⟩
    intro i hi
    apply broadcastMessage_hub_frame
    rw [hrec]
    exact hi

/-- Witness of `SendToUser_targets_user`: a message sent to `A` and dispatched on a hub where `B`
is connected too. -/
theorem SendToUser_targets_user_witness :
    ("A" : String) ≠ "" ∧ hubAB.broadcast.length < broadcastCap ∧
    (∃ h1, hubAB.SendToUser "A" memo = Outcome.done h1 ∧
      h1.broadcast = [{ memo with targetUserID := "A" }]) ∧
    chatAll.retarget "B" { memo with targetUserID := "A" } = { memo with targetUserID := "A" } ∧
    hubAB.recipients { memo with targetUserID := "A" } = hubAB.clientsOf "A" ∧
    (∃ h3, hubAB.broadcastMessage { memo with targetUserID := "A" } = Outcome.done h3 ∧
      (h3.queues clientA1.send).buf = [{ memo with targetUserID := "A" }]) ∧
    (hubAB.broadcastMessage { memo with targetUserID := "A" }).hub.clients = hubAB.clients ∧
    (hubAB.broadcastMessage { memo with targetUserID := "A" }).hub.queues clientB1.send =
      hubAB.queues clientB1.send := by
  have hw := SendToUser_targets_user hubAB "A" memo (by decide)
  refine ⟨by decide, by decide, hw.1 (by decide), hw.2.2.1 chatAll "B" (Or.inl rfl),
    (hw.2.2.2 hubAB).1, ⟨_, rfl, by decide⟩, (hw.2.2.2 hubAB).2.1, ?_⟩
  exact (hw.2.2.2 hubAB).2.2 clientB1.send (by decide)

/-- C16 (counterexample): `SendToUser("", m)` places on the broadcast path a message with no
target; nobody is registered under the empty user id, yet when the message is dispatched the
connection of `B` receives it. And after `SendToUser("A", m)` a second call `SendToUser("B", m)`
for the same message, made before the first one is dispatched, writes the target `B` to the
message the first call has placed: when that message is dispatched the connection of `B`
receives it and the connections of `A` do not. -/
theorem SendToUser_targets_user_counterexample :
    (∃ h1 h3, hubAB.SendToUser "" chatA = Outcome.done h1 ∧ h1.broadcast = [chatAll] ∧
      hubAB.clientsOf "" = [] ∧
      h1.dispatchBroadcast = some (Outcome.done h3) ∧
      (hubAB.queues clientB1.send).buf = [] ∧ (h3.queues clientB1.send).buf = [chatAll]) ∧
    (∃ h1 h2 h3, hubAB.SendToUser "A" memo = Outcome.done h1 ∧
      h1.broadcast = [{ memo with targetUserID := "A" }] ∧
      h1.SendToUser "B" memo = Outcome.done h2 ∧
      h2.broadcast = [{ memo with targetUserID := "B" }, { memo with targetUserID := "B" }] ∧
      h2.dispatchBroadcast = some (Outcome.done h3) ∧
      (h3.queues clientA1.send).buf = [] ∧ (h3.queues clientA2.send).buf = [] ∧
      (h3.queues clientB1.send).buf = [{ memo with targetUserID := "B" }]) :=
  ⟨⟨_, _, rfl, rfl, by decide, rfl, by decide, by decide⟩,
    ⟨_, _, _, rfl, rfl, rfl, by decide, rfl, by decide, by decide, by decide⟩⟩


/-- The message `BroadcastToAll` places on the broadcast path is the one it was given, its target
included; with a target set, its recipients at dispatch are the connections of the target only. -/
theorem BroadcastToAll_keeps_target (h : Hub) (m : Message) :
    (h.broadcast.length < broadcastCap →
      h.BroadcastToAll m = Outcome.done { h with broadcast := h.broadcast ++ [m] }) ∧
    (¬ h.broadcast.length < broadcastCap → h.BroadcastToAll m = Outcome.blocked h) ∧
    (m.targetUserID ≠ "" → ∀ h2 : Hub, h2.recipients m = h2.clientsOf m.targetUserID) ∧
    (m.targetUserID = "" → ∀ h2 : Hub, h2.recipients m = h2.allClients) := by
  refine ⟨?_, ?_, ?_, ?_⟩
  · intro hroom
    simp [Hub.BroadcastToAll, Hub.enqueue, hroom]
  · intro hfull
    simp [Hub.BroadcastToAll, Hub.enqueue, hfull]
  · intro htgt h2
    simp [Hub.recipients, htgt]
  · intro htgt h2
    simp [Hub.recipients, htgt]

/-- C17 (the code at the failing input): users `A` and `B` are connected, all queues open and
empty. `BroadcastToAll` passes on a message whose targetUserID field holds `A` unchanged; when it
is dispatched the two connections of `A` receive it and the connection of `B`, registered and
with room in its queue, does not. The field holds `A` in particular in a message that has been
passed to `SendToUser("A", m)` before: broadcast afterwards, it reaches `A` a second time and `B`
not at all. And it comes to hold `A` in a message without target that is broadcast and then
passed to `SendToUser("A", m)` before the dispatch loop has taken it: both messages pending
are for `A` then, and `B` receives neither. -/
theorem BroadcastToAll_skips_others :
    (∃ h1 h3, hubAB.BroadcastToAll chatA = Outcome.done h1 ∧ h1.broadcast = [chatA] ∧
      h1.dispatchBroadcast = some (Outcome.done h3) ∧
      clientB1 ∈ hubAB.allClients ∧ (hubAB.queues clientB1.send).closed = false ∧
      (hubAB.queues clientB1.send).buf.length < (hubAB.queues clientB1.send).cap ∧
      (h3.queues clientB1.send).buf = [] ∧
      (h3.queues clientA1.send).buf = [chatA] ∧ (h3.queues clientA2.send).buf = [chatA]) ∧
    (∃ h1 h2 h3 h4, hubAB.SendToUser "A" memo = Outcome.done h1 ∧
      h1.dispatchBroadcast = some (Outcome.done h2) ∧
      h2.BroadcastToAll { memo with targetUserID := "A" } = Outcome.done h3 ∧
      h3.dispatchBroadcast = some (Outcome.done h4) ∧
      clientB1 ∈ h3.allClients ∧ (h3.queues clientB1.send).closed = false ∧
      (h3.queues clientB1.send).buf.length < (h3.queues clientB1.send).cap ∧
      (h4.queues clientB1.send).buf = [] ∧
      (h4.queues clientA1.send).buf =
        [{ memo with targetUserID := "A" }, { memo with targetUserID := "A" }]) ∧
    (∃ h1 h2 h3, memo.targetUserID = "" ∧ hubAB.BroadcastToAll memo = Outcome.done h1 ∧
      h1.broadcast = [memo] ∧
      h1.SendToUser "A" memo = Outcome.done h2 ∧
      h2.broadcast = [{ memo with targetUserID := "A" }, { memo with targetUserID := "A" }] ∧
      h2.runEvents [HubEvent.dispatch, HubEvent.dispatch] = some (Outcome.done h3) ∧
      (h3.queues clientB1.send).buf = [] ∧
      (h3.queues clientA1.send).buf =
        [{ memo with targetUserID := "A" }, { memo with targetUserID := "A" }]) :=
  ⟨⟨_, _, rfl, rfl, rfl, by decide, by decide, by decide, by decide, by decide, by decide⟩,
    ⟨_, _, _, _, rfl, rfl, rfl, rfl, by decide, by decide, by decide, by decide, by decide⟩,
    ⟨_, _, _, rfl, rfl, rfl, rfl, rfl, rfl, by decide, by decide⟩⟩

theorem queuesSame_refl (q : Nat → Chan) : queuesSame q q :=
  fun _ => ⟨rfl, rfl, rfl⟩

theorem sameFields_refl (h : Hub) : h.sameFields h :=
  ⟨rfl, rfl, queuesSame_refl _, rfl, rfl⟩

/-- A non-blocking send of two messages with the same fields on queues that agree up to the
identity of the messages: both panic, or both leave queues that agree in the same way. -/
theorem trySend_same (q q' : Nat → Chan) (c : Client) (m m' : Message)
    (hq : queuesSame q q') (hm : m.fields = m'.fields) :
    (Hub.trySend q c m = none ∧ Hub.trySend q' c m' = none) ∨
    ∃ r r', Hub.trySend q c m = some r ∧ Hub.trySend q' c m' = some r' ∧ queuesSame r r' := by
  obtain ⟨hbuf, hcap, hcl⟩ := hq c.send
  have hlen : (q c.send).buf.length = (q' c.send).buf.length := by
    simpa using congrArg List.length hbuf
  unfold Hub.trySend
  by_cases hclosed : (q c.send).closed = true
  · left
    have hclosed' : (q' c.send).closed = true := by rw [← hcl]; exact hclosed
    simp [hclosed, hclosed']
  · right
    have hclosed' : ¬ (q' c.send).closed = true := by rw [← hcl]; exact hclosed
    by_cases hroom : (q c.send).buf.length < (q c.send).cap
    · have hroom' : (q' c.send).buf.length < (q' c.send).cap := by
        rw [← hlen, ← hcap]; exact hroom
      refine ⟨_, _, by rw [if_neg hclosed, if_pos hroom], by rw [if_neg hclosed', if_pos hroom'],
        ?_⟩
      intro i
      by_cases hi : i = c.send
      · subst hi
        simp only [Function.update_same]
        refine ⟨?_, hcap, hcl⟩
        simp only [List.map_append, List.map_cons, List.map_nil, hbuf, hm]
      · simp only [Function.update_noteq hi]
        exact hq i
    · have hroom' : ¬ (q' c.send).buf.length < (q' c.send).cap := by
        rw [← hlen, ← hcap]; exact hroom
      exact ⟨_, _, by rw [if_neg hclosed, if_neg hroom], by rw [if_neg hclosed', if_neg hroom'],
        hq⟩

theorem sendEach_same (m m' : Message) (hm : m.fields = m'.fields) :
    ∀ (cs : List Client) (q q' : Nat → Chan), queuesSame q q' →
      (Hub.sendEach m cs q = none ∧ Hub.sendEach m' cs q' = none) ∨
      ∃ r r', Hub.sendEach m cs q = some r ∧ Hub.sendEach m' cs q' = some r' ∧
        queuesSame r r' := by
  intro cs
  induction cs with
  | nil => intro q q' hq; exact Or.inr ⟨q, q', rfl, rfl, hq⟩
  | cons c cs ih =>
    intro q q' hq
    rcases trySend_same q q' c m m' hq hm with ⟨h1, h2⟩ | ⟨r, r', h1, h2, hr⟩
    · left
      simp [Hub.sendEach, h1, h2]
    · simp only [Hub.sendEach, h1, h2]
      exact ih r r' hr

theorem sendEachUpTo_same (m m' : Message) (hm : m.fields = m'.fields) :
    ∀ (cs : List Client) (q q' : Nat → Chan), queuesSame q q' →
      queuesSame (Hub.sendEachUpTo m cs q) (Hub.sendEachUpTo m' cs q') := by
  intro cs
  induction cs with
  | nil => intro q q' hq; exact hq
  | cons c cs ih =>
    intro q q' hq
    rcases trySend_same q q' c m m' hq hm with ⟨h1, h2⟩ | ⟨r, r', h1, h2, hr⟩
    · simp only [Hub.sendEachUpTo, h1, h2]
      exact hq
    · simp only [Hub.sendEachUpTo, h1, h2]
      exact ih r r' hr

theorem sendAll_same (m m' : Message) (hm : m.fields = m'.fields) :
    ∀ (es : List (Sigma fun _ : String => List Client)) (q q' : Nat → Chan), queuesSame q q' →
      (Hub.sendAll m es q = none ∧ Hub.sendAll m' es q' = none) ∨
      ∃ r r', Hub.sendAll m es q = some r ∧ Hub.sendAll m' es q' = some r' ∧
        queuesSame r r' := by
  intro es q q' hq
  rw [sendAll_eq_sendEach, sendAll_eq_sendEach]
  exact sendEach_same m m' hm _ q q' hq

theorem sendAllUpTo_same (m m' : Message) (hm : m.fields = m'.fields) :
    ∀ (es : List (Sigma fun _ : String => List Client)) (q q' : Nat → Chan), queuesSame q q' →
      queuesSame (Hub.sendAllUpTo m es q) (Hub.sendAllUpTo m' es q') := by
  intro es
  induction es with
  | nil => intro q q' hq; exact hq
  | cons e es ih =>
    intro q q' hq
    rcases sendEach_same m m' hm e.2 q q' hq with ⟨h1, h2⟩ | ⟨r, r', h1, h2, hr⟩
    · simp only [Hub.sendAllUpTo, h1, h2]
      exact sendEachUpTo_same m m' hm e.2 q q' hq
    · simp only [Hub.sendAllUpTo, h1, h2]
      exact ih r r' hr

/-- The broadcast step does not look at the identity of a message: on two hub states that are
equal up to the identity of the messages they hold, two messages with the same type, target and
payload are dispatched alike. -/
theorem broadcastMessage_same (a b : Hub) (m m' : Message) (hab : a.sameFields b)
    (hm : m.fields = m'.fields) :
    Outcome.sameFields (a.broadcastMessage m) (b.broadcastMessage m') := by
  obtain ⟨hcl, hbr, hq, hpr, hpu⟩ := hab
  have htgt : m.targetUserID = m'.targetUserID := congrArg (fun f => f.2.1) hm
  unfold Hub.broadcastMessage
  rw [← htgt, ← hcl]
  split_ifs with ht
  · cases hcs : a.clients.lookup m.targetUserID with
    | none => exact ⟨hcl, hbr, hq, hpr, hpu⟩
    | some cs =>
      simp only
      rcases sendEach_same m m' hm cs a.queues b.queues hq with
        ⟨h1, h2⟩ | ⟨r, r', h1, h2, hr⟩
      · simp only [h1, h2]
        exact ⟨rfl, hbr, sendEachUpTo_same m m' hm cs _ _ hq, hpr, hpu⟩
      · simp only [h1, h2]
        exact ⟨rfl, hbr, hr, hpr, hpu⟩
  · rcases sendAll_same m m' hm a.clients.entries a.queues b.queues hq with
      ⟨h1, h2⟩ | ⟨r, r', h1, h2, hr⟩
    · simp only [h1, h2]
      exact ⟨rfl, hbr, sendAllUpTo_same m m' hm _ _ _ hq, hpr, hpu⟩
    · simp only [h1, h2]
      exact ⟨rfl, hbr, hr, hpr, hpu⟩

/-- The assignment `msg.TargetUserID = userID` changes nothing in a hub none of whose queues
refers to `msg`. -/
theorem assignTarget_fresh (h : Hub) (msg : Message) (userID : String)
    (hfresh : ¬ h.refersTo msg) : h.assignTarget msg userID = h := by
  have hkeep : ∀ l : List Message, (∀ e ∈ l, ¬ (msg.ref ≠ none ∧ e.ref = msg.ref)) →
      l.map (msg.retarget userID) = l := by
    intro l hl
    have hid : l.map (msg.retarget userID) = l.map id := by
      apply List.map_congr_left
      intro e he
      simp only [Message.retarget, hl e he, if_false, id]
    rw [hid, List.map_id]
  have hb : h.broadcast.map (msg.retarget userID) = h.broadcast := by
    apply hkeep
    intro e he hcond
    exact hfresh ⟨hcond.1, Or.inl ⟨e, he, hcond.2⟩⟩
  have hq : (fun i => { h.queues i with buf := (h.queues i).buf.map (msg.retarget userID) }) =
      h.queues := by
    funext i
    have hbuf : (h.queues i).buf.map (msg.retarget userID) = (h.queues i).buf := by
      apply hkeep
      intro e he hcond
      exact hfresh ⟨hcond.1, Or.inr ⟨i, e, he, hcond.2⟩⟩
    rw [hbuf]
  unfold Hub.assignTarget
  rw [hb, hq]

/-- The dispatch loop takes the oldest pending message alike from two hub states that are equal
up to the identity of the messages they hold. -/
theorem dispatchBroadcast_same (a b : Hub) (hab : a.sameFields b) :
    sameRun a.dispatchBroadcast b.dispatchBroadcast := by
  obtain ⟨hcl, hbr, hq, hpr, hpu⟩ := hab
  unfold Hub.dispatchBroadcast
  cases ha : a.broadcast with
  | nil =>
    cases hb : b.broadcast with
    | nil => trivial
    | cons m' rest' => simp [ha, hb] at hbr
  | cons m rest =>
    cases hb : b.broadcast with
    | nil => simp [ha, hb] at hbr
    | cons m' rest' =>
      simp only [ha, hb, List.map_cons, List.cons.injEq] at hbr
      exact broadcastMessage_same _ _ m m' ⟨hcl, hbr.2, hq, hpr, hpu⟩ hbr.1

/-- Any number of dispatches run alike from two hub states that are equal up to the identity of
the messages they hold. -/
theorem dispatches_same :
    ∀ (n : Nat) (a b : Hub), a.sameFields b →
      sameRun (a.runEvents (List.replicate n HubEvent.dispatch))
        (b.runEvents (List.replicate n HubEvent.dispatch)) := by
  intro n
  induction n with
  | zero => intro a b hab; exact hab
  | succ n ih =>
    intro a b hab
    have hd := dispatchBroadcast_same a b hab
    simp only [List.replicate_succ, Hub.runEvents, Hub.step]
    cases hda : a.dispatchBroadcast with
    | none =>
      cases hdb : b.dispatchBroadcast with
      | none => trivial
      | some ob =>
        rw [hda, hdb] at hd
        exact hd.elim
    | some oa =>
      cases hdb : b.dispatchBroadcast with
      | none =>
        rw [hda, hdb] at hd
        exact hd.elim
      | some ob =>
        rw [hda, hdb] at hd
        cases oa <;> cases ob <;> first | exact hd.elim | skip
        · exact ih _ _ hd
        · exact hd
        · exact hd

/-- C18 (amended): for every hub state, user C with an entry in the map, message type and
payload, and every `msg` of that type and payload that no queue of the hub refers to: the
message the relay decoded from the broker with targetUserID = C and the message
`SendToUser(C, msg)` produces have the same type, target and payload; dispatching the one, in
whatever state the hub is then, ends as dispatching the other does and changes every outbound
queue exactly as the other does; and when the broadcast channel has room both are put at its
tail, nothing else changing, and after any number of dispatches on the one path and on the other
the two resulting hub states are equal up to the identity of the message. With the channel full,
the relay and the caller of `SendToUser` both wait. -/
theorem relay_matches_SendToUser (decode : String → Option Message) (h : Hub) (C p : String)
    (fromBroker msg : Message) (_hentry : C ∈ h.clients)
    (hdec : decode p = some fromBroker) (htgt : fromBroker.targetUserID = C)
    (htype : msg.type = fromBroker.type) (hdata : msg.data = fromBroker.data)
    (hfresh : ¬ h.refersTo msg) :
    fromBroker.fields = ({ msg with targetUserID := C } : Message).fields ∧
    (∀ h2 : Hub, Outcome.sameFields (h2.broadcastMessage fromBroker)
      (h2.broadcastMessage { msg with targetUserID := C })) ∧
    (h.broadcast.length < broadcastCap →
      ∃ hR hS, h.relayIteration decode (Received.payload p) = some hR ∧
        h.SendToUser C msg = Outcome.done hS ∧
        hR = { h with broadcast := h.broadcast ++ [fromBroker] } ∧
        hS = { h with broadcast := h.broadcast ++ [{ msg with targetUserID := C }] } ∧
        hR.sameFields hS ∧
        ∀ n, sameRun (hR.runEvents (List.replicate n HubEvent.dispatch))
          (hS.runEvents (List.replicate n HubEvent.dispatch))) ∧
    (¬ h.broadcast.length < broadcastCap →
      h.relayIteration decode (Received.payload p) = none ∧
        h.SendToUser C msg = Outcome.blocked h) := by
  have hm : fromBroker.fields = ({ msg with targetUserID := C } : Message).fields := by
    simp [Message.fields, htgt, htype, hdata]
  refine ⟨hm, ?_, ?_, ?_⟩
  · intro h2
    exact broadcastMessage_same h2 h2 _ _ (sameFields_refl h2) hm
  · intro hroom
    have hsame : Hub.sameFields { h with broadcast := h.broadcast ++ [fromBroker] }
        { h with broadcast := h.broadcast ++ [{ msg with targetUserID := C }] } := by
      refine ⟨rfl, ?_, queuesSame_refl _, rfl, rfl⟩
      simp only [List.map_append, List.map_cons, List.map_nil, hm]
    refine ⟨_, _, ?_, ?_, rfl, rfl, hsame, fun n => dispatches_same n _ _ hsame⟩
    · simp [Hub.relayIteration, hdec, enqueue_room h fromBroker hroom]
    · simp only [Hub.SendToUser, assignTarget_fresh h msg C hfresh, enqueue_room h _ hroom]
  · intro hfull
    constructor
    · simp [Hub.relayIteration, hdec, Hub.enqueue, hfull]
    · simp only [Hub.SendToUser, assignTarget_fresh h msg C hfresh, Hub.enqueue, hfull, if_false]

/-- Witness of `relay_matches_SendToUser`: the payload `ok` decodes to a chat message for `A`,
and `memo` is a chat message with the same payload that the hub `hubAB` does not hold. -/
theorem relay_matches_SendToUser_witness :
    "A" ∈ hubAB.clients ∧ sampleDecode "ok" = some chatA ∧ ¬ hubAB.refersTo memo ∧
    chatA.fields = ({ memo with targetUserID := "A" } : Message).fields ∧
    Outcome.sameFields (hubAB.broadcastMessage chatA)
      (hubAB.broadcastMessage { memo with targetUserID := "A" }) ∧
    (∃ hR hS, hubAB.relayIteration sampleDecode (Received.payload "ok") = some hR ∧
      hubAB.SendToUser "A" memo = Outcome.done hS ∧
      hR = { hubAB with broadcast := hubAB.broadcast ++ [chatA] } ∧
      hS = { hubAB with broadcast := hubAB.broadcast ++ [{ memo with targetUserID := "A" }] } ∧
      hR.sameFields hS ∧
      ∀ n, sameRun (hR.runEvents (List.replicate n HubEvent.dispatch))
        (hS.runEvents (List.replicate n HubEvent.dispatch))) ∧
    (∃ hR hS, hubAB.broadcastMessage chatA = Outcome.done hR ∧
      hubAB.broadcastMessage { memo with targetUserID := "A" } = Outcome.done hS ∧
      (hR.queues clientA1.send).buf = [chatA] ∧
      (hS.queues clientA1.send).buf = [{ memo with targetUserID := "A" }]) := by
  have hfresh : ¬ hubAB.refersTo memo := by
    rintro ⟨-, ⟨e, he, -⟩ | ⟨i, e, he, -⟩⟩
    · simp [hubAB, NewHub] at he
    · simp [hubAB, NewHub, emptyQueues] at he
  have hw := relay_matches_SendToUser sampleDecode hubAB "A" "ok" chatA memo (by decide)
    (by decide) rfl rfl rfl hfresh
  exact ⟨by decide, by decide, hfresh, hw.1, hw.2.1 hubAB, hw.2.2.1 (by decide),
    ⟨_, _, rfl, rfl, by decide, by decide⟩⟩

/-- C18 (counterexample): in a state reached from the empty hub, user `A` has an entry and the
queue of `B` holds the message `memo`, which has been broadcast to everybody. The relay decodes a
message for `A` of the type and payload of `memo`, and on the other path `SendToUser("A", memo)`
is called. The two hub states differ: `SendToUser` has written the target `A` to `memo`, so the
message in the queue of `B` reads `A` on that path and carries no target on the path of the
relay; the difference is still there when the messages have been dispatched. -/
theorem relay_matches_SendToUser_counterexample :
    ∃ h hR hS hR' hS', (NewHub emptyQueues).runEvents memoEvents = some (Outcome.done h) ∧
      "A" ∈ h.clients ∧ sampleDecode "ok" = some chatA ∧ chatA.targetUserID = "A" ∧
      memo.type = chatA.type ∧ memo.data = chatA.data ∧
      h.relayIteration sampleDecode (Received.payload "ok") = some hR ∧
      h.SendToUser "A" memo = Outcome.done hS ∧
      hR.runEvents [HubEvent.dispatch, HubEvent.dispatch] = some (Outcome.done hR') ∧
      hS.runEvents [HubEvent.dispatch, HubEvent.dispatch] = some (Outcome.done hS') ∧
      (hR'.queues clientA1.send).buf.map Message.fields =
        (hS'.queues clientA1.send).buf.map Message.fields ∧
      ((hR'.queues clientB1.send).buf.map Message.fields).getLast? =
        some (MessageType.other "chat", "", []) ∧
      ((hS'.queues clientB1.send).buf.map Message.fields).getLast? =
        some (MessageType.other "chat", "A", []) ∧
      ¬ hR'.sameFields hS' := by
  refine ⟨_, _, _, _, _, rfl, by decide, by decide, rfl, rfl, rfl, rfl, rfl, rfl, rfl,
    by decide, by decide, by decide, ?_⟩
  rintro ⟨-, -, hq, -, -⟩
  have hB := (hq clientB1.send).1
  revert hB
  decide

/-- The relay loop over a list of received items, when the broadcast channel has room for what
they decode to: every decoded message is on the channel, once and in order, and nothing else
has changed. -/
theorem relayLoop_room (decode : String → Option Message) :
    ∀ (rs : List Received) (h : Hub),
      h.broadcast.length + (relayed decode rs).length ≤ broadcastCap →
      h.relayLoop decode rs = some { h with broadcast := h.broadcast ++ relayed decode rs } := by
  intro rs
  induction rs with
  | nil => intro h _; simp [Hub.relayLoop, relayed]
  | cons r rs ih =>
    intro h hroom
    cases r with
    | error =>
      have hrel : relayed decode (Received.error :: rs) = relayed decode rs := by
        simp [relayed]
      rw [hrel] at hroom ⊢
      simp only [Hub.relayLoop, Hub.relayIteration]
      exact ih h hroom
    | payload p =>
      cases hdec : decode p with
      | none =>
        have hrel : relayed decode (Received.payload p :: rs) = relayed decode rs := by
          simp [relayed, hdec]
        rw [hrel] at hroom ⊢
        simp only [Hub.relayLoop, Hub.relayIteration, hdec]
        exact ih h hroom
      | some m =>
        have hrel : relayed decode (Received.payload p :: rs) = m :: relayed decode rs := by
          simp [relayed, hdec]
        rw [hrel] at hroom ⊢
        simp only [List.length_cons] at hroom
        have hr : h.broadcast.length < broadcastCap := by omega
        simp only [Hub.relayLoop, Hub.relayIteration, hdec, enqueue_room h m hr]
        rw [ih _ (by simp only [List.length_append, List.length_singleton]; omega)]
        simp

/-- C19: one iteration of the relay loop on a receive error, or on a payload that fails to decode
as a Message, injects nothing into the broadcast path, leaves the hub state unchanged and is
over, so that the loop goes on with the next item; on a payload that decodes successfully the
iteration sends the decoded message on the broadcast path, and when the send has gone through
(at once if the channel has room, else as soon as the dispatch loop has made room) the hub state
is the old one with exactly one copy of that message at the tail of the channel. Over any list
of received items the channel has room for, the loop injects the decoded messages, each once
and in order, whatever errors and malformed payloads lie between them. -/
theorem relay_iteration (decode : String → Option Message) (h : Hub) :
    h.relayIteration decode Received.error = some h ∧
    (∀ p, decode p = none → h.relayIteration decode (Received.payload p) = some h) ∧
    (∀ p m, decode p = some m →
      (h.broadcast.length < broadcastCap →
        h.relayIteration decode (Received.payload p) =
          some { h with broadcast := h.broadcast ++ [m] }) ∧
      (∀ h', h.relayIteration decode (Received.payload p) = some h' →
        h' = { h with broadcast := h.broadcast ++ [m] })) ∧
    (∀ rs, h.relayLoop decode (Received.error :: rs) = h.relayLoop decode rs) ∧
    (∀ p rs, decode p = none →
      h.relayLoop decode (Received.payload p :: rs) = h.relayLoop decode rs) ∧
    (∀ rs, h.broadcast.length + (relayed decode rs).length ≤ broadcastCap →
      h.relayLoop decode rs = some { h with broadcast := h.broadcast ++ relayed decode rs }) := by
  refine ⟨rfl, ?_, ?_, ?_, ?_, ?_⟩
  · intro p hdec
    simp [Hub.relayIteration, hdec]
  · intro p m hdec
    constructor
    · intro hroom
      simp [Hub.relayIteration, hdec, enqueue_room h m hroom]
    · intro h' hs
      simp only [Hub.relayIteration, hdec] at hs
      exact (enqueue_some h m h' hs).1
  · intro rs
    simp [Hub.relayLoop, Hub.relayIteration]
  · intro p rs hdec
    simp [Hub.relayLoop, Hub.relayIteration, hdec]
  · intro rs hroom
    exact relayLoop_room decode rs h hroom

/-- Witness of `relay_iteration`: a malformed payload is skipped and the payload `ok` is injected
once; of an error, a malformed payload and two good payloads the loop injects two messages. -/
theorem relay_iteration_witness :
    sampleDecode "junk" = none ∧ sampleDecode "ok" = some chatA ∧
    hubAB.relayIteration sampleDecode (Received.payload "junk") = some hubAB ∧
    hubAB.relayIteration sampleDecode (Received.payload "ok") =
      some { hubAB with broadcast := hubAB.broadcast ++ [chatA] } ∧
    hubAB.relayLoop sampleDecode
        [Received.error, Received.payload "ok", Received.payload "junk",
          Received.payload "ok"] =
      some { hubAB with broadcast := hubAB.broadcast ++ [chatA, chatA] } :=
  have hw := relay_iteration sampleDecode hubAB
  ⟨by decide, by decide, hw.2.1 "junk" (by decide),
    (hw.2.2.1 "ok" chatA (by decide)).1 (by decide),
    hw.2.2.2.2.2
      [Received.error, Received.payload "ok", Received.payload "junk", Received.payload "ok"]
      (by decide)⟩

/-! ## Shutdown (C20) -/

theorem closeEach_append :
    ∀ (as bs : List Client) (queues : Nat → Chan),
      Hub.closeEach (as ++ bs) queues = (Hub.closeEach as queues).bind (Hub.closeEach bs) := by
  intro as
  induction as with
  | nil => intro bs queues; simp [Hub.closeEach]
  | cons a as ih =>
    intro bs queues
    simp only [List.cons_append, Hub.closeEach]
    cases Hub.closeQueue queues a with
    | none => simp
    | some q => simp [ih]

/-- The nested loops of `closeAllConnections` are one loop over all connections. -/
theorem closeAll_eq_closeEach :
    ∀ (es : List (Sigma fun _ : String => List Client)) (queues : Nat → Chan),
      Hub.closeAll es queues = Hub.closeEach (es.flatMap (fun e => e.2)) queues := by
  intro es
  induction es with
  | nil => intro queues; simp [Hub.closeAll, Hub.closeEach]
  | cons e es ih =>
    intro queues
    simp only [Hub.closeAll, List.flatMap_cons, closeEach_append]
    cases Hub.closeEach e.2 queues with
    | none => simp
    | some q => simp [ih]

/-- Closing the queues of connections whose queues are open and pairwise distinct succeeds and
closes exactly these. -/
theorem closeEach_open :
    ∀ (cs : List Client) (queues : Nat → Chan),
      (∀ c ∈ cs, (queues c.send).closed = false) → (cs.map Client.send).Nodup →
      Hub.closeEach cs queues = some (closeChannels queues (cs.map Client.send)) := by
  intro cs
  induction cs with
  | nil =>
    intro queues _ _
    have hnil : closeChannels queues [] = queues := by
      funext i
      simp [closeChannels]
    simp [Hub.closeEach, hnil]
  | cons c cs ih =>
    intro queues hopen hnd
    have hc : (queues c.send).closed = false := hopen c (List.mem_cons_self _ _)
    rw [List.map_cons, List.nodup_cons] at hnd
    obtain ⟨hnot, hnd'⟩ := hnd
    have hrest : ∀ d ∈ cs,
        (Function.update queues c.send { queues c.send with closed := true } d.send).closed =
          false := by
      intro d hd
      have hne : d.send ≠ c.send := by
        intro heq
        exact hnot (heq ▸ List.mem_map_of_mem Client.send hd)
      rw [Function.update_noteq hne]
      exact hopen d (List.mem_cons_of_mem _ hd)
    simp only [Hub.closeEach, Hub.closeQueue, hc, Bool.false_eq_true, if_false, ih _ hrest hnd',
      List.map_cons, Option.some.injEq]
    funext i
    by_cases hi : i = c.send
    · subst hi
      simp [closeChannels, hnot]
    · simp [closeChannels, hi, Function.update_noteq hi]

/-- Closing the same queue twice, or a queue that is closed already, panics. -/
theorem closeEach_closed :
    ∀ (cs : List Client) (queues : Nat → Chan) (c : Client),
      c ∈ cs → (queues c.send).closed = true → Hub.closeEach cs queues = none := by
  intro cs
  induction cs with
  | nil => intro queues c hc; simp at hc
  | cons a cs ih =>
    intro queues c hc hclosed
    by_cases ha : (queues a.send).closed = true
    · simp [Hub.closeEach, Hub.closeQueue, ha]
    · have ha' : (queues a.send).closed = false := by simpa using ha
      have hmem : c ∈ cs := by
        rcases List.mem_cons.mp hc with rfl | hmem
        · exact absurd hclosed ha
        · exact hmem
      simp only [Hub.closeEach, Hub.closeQueue, ha', Bool.false_eq_true, if_false]
      apply ih _ c hmem
      by_cases hcs : c.send = a.send
      · rw [hcs, Function.update_same]
      · rw [Function.update_noteq hcs]
        exact hclosed

/-- C20 (amended): for every hub state in which the outbound queues of the registered clients are
open and pairwise distinct (every client is registered once), the shutdown step
(`closeAllConnections`) completes, closes the outbound queue of every client registered at that
moment, touching no other queue and no queued message, and leaves the clients map empty, so that
afterwards `GetConnectedUsers() = 0`, `GetTotalConnections() = 0` and `IsUserConnected(u)` is
false for every user u. -/
theorem closeAllConnections_closes_all (h : Hub)
    (hopen : ∀ c ∈ h.allClients, (h.queues c.send).closed = false)
    (hdistinct : (h.allClients.map Client.send).Nodup) :
    ∃ h', h.closeAllConnections = Outcome.done h' ∧
      (∀ u cs, h.clients.lookup u = some cs → ∀ c ∈ cs,
        h'.queues c.send = { h.queues c.send with closed := true }) ∧
      (∀ i, (∀ c ∈ h.allClients, c.send ≠ i) → h'.queues i = h.queues i) ∧
      h'.clients = ∅ ∧ h'.GetConnectedUsers = 0 ∧ h'.GetTotalConnections = 0 ∧
      ∀ u, h'.IsUserConnected u = false := by
  have hrun : h.closeAllConnections = Outcome.done
      { h with clients := ∅, queues := closeChannels h.queues (h.allClients.map Client.send) } := by
    unfold Hub.closeAllConnections
    rw [closeAll_eq_closeEach]
    have := closeEach_open h.allClients h.queues hopen hdistinct
    unfold Hub.allClients at this
    simp only [this, Hub.allClients]
  refine ⟨_, hrun, ?_, ?_, rfl, rfl, rfl, ?_⟩
  · intro u cs hu c hc
    have hmem : c.send ∈ h.allClients.map Client.send :=
      List.mem_map_of_mem _ ((mem_allClients h c).mpr ⟨u, cs, hu, hc⟩)
    simp [closeChannels, hmem]
  · intro i hi
    have hnot : i ∉ h.allClients.map Client.send := by
      intro hmem
      obtain ⟨c, hc, rfl⟩ := List.mem_map.mp hmem
      exact hi c hc rfl
    simp [closeChannels, hnot]
  · intro u
    simp [Hub.IsUserConnected, AList.lookup_empty]

/-- Witness of `closeAllConnections_closes_all`: shutdown of a hub with three connections. -/
theorem closeAllConnections_closes_all_witness :
    (∀ c ∈ hubAB.allClients, (hubAB.queues c.send).closed = false) ∧
    (hubAB.allClients.map Client.send).Nodup ∧
    ∃ h', hubAB.closeAllConnections = Outcome.done h' ∧
      (h'.queues clientA1.send).closed = true ∧ (h'.queues clientA2.send).closed = true ∧
      (h'.queues clientB1.send).closed = true ∧ h'.queues clientA9.send = hubAB.queues 9 ∧
      h'.GetConnectedUsers = 0 ∧ h'.GetTotalConnections = 0 ∧
      h'.IsUserConnected "A" = false := by
  have hopen : ∀ c ∈ hubAB.allClients, (hubAB.queues c.send).closed = false := by decide
  have hdistinct : (hubAB.allClients.map Client.send).Nodup := by decide
  obtain ⟨h', hrun, hclosed, hframe, -, husers, htotal, hconn⟩ :=
    closeAllConnections_closes_all hubAB hopen hdistinct
  refine ⟨hopen, hdistinct, h', hrun, ?_, ?_, ?_, ?_, husers, htotal, hconn "A"⟩
  · rw [hclosed "A" [clientA1, clientA2] (by decide) clientA1 (by decide)]
  · rw [hclosed "A" [clientA1, clientA2] (by decide) clientA2 (by decide)]
  · rw [hclosed "B" [clientB1] (by decide) clientB1 (by decide)]
  · exact hframe 9 (by decide)

/-- C20 (counterexample): two hub states reached from the empty hub on which the shutdown step
panics, so that the clients map is never cleared. After the same client has been registered
twice, its queue is closed on the first visit and closed again on the second. After it has been
registered twice and unregistered once, the queue of the client still in the map is closed
already. -/
theorem closeAllConnections_closes_all_counterexample :
    (∃ h, (NewHub emptyQueues).runOps
        [RegistryOp.register clientA1, RegistryOp.register clientA1] = Outcome.done h ∧
      h.clients.lookup "A" = some [clientA1, clientA1] ∧
      (h.queues clientA1.send).closed = false ∧
      ∃ h', h.closeAllConnections = Outcome.panicked h' ∧ h'.clients = h.clients) ∧
    (∃ h, (NewHub emptyQueues).runOps
        [RegistryOp.register clientA1, RegistryOp.register clientA1,
          RegistryOp.unregister clientA1] = Outcome.done h ∧
      h.clients.lookup "A" = some [clientA1] ∧
      (h.queues clientA1.send).closed = true ∧
      ∃ h', h.closeAllConnections = Outcome.panicked h' ∧ h'.clients = h.clients) :=
  ⟨⟨_, rfl, by decide, by decide, _, rfl, rfl⟩,
    ⟨_, rfl, by decide, by decide, _, rfl, rfl⟩⟩

/-! ## The role checks (C22, C23, C28) -/

/-- C22: for every request whose context holds a string userRole and a string userID,
`RequireAdminOrSelf` lets the request proceed if and only if the role is the admin role or
userID equals the route's id parameter (the userId parameter when id is empty), and otherwise
aborts with a Forbidden error; when userRole is missing or is not a string it aborts with an
Unauthorized error, whatever else the context holds, and does not proceed. -/
theorem RequireAdminOrSelf_decision (roles : Roles) (c : Context) :
    (∀ role uid, c.get "userRole" = some (CtxValue.str role) →
      c.get "userID" = some (CtxValue.str uid) →
      (RequireAdminOrSelf roles c = HandlerResult.next ↔
        (role = roles.admin ∨ uid = resourceId c)) ∧
      (¬ (role = roles.admin ∨ uid = resourceId c) →
        RequireAdminOrSelf roles c = HandlerResult.aborted
          (AppError.forbidden "You don't have permission to access this resource"))) ∧
    (c.get "userRole" = none →
      RequireAdminOrSelf roles c =
        HandlerResult.aborted (AppError.unauthorized "Authentication required")) ∧
    (c.get "userRole" = some CtxValue.other →
      RequireAdminOrSelf roles c =
        HandlerResult.aborted (AppError.unauthorized "Invalid role format")) := by
  refine ⟨?_, ?_, ?_⟩
  · intro role uid hrole huid
    by_cases hadmin : role = roles.admin
    · simp [RequireAdminOrSelf, hrole, hadmin]
    · by_cases hself : uid = resourceId c
      · have hself' : uid = if c.param "id" = "" then c.param "userId" else c.param "id" :=
          hself
        simp [RequireAdminOrSelf, hrole, hadmin, huid, hself, ← hself']
      · have hself' : ¬ uid = if c.param "id" = "" then c.param "userId" else c.param "id" :=
          hself
        simp [RequireAdminOrSelf, hrole, hadmin, huid, hself, hself']
  · intro hnone
    simp [RequireAdminOrSelf, hnone]
  · intro hother
    simp [RequireAdminOrSelf, hother]

/-- Witness of `RequireAdminOrSelf_decision`: a rider asking for their own resource proceeds, a
handyman asking for another user's resource is forbidden. -/
theorem RequireAdminOrSelf_decision_witness :
    riderOwnRequest.get "userRole" = some (CtxValue.str "rider") ∧
    riderOwnRequest.get "userID" = some (CtxValue.str "u2") ∧
    RequireAdminOrSelf sampleRoles riderOwnRequest = HandlerResult.next ∧
    RequireAdminOrSelf sampleRoles handymanRequest = HandlerResult.aborted
      (AppError.forbidden "You don't have permission to access this resource") :=
  ⟨by decide, by decide,
    ((RequireAdminOrSelf_decision sampleRoles riderOwnRequest).1 "rider" "u2" (by decide)
      (by decide)).1.mpr (Or.inr (by decide)),
    ((RequireAdminOrSelf_decision sampleRoles handymanRequest).1 "handyman" "u1" (by decide)
      (by decide)).2 (by decide)⟩

/-- A request whose role is one of the three service-provider roles passes
`RequireServiceProviderOrAdmin`, whatever its userID and whatever resource the route names: the
handler never reads either. -/
theorem RequireServiceProviderOrAdmin_ignores_resource (roles : Roles) (c : Context)
    (role : String) (hrole : c.get "userRole" = some (CtxValue.str role))
    (hsp : hasRole role [roles.serviceProvider, roles.handyman, roles.deliveryPerson] = true) :
    RequireServiceProviderOrAdmin roles c = HandlerResult.next := by
  by_cases hadmin : role = roles.admin
  · simp [RequireServiceProviderOrAdmin, hrole, hadmin]
  · simp [RequireServiceProviderOrAdmin, hrole, hadmin, hsp]

/-- C23 (the code at the failing input): the handyman `u1`, who is not an admin, asks for the
resource `u2`; `RequireServiceProviderOrAdmin` lets the request proceed. -/
theorem RequireServiceProviderOrAdmin_other_resource :
    handymanRequest.get "userRole" = some (CtxValue.str sampleRoles.handyman) ∧
    sampleRoles.handyman ≠ sampleRoles.admin ∧
    handymanRequest.get "userID" = some (CtxValue.str "u1") ∧
    resourceId handymanRequest = "u2" ∧
    RequireServiceProviderOrAdmin sampleRoles handymanRequest = HandlerResult.next := by
  decide

/-- When the role is a string other than the admin role and userID is absent from the context or
is not a string, `RequireAdminOrSelf` panics on the type assertion `userID.(string)`. -/
theorem RequireAdminOrSelf_panics (roles : Roles) (c : Context) (role : String)
    (hrole : c.get "userRole" = some (CtxValue.str role)) (hadmin : role ≠ roles.admin)
    (hid : c.get "userID" = none ∨ c.get "userID" = some CtxValue.other) :
    RequireAdminOrSelf roles c = HandlerResult.panicked := by
  rcases hid with hid | hid <;> simp [RequireAdminOrSelf, hrole, hadmin, hid]

/-- C28 (the code at the failing input): a request with the role `rider` and no userID in its
context; `RequireAdminOrSelf` neither proceeds nor aborts, it panics. -/
theorem RequireAdminOrSelf_missing_userID :
    riderRequestNoId.get "userRole" = some (CtxValue.str "rider") ∧
    ("rider" : String) ≠ sampleRoles.admin ∧
    riderRequestNoId.get "userID" = none ∧
    RequireAdminOrSelf sampleRoles riderRequestNoId = HandlerResult.panicked := by
  decide

/-! ## Masking the Authorization header (C26) -/

theorem bearer_prefix (token : List Nat) :
    (ascii "Bearer ").isPrefixOf (ascii "Bearer " ++ token) = true := by
  simp [ascii, List.isPrefixOf]

/-- C26: for every Authorization header value (a sequence of bytes), `maskAuth` returns `NoAuth`
for the empty value, `Auth:***` followed by the last 4 bytes of the token for a value
`Bearer ` + token with token longer than 8 bytes, and exactly `Auth:***` in every other case
(token of 8 bytes or fewer, or a non-Bearer scheme); so the result depends on the header through
the last four bytes of the token at most. -/
theorem maskAuth_spec :
    maskAuth [] = ascii "NoAuth" ∧
    (∀ token : List Nat, 8 < token.length →
      maskAuth (ascii "Bearer " ++ token) =
        ascii "Auth:***" ++ token.drop (token.length - 4) ∧
      (token.drop (token.length - 4)).length = 4) ∧
    (∀ auth : List Nat, auth ≠ [] →
      (¬ ∃ token, auth = ascii "Bearer " ++ token ∧ 8 < token.length) →
      maskAuth auth = ascii "Auth:***") ∧
    (∀ t1 t2 : List Nat, 8 < t1.length → 8 < t2.length →
      t1.drop (t1.length - 4) = t2.drop (t2.length - 4) →
      maskAuth (ascii "Bearer " ++ t1) = maskAuth (ascii "Bearer " ++ t2)) := by
  have hbearer : ∀ token : List Nat, 8 < token.length →
      maskAuth (ascii "Bearer " ++ token) =
        ascii "Auth:***" ++ token.drop (token.length - 4) := by
    intro token hlen
    have hne : ascii "Bearer " ++ token ≠ [] := by simp [ascii]
    have hdrop : (ascii "Bearer " ++ token).drop 7 = token := by simp [ascii]
    simp only [maskAuth, hne, if_false, bearer_prefix, if_true, hdrop, gt_iff_lt, hlen]
  refine ⟨by simp [maskAuth], ?_, ?_, ?_⟩
  · intro token hlen
    exact ⟨hbearer token hlen, by simp only [List.length_drop]; omega⟩
  · intro auth hne hnot
    unfold maskAuth
    simp only [hne, if_false]
    split_ifs with hpre hlen
    · exfalso
      apply hnot
      refine ⟨auth.drop 7, ?_, hlen⟩
      have hp := List.isPrefixOf_iff_prefix.mp hpre
      obtain ⟨t, ht⟩ := hp
      rw [← ht]
      simp [ascii]
    · rfl
    · rfl
  · intro t1 t2 h1 h2 hlast
    rw [hbearer t1 h1, hbearer t2 h2, hlast]

/-- Witness of `maskAuth_spec`: a Bearer token of twelve bytes shows its last four, a token of
eight bytes and a Basic header show nothing. -/
theorem maskAuth_spec_witness :
    maskAuth (ascii "Bearer abcdefgh1234") = ascii "Auth:***1234" ∧
    maskAuth (ascii "Bearer abcdefgh") = ascii "Auth:***" ∧
    maskAuth (ascii "Basic dXNlcjpwYXNz") = ascii "Auth:***" ∧
    maskAuth (ascii "Bearer abcdefgh1234") = maskAuth (ascii "Bearer zzzzzzzzzzzz1234") :=
  ⟨(maskAuth_spec.2.1 (ascii "abcdefgh1234") (by decide)).1,
    by decide, by decide,
    maskAuth_spec.2.2.2 (ascii "abcdefgh1234") (ascii "zzzzzzzzzzzz1234") (by decide)
      (by decide) (by decide)⟩

/-! ## The dispatch loop and its own broadcast channel (C25) -/

/-- C25 (the code at the failing input): with 256 messages pending on the broadcast channel, the
register step for a user's first connection and the unregister step for a user's last connection
do not return control to the dispatch loop: both park on the send of the presence message, and
the loop that would make room is the one that is parked. -/
theorem dispatch_loop_parks :
    fullBroadcastHub.broadcast.length = broadcastCap ∧
    (fullBroadcastHub.clients.lookup clientA1.userID = none ∧
      (fullBroadcastHub.registerClient clientA1).completed = false ∧
      ∃ h', fullBroadcastHub.registerClient clientA1 = Outcome.blocked h') ∧
    (fullBroadcastHubA.clients.lookup clientA1.userID = some [clientA1] ∧
      (fullBroadcastHubA.unregisterClient clientA1).completed = false ∧
      ∃ h', fullBroadcastHubA.unregisterClient clientA1 = Outcome.blocked h') := by
  have hlen : fullBroadcastHub.broadcast.length = broadcastCap := by
    simp [fullBroadcastHub, NewHub]
  have hfull : ¬ fullBroadcastHub.broadcast.length < broadcastCap := by omega
  have hfullA : ¬ fullBroadcastHubA.broadcast.length < broadcastCap := hfull
  have habs : fullBroadcastHub.clients.lookup clientA1.userID = none := by decide
  have hcs : fullBroadcastHubA.clients.lookup clientA1.userID = some [clientA1] := by decide
  have hreg := registerClient_first_full fullBroadcastHub clientA1 habs hfull
  have hunreg := unregisterClient_last_full fullBroadcastHubA clientA1 clientA1 [clientA1] hcs
    (by decide) rfl hfullA
  refine ⟨hlen, ⟨habs, ?_, _, hreg⟩, ⟨hcs, ?_, _, hunreg⟩⟩
  · rw [hreg]
    rfl
  · rw [hunreg]
    rfl

/-! ## Registering and unregistering in a row (C27) -/

theorem removeFirst_append_fresh (c : Client) :
    ∀ cs : List Client, (∀ d ∈ cs, d.id ≠ c.id) →
      Hub.removeFirst c.id (cs ++ [c]) = some (c, cs) := by
  intro cs
  induction cs with
  | nil => intro _; simp [Hub.removeFirst]
  | cons a cs ih =>
    intro hfresh
    have ha : a.id ≠ c.id := hfresh a (List.mem_cons_self _ _)
    have hrest := ih (fun d hd => hfresh d (List.mem_cons_of_mem _ hd))
    simp [Hub.removeFirst, ha, hrest]

/-- Two registries with the same lookups hold the same entries, up to their order. -/
theorem entries_perm_of_lookup (m₁ m₂ : ClientMap)
    (hlook : ∀ u, m₁.lookup u = m₂.lookup u) : List.Perm m₁.entries m₂.entries := by
  apply List.lookup_ext m₁.nodupKeys m₂.nodupKeys
  intro x y
  have := hlook x
  unfold AList.lookup at this
  rw [this]

/-- C27 (amended): for every hub state in which no user key maps to an empty sequence, and every
client c whose id does not occur in the sequence of c.userID and whose outbound queue is open,
the register step for c followed immediately by the unregister step for c restores the clients
map exactly (same user keys, same sequences in the same order), provided, when the user was
absent, that the broadcast channel has room for two more messages; the two steps together emit
one online and one offline message if the user was absent and none otherwise. -/
theorem register_then_unregister (h : Hub) (c : Client) (hinv : NoEmptyEntry h)
    (hfresh : ∀ d ∈ h.clientsOf c.userID, d.id ≠ c.id)
    (hopen : (h.queues c.send).closed = false) :
    (h.clients.lookup c.userID = none → h.broadcast.length + 2 ≤ broadcastCap →
      ∃ h1 h2, h.registerClient c = Outcome.done h1 ∧ h1.unregisterClient c = Outcome.done h2 ∧
        (∀ u, h2.clients.lookup u = h.clients.lookup u) ∧
        List.Perm h2.clients.entries h.clients.entries ∧
        h2.broadcast = h.broadcast ++
          [Hub.presenceMessage c.userID true, Hub.presenceMessage c.userID false] ∧
        h2.published = h.published ++
          [(broadcastTopic, Hub.presenceMessage c.userID true),
            (broadcastTopic, Hub.presenceMessage c.userID false)]) ∧
    (c.userID ∈ h.clients →
      ∃ h1 h2, h.registerClient c = Outcome.done h1 ∧ h1.unregisterClient c = Outcome.done h2 ∧
        (∀ u, h2.clients.lookup u = h.clients.lookup u) ∧
        List.Perm h2.clients.entries h.clients.entries ∧
        h2.broadcast = h.broadcast ∧ h2.published = h.published) := by
  constructor
  · intro habs hroom
    have hr1 : h.broadcast.length < broadcastCap := by omega
    have hreg := registerClient_first h c habs hr1
    have hunreg := unregisterClient_last
      { clients := h.clients.insert c.userID [c]
        broadcast := h.broadcast ++ [Hub.presenceMessage c.userID true]
        queues := h.queues
        presence := h.presence ++
          [PresenceOp.set c.userID c.id [("userAgent", c.userAgent), ("clientID", c.id)]]
        published := h.published ++ [(broadcastTopic, Hub.presenceMessage c.userID true)] }
      c c [c] (by simp [AList.lookup_insert]) (by simp [Hub.removeFirst]) hopen
      (by simp only [List.length_append, List.length_singleton]; omega)
    refine ⟨_, _, hreg, hunreg, ?_, ?_, ?_, ?_⟩
    · intro u
      by_cases hu : u = c.userID
      · subst hu
        simp [AList.lookup_erase, habs]
      · simp [AList.lookup_erase_ne hu, AList.lookup_insert_ne hu]
    · apply entries_perm_of_lookup
      intro u
      by_cases hu : u = c.userID
      · subst hu
        simp [AList.lookup_erase, habs]
      · simp [AList.lookup_erase_ne hu, AList.lookup_insert_ne hu]
    · simp
    · simp
  · intro hmem
    cases hcs : h.clients.lookup c.userID with
    | none => exact absurd hmem (AList.lookup_eq_none.mp hcs)
    | some cs =>
      have hne : cs ≠ [] := noEmptyEntry_lookup h hinv _ _ hcs
      have hof : h.clientsOf c.userID = cs := by simp [Hub.clientsOf, hcs]
      rw [hof] at hfresh
      have hreg := registerClient_additional h c cs hcs hne
      have hunreg := unregisterClient_remaining
        { clients := h.clients.insert c.userID (cs ++ [c])
          broadcast := h.broadcast
          queues := h.queues
          presence := h.presence ++
            [PresenceOp.set c.userID c.id [("userAgent", c.userAgent), ("clientID", c.id)]]
          published := h.published }
        c c (cs ++ [c]) cs (by simp [AList.lookup_insert])
        (removeFirst_append_fresh c cs hfresh) hopen hne
      refine ⟨_, _, hreg, hunreg, ?_, ?_, rfl, rfl⟩
      · intro u
        by_cases hu : u = c.userID
        · subst hu
          simp [AList.lookup_insert, hcs]
        · simp [AList.lookup_insert_ne hu]
      · apply entries_perm_of_lookup
        intro u
        by_cases hu : u = c.userID
        · subst hu
          simp [AList.lookup_insert, hcs]
        · simp [AList.lookup_insert_ne hu]

/-- Witness of `register_then_unregister`: a new connection of `A`, who has two already, and the
only connection of `Z`, who has none. -/
theorem register_then_unregister_witness :
    NoEmptyEntry hubAB ∧ (∀ d ∈ hubAB.clientsOf clientA9.userID, d.id ≠ clientA9.id) ∧
    (hubAB.queues clientA9.send).closed = false ∧
    (∃ h1 h2, hubAB.registerClient clientA9 = Outcome.done h1 ∧
      h1.unregisterClient clientA9 = Outcome.done h2 ∧
      (∀ u, h2.clients.lookup u = hubAB.clients.lookup u) ∧
      List.Perm h2.clients.entries hubAB.clients.entries ∧
      h2.broadcast = hubAB.broadcast ∧ h2.published = hubAB.published) ∧
    (∃ h1 h2, hubAB.registerClient { clientA9 with userID := "Z" } = Outcome.done h1 ∧
      h1.unregisterClient { clientA9 with userID := "Z" } = Outcome.done h2 ∧
      (∀ u, h2.clients.lookup u = hubAB.clients.lookup u) ∧
      List.Perm h2.clients.entries hubAB.clients.entries ∧
      h2.broadcast = hubAB.broadcast ++
        [Hub.presenceMessage "Z" true, Hub.presenceMessage "Z" false] ∧
      h2.published = hubAB.published ++
        [(broadcastTopic, Hub.presenceMessage "Z" true),
          (broadcastTopic, Hub.presenceMessage "Z" false)]) :=
  ⟨by decide, by decide, rfl,
    (register_then_unregister hubAB clientA9 (by decide) (by decide) rfl).2 (by decide),
    (register_then_unregister hubAB { clientA9 with userID := "Z" } (by decide) (by decide)
      rfl).1 (by decide) (by decide)⟩

/-- C27 (counterexample): two hub states with no empty entry and a client whose id occurs in no
sequence, on which registering and then unregistering does not restore the map. After the client
has been registered and unregistered once before, its queue is closed: it registers again, and
the unregister step panics on `close`. With the broadcast channel full, the register step parks
and the unregister step is never reached. -/
theorem register_then_unregister_counterexample :
    (∃ h h1, (NewHub emptyQueues).runOps
        [RegistryOp.register clientA1, RegistryOp.unregister clientA1] = Outcome.done h ∧
      NoEmptyEntry h ∧ h.clientsOf clientA1.userID = [] ∧
      (h.queues clientA1.send).closed = true ∧
      h.registerClient clientA1 = Outcome.done h1 ∧
      ∃ h2, h1.unregisterClient clientA1 = Outcome.panicked h2) ∧
    (NoEmptyEntry fullBroadcastHub ∧ fullBroadcastHub.clientsOf clientA1.userID = [] ∧
      (fullBroadcastHub.queues clientA1.send).closed = false ∧
      (fullBroadcastHub.registerClient clientA1).completed = false) := by
  refine ⟨⟨_, _, rfl, by decide, by decide, by decide, rfl, _, rfl⟩, by decide, by decide, rfl,
    ?_⟩
  have habs : fullBroadcastHub.clients.lookup clientA1.userID = none := by decide
  have hfull : ¬ fullBroadcastHub.broadcast.length < broadcastCap := by
    simp [fullBroadcastHub, NewHub]
  rw [registerClient_first_full fullBroadcastHub clientA1 habs hfull]
  rfl

/-! ## Registered clients and closed queues (C24) -/

theorem finishUnregister_queues (h : Hub) (c : Client) (h' : Hub)
    (hs : (h.finishUnregister c).state? = some h') : h'.queues = h.queues := by
  unfold Hub.finishUnregister Hub.broadcastPresence at hs
  simp only at hs
  split_ifs at hs <;>
    (simp only [Outcome.state?, Option.some.injEq] at hs; subst hs; rfl)

/-- The queues after an unregister step that found nobody to remove. -/
theorem unregisterClient_queues_unknown (h : Hub) (c : Client) (h' : Hub)
    (hs : (h.unregisterClient c).state? = some h')
    (hunk : ∀ cs, h.clients.lookup c.userID = some cs → Hub.removeFirst c.id cs = none) :
    h'.queues = h.queues := by
  unfold Hub.unregisterClient at hs
  cases hcs : h.clients.lookup c.userID with
  | none =>
    simp only [hcs, Outcome.state?, Option.some.injEq] at hs
    rw [← hs]
  | some cs =>
    simp only [hcs, hunk cs hcs] at hs
    exact finishUnregister_queues h c h' hs

/-- The queues after an unregister step that removed `d`: the queue of `d` was open and is now
closed. -/
theorem unregisterClient_queues_found (h : Hub) (c d : Client) (cs rest : List Client) (h' : Hub)
    (hs : (h.unregisterClient c).state? = some h')
    (hcs : h.clients.lookup c.userID = some cs) (hrf : Hub.removeFirst c.id cs = some (d, rest)) :
    (h.queues d.send).closed = false ∧
      h'.queues = Function.update h.queues d.send { h.queues d.send with closed := true } := by
  cases hclosed : (h.queues d.send).closed with
  | true =>
    rw [unregisterClient_closed h c d cs rest hcs hrf hclosed] at hs
    simp [Outcome.state?] at hs
  | false =>
    obtain ⟨h'', hs', hq, -, -⟩ := unregisterClient_found h c d cs rest hcs hrf hclosed
    rw [hs] at hs'
    simp only [Option.some.injEq] at hs'
    rw [hs']
    exact ⟨rfl, hq⟩

theorem ownQueues_NewHub (queues : Nat → Chan) : (NewHub queues).OwnQueues := by
  constructor
  · intro u cs hcs
    simp [NewHub, AList.lookup_empty] at hcs
  · intro u v cs ds _ hcs
    simp [NewHub, AList.lookup_empty] at hcs

theorem ownQueues_registeredOpen (h : Hub) (hown : h.OwnQueues) : h.RegisteredOpen := by
  intro c hc
  obtain ⟨u, cs, hu, hmem⟩ := (mem_allClients h c).mp hc
  exact (hown.1 u cs hu).2 c hmem

theorem ownQueues_registerClient (h : Hub) (hown : h.OwnQueues) (c : Client)
    (hfresh : h.freshFor c) (h' : Hub) (hs : (h.registerClient c).state? = some h') :
    h'.OwnQueues := by
  have hnew : ∀ u cs, h.clients.lookup u = some cs → ∀ d ∈ cs, d.send ≠ c.send := by
    intro u cs hu d hd heq
    apply hfresh.2
    rw [← heq]
    exact List.mem_map_of_mem _ ((mem_allClients h d).mpr ⟨u, cs, hu, hd⟩)
  obtain ⟨h'', hs', -, hq, -⟩ := registerClient_state h c
  have hq' : h'.queues = h.queues := by
    rw [hs] at hs'
    simp only [Option.some.injEq] at hs'
    rw [hs']
    exact hq
  have hlook := registerClient_lookup h c h' hs
  have hold : ∀ d ∈ h.clientsOf c.userID, d.send ≠ c.send ∧ (h.queues d.send).closed = false := by
    intro d hd
    unfold Hub.clientsOf at hd
    cases hcs : h.clients.lookup c.userID with
    | none => simp [hcs] at hd
    | some cs =>
      simp only [hcs, Option.getD_some] at hd
      exact ⟨hnew _ cs hcs d hd, (hown.1 _ cs hcs).2 d hd⟩
  have holdnd : ((h.clientsOf c.userID).map Client.send).Nodup := by
    unfold Hub.clientsOf
    cases hcs : h.clients.lookup c.userID with
    | none => simp
    | some cs => simpa using (hown.1 _ cs hcs).1
  have hself : ∀ d ∈ h.clientsOf c.userID ++ [c], ∀ v ds, v ≠ c.userID →
      h.clients.lookup v = some ds → ∀ e ∈ ds, d.send ≠ e.send := by
    intro d hd v ds hv hds e he
    rcases List.mem_append.mp hd with hd | hd
    · unfold Hub.clientsOf at hd
      cases hcs : h.clients.lookup c.userID with
      | none => simp [hcs] at hd
      | some cs =>
        simp only [hcs, Option.getD_some] at hd
        exact hown.2 c.userID v cs ds (fun e' => hv e'.symm) hcs hds d hd e he
    · simp only [List.mem_singleton] at hd
      subst hd
      exact fun heq => hnew v ds hds e he heq.symm
  constructor
  · intro u cs hcs
    rw [hlook u] at hcs
    rw [hq']
    by_cases hu : u = c.userID
    · simp only [hu, if_true, Option.some.injEq] at hcs
      subst hcs
      constructor
      · rw [List.map_append, List.nodup_append]
        refine ⟨holdnd, by simp, ?_⟩
        intro x hx hx'
        simp only [List.map_cons, List.map_nil, List.mem_singleton] at hx'
        subst hx'
        obtain ⟨d, hd, hdx⟩ := List.mem_map.mp hx
        exact (hold d hd).1 hdx
      · intro d hd
        rcases List.mem_append.mp hd with hd | hd
        · exact (hold d hd).2
        · simp only [List.mem_singleton] at hd
          subst hd
          exact hfresh.1
    · simp only [hu, if_false] at hcs
      exact hown.1 u cs hcs
  · intro u v cs ds huv hcs hds x hx y hy
    rw [hlook u] at hcs
    rw [hlook v] at hds
    by_cases hu : u = c.userID
    · have hv : v ≠ c.userID := fun e => huv (hu.trans e.symm)
      simp only [hu, if_true, Option.some.injEq] at hcs
      simp only [hv, if_false] at hds
      subst hcs
      exact hself x hx v ds hv hds y hy
    · simp only [hu, if_false] at hcs
      by_cases hv : v = c.userID
      · simp only [hv, if_true, Option.some.injEq] at hds
        subst hds
        exact fun heq => hself y hy u cs hu hcs x hx heq.symm
      · simp only [hv, if_false] at hds
        exact hown.2 u v cs ds huv hcs hds x hx y hy

theorem unregisterClient_lookup_sub (h : Hub) (c : Client) (h' : Hub)
    (hs : (h.unregisterClient c).state? = some h') (u : String) (cs' : List Client)
    (hcs' : h'.clients.lookup u = some cs') :
    ∃ cs, h.clients.lookup u = some cs ∧ List.Sublist cs' cs ∧
      (u = c.userID → cs' = Hub.withoutFirst c.id cs) := by
  rw [unregisterClient_lookup h c h' hs u] at hcs'
  by_cases hu : u = c.userID
  · subst hu
    simp only [if_true] at hcs'
    cases hold : h.clients.lookup c.userID with
    | none => simp [hold] at hcs'
    | some cs =>
      simp only [hold, Option.some_bind] at hcs'
      split_ifs at hcs' with hnil
      simp only [Option.some.injEq] at hcs'
      subst hcs'
      exact ⟨cs, rfl, withoutFirst_sublist c.id cs, fun _ => rfl⟩
  · simp only [hu, if_false] at hcs'
    exact ⟨cs', hcs', List.Sublist.refl _, fun e => absurd e hu⟩

theorem ownQueues_unregisterClient (h : Hub) (hown : h.OwnQueues) (c : Client) (h' : Hub)
    (hs : (h.unregisterClient c).state? = some h') : h'.OwnQueues := by
  have hsub := unregisterClient_lookup_sub h c h' hs
  have hopen : ∀ u cs', h'.clients.lookup u = some cs' →
      ∀ x ∈ cs', (h'.queues x.send).closed = false := by
    intro u cs' hcs' x hx
    obtain ⟨cs, hcs, hsl, hwf⟩ := hsub u cs' hcs'
    have hxold : (h.queues x.send).closed = false := (hown.1 u cs hcs).2 x (hsl.subset hx)
    cases hfound : (h.clients.lookup c.userID).bind (Hub.removeFirst c.id) with
    | none =>
      have hunk : ∀ cs0, h.clients.lookup c.userID = some cs0 →
          Hub.removeFirst c.id cs0 = none := by
        intro cs0 h0
        simpa [h0] using hfound
      rw [unregisterClient_queues_unknown h c h' hs hunk]
      exact hxold
    | some p =>
      obtain ⟨d, rest⟩ := p
      cases h0 : h.clients.lookup c.userID with
      | none => simp [h0] at hfound
      | some cs0 =>
        have hrf : Hub.removeFirst c.id cs0 = some (d, rest) := by simpa [h0] using hfound
        obtain ⟨-, hq⟩ := unregisterClient_queues_found h c d cs0 rest h' hs h0 hrf
        obtain ⟨pre, post, hsplit, hrest, -, -⟩ := removeFirst_split c.id cs0 d rest hrf
        have hd : d ∈ cs0 := by
          rw [hsplit]
          simp
        have hne : x.send ≠ d.send := by
          by_cases hu : u = c.userID
          · have hcseq : cs = cs0 := by
              rw [hu, h0] at hcs
              exact (Option.some.inj hcs).symm
            have hxrest : x ∈ pre ++ post := by
              have := hwf hu
              rw [hcseq] at this
              simp only [Hub.withoutFirst, hrf] at this
              rw [this, hrest] at hx
              exact hx
            have hnd := (hown.1 c.userID cs0 h0).1
            rw [hsplit] at hnd
            simp only [List.map_append, List.map_cons] at hnd
            have hnotin : d.send ∉ (pre ++ post).map Client.send := by
              rw [List.map_append]
              intro hin
              have hmid := List.nodup_middle.mp hnd
              rw [List.nodup_cons] at hmid
              exact hmid.1 hin
            intro heq
            apply hnotin
            rw [← heq]
            exact List.mem_map_of_mem _ hxrest
          · exact hown.2 u c.userID cs cs0 hu hcs h0 x (hsl.subset hx) d hd
        rw [hq, Function.update_noteq hne]
        exact hxold
  constructor
  · intro u cs' hcs'
    obtain ⟨cs, hcs, hsl, -⟩ := hsub u cs' hcs'
    exact ⟨List.Nodup.sublist (hsl.map Client.send) (hown.1 u cs hcs).1, hopen u cs' hcs'⟩
  · intro u v cs' ds' huv hcs' hds' x hx y hy
    obtain ⟨cs, hcs, hsl, -⟩ := hsub u cs' hcs'
    obtain ⟨ds, hds, hsl', -⟩ := hsub v ds' hds'
    exact hown.2 u v cs ds huv hcs hds x (hsl.subset hx) y (hsl'.subset hy)

/-- With the queues of the user's connections open, the unregister step does not panic. -/
theorem unregisterClient_no_panic (h : Hub) (c : Client)
    (hopen : ∀ d ∈ h.clientsOf c.userID, (h.queues d.send).closed = false) :
    ∀ hp, h.unregisterClient c ≠ Outcome.panicked hp := by
  intro hp hpan
  have hs := unregisterClient_state_hub h c (fun d rest hrf =>
    hopen d (removeFirst_spec c.id _ d rest hrf).1)
  rw [hpan] at hs
  simp [Outcome.state?] at hs

/-- With the queues of all registered clients open, no broadcast step panics. -/
theorem broadcastMessage_no_panic (h : Hub) (hopen : h.RegisteredOpen) (m : Message) :
    ∀ hp, h.broadcastMessage m ≠ Outcome.panicked hp := by
  intro hp
  have hrec : ∀ c ∈ h.recipients m, (h.queues c.send).closed = false := by
    intro c hc
    apply hopen
    unfold Hub.recipients at hc
    split_ifs at hc with htgt
    · unfold Hub.clientsOf at hc
      cases hcs : h.clients.lookup m.targetUserID with
      | none => simp [hcs] at hc
      | some cs =>
        simp only [hcs, Option.getD_some] at hc
        exact (mem_allClients h c).mpr ⟨_, cs, hcs, hc⟩
    · exact hc
  rw [broadcastMessage_open h m hrec]
  exact fun e => Outcome.noConfusion e

/-- One event keeps the registered clients in possession of their queues and does not panic,
provided a client that registers is new to the hub. -/
theorem step_ownQueues (h : Hub) (hown : h.OwnQueues) (e : HubEvent)
    (hfresh : ∀ c, e = HubEvent.register c → h.freshFor c) (o : Outcome)
    (hstep : h.step e = some o) :
    (∀ hp, o ≠ Outcome.panicked hp) ∧ ∀ h', o.state? = some h' → h'.OwnQueues := by
  cases e with
  | register c =>
    simp only [Hub.step, Option.some.injEq] at hstep
    subst hstep
    constructor
    · obtain ⟨h', hs, -⟩ := registerClient_state h c
      intro hp hpan
      rw [hpan] at hs
      simp [Outcome.state?] at hs
    · intro h' hs
      exact ownQueues_registerClient h hown c (hfresh c rfl) h' hs
  | unregister c =>
    simp only [Hub.step, Option.some.injEq] at hstep
    subst hstep
    constructor
    · apply unregisterClient_no_panic
      intro d hd
      unfold Hub.clientsOf at hd
      cases hcs : h.clients.lookup c.userID with
      | none => simp [hcs] at hd
      | some cs =>
        simp only [hcs, Option.getD_some] at hd
        exact (hown.1 _ cs hcs).2 d hd
    · intro h' hs
      exact ownQueues_unregisterClient h hown c h' hs
  | send m =>
    simp only [Hub.step] at hstep
    cases henq : h.enqueue m with
    | none => simp [henq] at hstep
    | some h1 =>
      simp only [henq, Option.map_some', Option.some.injEq] at hstep
      subst hstep
      have hh1 := (enqueue_some h m h1 henq).1
      refine ⟨fun _ e => Outcome.noConfusion e, ?_⟩
      intro h' hs
      simp only [Outcome.state?, Option.some.injEq] at hs
      rw [← hs, hh1]
      exact hown
  | dispatch =>
    simp only [Hub.step, Hub.dispatchBroadcast] at hstep
    cases hb : h.broadcast with
    | nil => simp [hb] at hstep
    | cons m rest =>
      simp only [hb, Option.some.injEq] at hstep
      have hown1 : Hub.OwnQueues { h with broadcast := rest } := hown
      subst hstep
      constructor
      · exact broadcastMessage_no_panic _ (ownQueues_registeredOpen _ hown1) m
      · intro h' hs
        obtain ⟨-, hh'⟩ := broadcastMessage_state _ m h' hs
        rw [hh']
        constructor
        · intro u cs hcs
          refine ⟨(hown.1 u cs hcs).1, ?_⟩
          intro c hc
          show (deliver h.queues _ m c.send).closed = false
          rw [deliver_closed]
          exact (hown.1 u cs hcs).2 c hc
        · exact hown.2
  | write msg u =>
    simp only [Hub.step, Option.some.injEq] at hstep
    subst hstep
    refine ⟨fun _ e => Outcome.noConfusion e, ?_⟩
    intro h' hs
    simp only [Outcome.state?, Option.some.injEq] at hs
    rw [← hs]
    exact hown

theorem runEvents_ownQueues :
    ∀ (events : List HubEvent) (h : Hub), h.OwnQueues → h.registersFresh events = true →
      (∀ hp, h.runEvents events ≠ some (Outcome.panicked hp)) ∧
      ∀ h', h.runEvents events = some (Outcome.done h') → h'.OwnQueues := by
  intro events
  induction events with
  | nil =>
    intro h hown _
    refine ⟨by simp [Hub.runEvents], ?_⟩
    intro h' hh'
    simp only [Hub.runEvents, Option.some.injEq, Outcome.done.injEq] at hh'
    rw [← hh']
    exact hown
  | cons e es ih =>
    intro h hown hfresh
    simp only [Hub.registersFresh, Bool.and_eq_true] at hfresh
    obtain ⟨hnow, hlater⟩ := hfresh
    have hreg : ∀ c, e = HubEvent.register c → h.freshFor c := by
      intro c hc
      subst hc
      simpa using hnow
    cases hstep : h.step e with
    | none => simp [Hub.runEvents, hstep]
    | some o =>
      obtain ⟨hnp, hpres⟩ := step_ownQueues h hown e hreg o hstep
      cases o with
      | done h1 =>
        simp only [hstep] at hlater
        simp only [Hub.runEvents, hstep]
        exact ih h1 (hpres h1 rfl) hlater
      | blocked h1 => simp [Hub.runEvents, hstep]
      | panicked h1 => exact absurd rfl (hnp h1)

/-- C24 (amended): in every hub state reachable from the empty hub by any finite sequence of
register, unregister and broadcast steps (messages being put on the broadcast channel by its
producers) in which every register step submits a client that is new to the hub, that is, whose
outbound queue is open and is not the queue of a client held in the map, every client held in
the clients map has an open outbound queue; hence no broadcast step sends on a closed queue and
no unregister step closes a queue that is already closed: no step of the sequence panics, and
neither does a further broadcast or unregister step. -/
theorem registered_queues_stay_open (queues : Nat → Chan) (events : List HubEvent)
    (hfresh : (NewHub queues).registersFresh events = true) :
    (∀ hp, (NewHub queues).runEvents events ≠ some (Outcome.panicked hp)) ∧
    ∀ h, (NewHub queues).runEvents events = some (Outcome.done h) →
      h.RegisteredOpen ∧ (∀ m hp, h.broadcastMessage m ≠ Outcome.panicked hp) ∧
      (∀ c hp, h.unregisterClient c ≠ Outcome.panicked hp) := by
  obtain ⟨hnp, hinv⟩ :=
    runEvents_ownQueues events (NewHub queues) (ownQueues_NewHub queues) hfresh
  refine ⟨hnp, ?_⟩
  intro h hrun
  have hown := hinv h hrun
  have hopen := ownQueues_registeredOpen h hown
  refine ⟨hopen, broadcastMessage_no_panic h hopen, ?_⟩
  intro c
  apply unregisterClient_no_panic
  intro d hd
  unfold Hub.clientsOf at hd
  cases hcs : h.clients.lookup c.userID with
  | none => simp [hcs] at hd
  | some cs =>
    simp only [hcs, Option.getD_some] at hd
    exact (hown.1 _ cs hcs).2 d hd

/-- Witness of `registered_queues_stay_open`: two devices of `A` and one of `B` connect, a message
for `A` is sent, the oldest pending message (the online announcement of `A`) is dispatched, and
the first device of `A` disconnects. -/
theorem registered_queues_stay_open_witness :
    (NewHub emptyQueues).registersFresh sessionEvents = true ∧
    ∃ h, (NewHub emptyQueues).runEvents sessionEvents = some (Outcome.done h) ∧
      h.allClients = [clientA2, clientB1] ∧
      (h.queues clientA2.send).buf = [Hub.presenceMessage "A" true] ∧
      h.RegisteredOpen ∧ (∀ m hp, h.broadcastMessage m ≠ Outcome.panicked hp) ∧
      (∀ c hp, h.unregisterClient c ≠ Outcome.panicked hp) := by
  have hfresh : (NewHub emptyQueues).registersFresh sessionEvents = true := by decide
  refine ⟨hfresh, _, rfl, ?_, ?_, ?_⟩
  · decide
  · decide
  · exact (registered_queues_stay_open emptyQueues sessionEvents hfresh).2 _ rfl

/-- C24 (counterexample): two sequences of register and unregister steps from the empty hub that
leave in the map a client whose outbound queue is closed: the same client is registered twice
and unregistered once, or registered again after it has been unregistered. In the state the
first one leaves, a broadcast step to the user sends on the closed queue and an unregister step
closes it again: both panic. -/
theorem registered_queues_stay_open_counterexample :
    (∃ h, (NewHub emptyQueues).runEvents doubleRegister = some (Outcome.done h) ∧
      clientA1 ∈ h.allClients ∧ (h.queues clientA1.send).closed = true ∧
      (∃ hp, h.broadcastMessage chatA = Outcome.panicked hp) ∧
      (∃ hp, h.unregisterClient clientA1 = Outcome.panicked hp)) ∧
    (∃ hp, (NewHub emptyQueues).runEvents
      (doubleRegister ++ [HubEvent.send chatA, HubEvent.dispatch]) =
        some (Outcome.panicked hp)) ∧
    (∃ h, (NewHub emptyQueues).runEvents
        [HubEvent.register clientA1, HubEvent.unregister clientA1,
          HubEvent.register clientA1] = some (Outcome.done h) ∧
      clientA1 ∈ h.allClients ∧ (h.queues clientA1.send).closed = true) :=
  ⟨⟨_, rfl, by decide, by decide, ⟨_, rfl⟩, ⟨_, rfl⟩⟩, ⟨_, rfl⟩, ⟨_, rfl, by decide, by decide⟩⟩
